import Mathlib

/-!
# go-strava-api: error classification, rate limiting, token management, request
dispatch and polylines

A shallow embedding of `internal/errors.go`, `internal/ratelimit/ratelimit.go`,
`internal/auth/auth.go`, the request path of `strava.go` and the polyline
functions of `internal/utils/utils.go` of the Strava client library, together
with the properties of these components that the design document states.

Conventions of the embedding

* A Go `string` and a Go `[]byte` are both finite byte sequences (`GoString`);
  the conversion `string(body)` is the identity on them.
* Go `int` values are integers. Outside the polyline functions the embedded code
  only compares and copies them; the polyline functions compute with them, and
  there an `int` has 64 bits: sums, differences and left shifts wrap around as
  int64 values do, and `&`, `|`, `^` and `>>` are the operations of the same name
  on integers in two's complement.
* The polyline functions are embedded from the point where a coordinate has been
  rounded, `int(math.Round(coord * 1e5))`, to the point where the decoder divides,
  `float64(lat) / 1e5`; floating point is outside the embedding.
* A `time.Time` is the integer number of nanoseconds since the zero instant
  (January 1, year 1, 00:00:00 UTC); a `time.Duration` is an integer number of
  nanoseconds, and the subtraction of instants saturates at the int64 range as
  `time.Time.Sub` documents.
* Functions of the Go standard library whose full behaviour is outside the
  repository (`json.Unmarshal`, `json.Marshal`, `url.Parse`, `fmt.Sscanf`, the
  HTTP round trip) are parameters of the definitions that call them; the small
  ones whose behaviour is fixed by their documentation (`url.QueryEscape`,
  `url.QueryUnescape`, `url.ParseQuery`, `Values.Encode`, `strings.Join`,
  `strings.Split`) are embedded.
* Go int64 arithmetic wraps around; `wrapInt64` is applied where the code
  computes with an int64.
* A pointer is taken to be non-nil unless the code tests it for nil or a property
  is about its absence; the token of a manager is such a pointer. The update
  callback of a token manager does not touch the manager or the token.
* The embedding is sequential: one caller at a time, so the mutex of the limiter
  has no counterpart. The token manager has no lock; callers of `GetAccessToken`
  that overlap are embedded by cutting the method where it blocks and running
  the parts in the order of a schedule.
* Time passes only in `time.Sleep` and in a `select` that blocks; a timer of
  duration `d` fires exactly `d` after it was armed, which is the least time the
  runtime guarantees. A context is given by the instant at which it is cancelled.
* An operation passed to `RetryWithBackoff` is given by the results of its
  successive invocations.
-/

namespace Strava

/-! ## Basic Go values -/

/-- A Go string (equally a byte slice): a finite sequence of bytes. -/
abbrev GoString := List UInt8

/-- The bytes of a string literal of the source. -/
def goStr (s : String) : GoString := s.toUTF8.data.toList

/-! ## internal/errors.go -/

/-- Constant `http.StatusTooManyRequests`. -/
def StatusTooManyRequests : Int := 429
/-- Constant `http.StatusUnauthorized`. -/
def StatusUnauthorized : Int := 401
/-- Constant `http.StatusForbidden`. -/
def StatusForbidden : Int := 403
/-- Constant `http.StatusNotFound`. -/
def StatusNotFound : Int := 404

/-- Type `Fault`: a detailed error from the API. -/
structure Fault where
  Resource : GoString
  Field : GoString
  Code : GoString
  deriving DecidableEq, Repr

/-- Type `Error`: a Strava API error. A nil `Errors` slice is the empty list. -/
structure Error where
  StatusCode : Int
  Message : GoString
  Errors : List Fault
  Resource : GoString
  Field : GoString
  Code : GoString
  deriving DecidableEq, Repr

/-- Method `(*Error).IsRateLimitError`. -/
def Error.IsRateLimitError (e : Error) : Bool :=
  e.StatusCode == StatusTooManyRequests

/-- Method `(*Error).IsAuthError`. -/
def Error.IsAuthError (e : Error) : Bool :=
  e.StatusCode == StatusUnauthorized || e.StatusCode == StatusForbidden

/-- Method `(*Error).IsNotFoundError`. -/
def Error.IsNotFoundError (e : Error) : Bool :=
  e.StatusCode == StatusNotFound

/-- The part of an `*http.Response` that `ParseError` reads: the transport status
code and the outcome of `io.ReadAll(resp.Body)`, which is `none` when reading the
body fails. -/
structure HttpResponse where
  StatusCode : Int
  Body : Option GoString
  deriving DecidableEq, Repr

/-- Function `ParseError`. The argument `unmarshal` stands for
`json.Unmarshal(body, &apiErr)` on a zero `Error`: `none` when it reports an
error, `some d` when it succeeds and leaves `d` in `apiErr`. The Go function
always returns a non-nil `*Error`, which is the value given here. -/
def ParseError (unmarshal : GoString → Option Error) (resp : HttpResponse) : Error :=
  match resp.Body with
  | none =>
    { StatusCode := resp.StatusCode
      Message := goStr "failed to read error response"
      Errors := [], Resource := [], Field := [], Code := [] }
  | some body =>
    match unmarshal body with
    | none =>
      { StatusCode := resp.StatusCode
        Message := body
        Errors := [], Resource := [], Field := [], Code := [] }
    | some apiErr => { apiErr with StatusCode := resp.StatusCode }

/-- The errors of package `context` that `ctx.Err()` can report. -/
inductive CtxErr where
  | Canceled
  | DeadlineExceeded
  deriving DecidableEq, Repr

/-- A non-nil value of the Go interface `error`, by dynamic type: an `*Error` of
this library, an error of package `context`, an error wrapping another one
(`fmt.Errorf` with `%w`), or any other error. A nil `error` is `none` of
`Option GoError`. -/
inductive GoError where
  | api (e : Error)
  | ctx (e : CtxErr)
  | wrapped (msg : GoString) (inner : GoError)
  | other (msg : GoString)
  deriving DecidableEq, Repr

/-- Function `IsError`: the type assertion `err.(*Error)`. -/
def IsError : Option GoError → Bool
  | some (.api _) => true
  | _ => false

/-- Function `IsRateLimitError` of package `internal`. -/
def IsRateLimitError : Option GoError → Bool
  | some (.api e) => e.IsRateLimitError
  | _ => false

/-- Function `IsAuthError` of package `internal`. -/
def IsAuthError : Option GoError → Bool
  | some (.api e) => e.IsAuthError
  | _ => false

/-- Function `IsNotFoundError` of package `internal`. -/
def IsNotFoundError : Option GoError → Bool
  | some (.api e) => e.IsNotFoundError
  | _ => false

/-! ## Instants, durations and contexts -/

/-- A `time.Time`: nanoseconds since the zero instant. -/
abbrev Time := Int

/-- A `time.Duration`: a number of nanoseconds. -/
abbrev Duration := Int

/-- Constant `time.Millisecond`. -/
def Millisecond : Duration := 1000000
/-- Constant `time.Second`. -/
def Second : Duration := 1000000000
/-- The largest `time.Duration`, `1<<63 - 1` nanoseconds. -/
def maxDuration : Duration := 9223372036854775807
/-- The smallest `time.Duration`, `-1 << 63` nanoseconds. -/
def minDuration : Duration := -9223372036854775808

/-- Method `Time.IsZero`: whether the instant is the zero instant. -/
def Time.IsZero (t : Time) : Bool := t == 0

/-- Method `Time.Sub`: the duration `t - u`; when it exceeds the largest (or
smallest) duration, the largest (or smallest) duration is returned. -/
def Time.Sub (t u : Time) : Duration :=
  if t - u > maxDuration then maxDuration
  else if t - u < minDuration then minDuration
  else t - u

/-- Function `time.Until(t)`, that is `t.Sub(time.Now())`, with the clock reading
`now`. -/
def Until (now t : Time) : Duration := Time.Sub t now

/-- How long `time.Sleep(d)` pauses the caller: `d`, and not at all when `d` is
negative or zero. -/
def sleepTime (d : Duration) : Duration := max d 0

/-- A `context.Context` as the limiter observes it: the instant at which its
`Done` channel is closed (`none` when that never happens) and the error `Err`
reports from then on. -/
structure Context where
  doneAt : Option Time
  err : CtxErr
  deriving DecidableEq, Repr

/-- The case a `select` over `ctx.Done()` and a timer channel takes. -/
inductive SelectCase where
  | ctxDone
  | timerFired
  deriving DecidableEq, Repr

/-- The statement `select { case <-ctx.Done(): ..; case <-timer.C: .. }` entered
at instant `now` with a timer of duration `d` armed at `now`. The timer channel is
ready at `now + d` (at once when `d <= 0`), the done channel from `doneAt` on. The
case that is ready first is taken; when both become ready at the same instant Go
picks either, which is the argument `tie`. The result is the case taken and the
time the caller was blocked. -/
def selectCtxTimer (ctx : Context) (now : Time) (d : Duration) (tie : SelectCase) :
    SelectCase × Duration :=
  match ctx.doneAt with
  | none => (.timerFired, sleepTime d)
  | some c =>
    if max c now < now + sleepTime d then (.ctxDone, max c now - now)
    else if max c now = now + sleepTime d then (tie, sleepTime d)
    else (.timerFired, sleepTime d)

/-! ## internal/ratelimit/ratelimit.go -/

/-- Type `RateLimitInfo`: rate limit information from response headers. -/
structure RateLimitInfo where
  Limit : Int
  Usage : Int
  Reset : Time
  deriving DecidableEq, Repr

/-- Type `RateLimiter`, without its mutex. -/
structure RateLimiter where
  limit : Int
  usage : Int
  reset : Time
  minDelay : Duration
  maxRetries : Int
  enabled : Bool
  deriving DecidableEq, Repr

/-- Type `RateLimiterConfig`. -/
structure RateLimiterConfig where
  Enabled : Bool
  MinDelay : Duration
  MaxRetries : Int
  deriving DecidableEq, Repr

/-- Function `NewRateLimiter`; a nil `config` is `none`. -/
def NewRateLimiter (config : Option RateLimiterConfig) : RateLimiter :=
  let rl : RateLimiter :=
    { limit := 0, usage := 0, reset := 0
      enabled := true, minDelay := 100 * Millisecond, maxRetries := 3 }
  match config with
  | none => rl
  | some config =>
    let rl := if !config.Enabled then { rl with enabled := false } else rl
    let rl := if config.MinDelay > 0 then { rl with minDelay := config.MinDelay } else rl
    let rl := if config.MaxRetries > 0 then { rl with maxRetries := config.MaxRetries } else rl
    rl

/-- What the quota check of `Wait` did: nothing, a suspension on the reset timer
that ran to completion, or one that the context cut short; with the time the
caller was blocked in the `select`. -/
inductive QuotaPhase where
  | notNeeded
  | completed (blocked : Duration)
  | cancelled (blocked : Duration)
  deriving DecidableEq, Repr

/-- The observable result of one call of `Wait`: the returned error, the limiter
state afterwards, the quota suspension, and the time passed in `time.Sleep` when
that statement was reached. -/
structure WaitOutcome where
  err : Option GoError
  rl : RateLimiter
  quota : QuotaPhase
  slept : Option Duration
  deriving DecidableEq, Repr

/-- The time the caller was blocked on the quota timer. -/
def QuotaPhase.blocked : QuotaPhase → Duration
  | .notNeeded => 0
  | .completed b => b
  | .cancelled b => b

/-- Whether `Wait` entered the quota suspension. -/
def QuotaPhase.suspended : QuotaPhase → Bool
  | .notNeeded => false
  | _ => true

/-- The whole time a call of `Wait` kept its caller suspended. -/
def WaitOutcome.elapsed (o : WaitOutcome) : Duration :=
  o.quota.blocked + o.slept.getD 0

/-- Method `(*RateLimiter).Wait`, called at instant `now`. -/
def RateLimiter.Wait (rl : RateLimiter) (ctx : Context) (now : Time) (tie : SelectCase) :
    WaitOutcome :=
  if !rl.enabled then
    { err := none, rl := rl, quota := .notNeeded, slept := none }
  else if rl.limit > 0 && rl.usage ≥ rl.limit then
    let waitTime := Until now rl.reset
    if waitTime > 0 then
      match selectCtxTimer ctx now waitTime tie with
      | (.ctxDone, blocked) =>
        { err := some (.ctx ctx.err), rl := rl, quota := .cancelled blocked, slept := none }
      | (.timerFired, blocked) =>
        let rl1 := { rl with usage := 0 }
        { err := none, rl := rl1, quota := .completed blocked
          slept := some (sleepTime rl1.minDelay) }
    else
      { err := none, rl := rl, quota := .notNeeded, slept := some (sleepTime rl.minDelay) }
  else
    { err := none, rl := rl, quota := .notNeeded, slept := some (sleepTime rl.minDelay) }

/-- Method `(*RateLimiter).Update`. -/
def RateLimiter.Update (rl : RateLimiter) (info : RateLimitInfo) : RateLimiter :=
  if !rl.enabled then rl
  else
    let rl := if info.Limit > 0 then { rl with limit := info.Limit } else rl
    let rl := if info.Usage > 0 then { rl with usage := info.Usage } else rl
    let rl := if !Time.IsZero info.Reset then { rl with reset := info.Reset } else rl
    rl

/-- The observable result of one call of `RetryWithBackoff`: the returned error,
the number of times the operation was invoked, and the durations of the backoff
timers that ran to completion, in order (each is followed by a retry). -/
structure RetryOutcome where
  err : Option GoError
  calls : Nat
  delays : List Duration
  deriving DecidableEq, Repr

/-- The backoff update at the end of a loop round: doubled, at most 30 seconds.
The backoff is between 1 and 30 seconds whenever this runs, so the int64 product
does not overflow. -/
def nextBackoff (backoff : Duration) : Duration :=
  let backoff := backoff * 2
  if backoff > 30 * Second then 30 * Second else backoff

/-- The `for i := 0; i <= rl.maxRetries; i++` loop of `RetryWithBackoff`, from the
loop test of round `i` on. The operation `fn` is given by what its successive
invocations return: `fn i` is the result of invocation number `i`, counted from 0.
`clock i` is the instant at which the timer of round `i` is armed and `tie i` the
choice of the `select` of that round when both channels are ready together. The
first argument bounds the number of rounds; `none` means it was too small. -/
def retryLoop (rl : RateLimiter) (ctx : Context) (fn : Nat → Option GoError)
    (clock : Nat → Time) (tie : Nat → SelectCase) :
    Nat → Nat → Duration → Option GoError → List Duration → Option RetryOutcome
  | 0, i, _, lastErr, delays =>
    if (i : Int) ≤ rl.maxRetries then none
    else some { err := lastErr, calls := i, delays := delays }
  | fuel + 1, i, backoff, lastErr, delays =>
    if (i : Int) ≤ rl.maxRetries then
      match fn i with
      | none => some { err := none, calls := i + 1, delays := delays }
      | some err =>
        if !IsRateLimitError (some err) then
          some { err := some err, calls := i + 1, delays := delays }
        else if (i : Int) = rl.maxRetries then
          some { err := some err, calls := i + 1, delays := delays }
        else
          match (selectCtxTimer ctx (clock i) backoff (tie i)).1 with
          | .ctxDone => some { err := some (.ctx ctx.err), calls := i + 1, delays := delays }
          | .timerFired =>
            retryLoop rl ctx fn clock tie fuel (i + 1) (nextBackoff backoff) (some err)
              (delays ++ [backoff])
    else some { err := lastErr, calls := i, delays := delays }

/-- Method `(*RateLimiter).RetryWithBackoff`. The loop runs at most
`maxRetries + 1` rounds, which is the bound handed to `retryLoop`. -/
def RateLimiter.RetryWithBackoff (rl : RateLimiter) (ctx : Context)
    (fn : Nat → Option GoError) (clock : Nat → Time) (tie : Nat → SelectCase) :
    Option RetryOutcome :=
  if !rl.enabled then some { err := fn 0, calls := 1, delays := [] }
  else retryLoop rl ctx fn clock tie (rl.maxRetries + 1).toNat 0 (1 * Second) none []

/-- A fault payload for examples. -/
def sampleBody : GoString :=
  goStr "\x7b\"message\":\"Rate Limit Exceeded\",\"status_code\":200\x7d"

/-- A decoder for examples: it accepts exactly `sampleBody` and decodes it as
`json.Unmarshal` does, the status code of the payload included. -/
def sampleUnmarshal (body : GoString) : Option Error :=
  if body = sampleBody then
    some { StatusCode := 200, Message := goStr "Rate Limit Exceeded"
           Errors := [], Resource := [], Field := [], Code := [] }
  else none

/-- Whether the quota suspension of `Wait` ran to completion. -/
def QuotaPhase.ranToCompletion : QuotaPhase → Bool
  | .completed _ => true
  | _ => false

/-- A limiter for examples: enabled, at its ceiling of 100 requests. -/
def limiterAtQuota (reset : Time) : RateLimiter :=
  { limit := 100, usage := 100, reset := reset, minDelay := 100 * Millisecond,
    maxRetries := 3, enabled := true }

/-- An instant for examples, in the year 2026. -/
def sampleNow : Time := 63900000000000000000

/-- A context that is never cancelled. -/
def background : Context := { doneAt := none, err := .Canceled }

/-- A context cancelled at instant `t`. -/
def cancelledAt (t : Time) : Context := { doneAt := some t, err := .Canceled }

/-- An operation for examples: every invocation fails with a 429 API error. -/
def alwaysRateLimited : Nat → Option GoError :=
  fun _ => some (.api { StatusCode := 429, Message := goStr "Rate Limit Exceeded"
                        Errors := [], Resource := [], Field := [], Code := [] })

/-! ## net/url: query values -/

/-- The digits of `upperhex`, by index: `"0123456789ABCDEF"[n]`. -/
def upperhex (n : Nat) : UInt8 :=
  if n < 10 then UInt8.ofNat (48 + n) else UInt8.ofNat (55 + n)

/-- Function `shouldEscape(c, encodeQueryComponent)` of package `net/url`: every
byte but the unreserved ones (letters, digits, `-`, `_`, `.`, `~`). -/
def shouldEscape (c : UInt8) : Bool :=
  if (97 ≤ c && c ≤ 122) || (65 ≤ c && c ≤ 90) || (48 ≤ c && c ≤ 57) then false
  else if c = 45 || c = 95 || c = 46 || c = 126 then false
  else true

/-- Function `url.QueryEscape`: a space becomes `+`, any other byte that must be
escaped becomes `%XX` with upper-case hexadecimal digits. -/
def QueryEscape (s : GoString) : GoString :=
  s.flatMap fun c =>
    if shouldEscape c then
      if c = 32 then [43] else [37, upperhex (c.toNat / 16), upperhex (c.toNat % 16)]
    else [c]

/-- Comparison `a < b` of Go strings: lexicographic on bytes. -/
def strLt : GoString → GoString → Bool
  | [], [] => false
  | [], _ :: _ => true
  | _ :: _, [] => false
  | a :: as, b :: bs => if a < b then true else if b < a then false else strLt as bs

/-- One step of sorting: a key put into a sorted list of keys. -/
def insertKey (k : GoString) : List GoString → List GoString
  | [] => [k]
  | x :: xs => if strLt x k then x :: insertKey k xs else k :: x :: xs

/-- Function `slices.Sort` on keys, which are pairwise different. -/
def sortKeys : List GoString → List GoString
  | [] => []
  | k :: ks => insertKey k (sortKeys ks)

/-- Type `url.Values`, a `map[string][]string`: one entry per key. -/
abbrev Values := List (GoString × List GoString)

/-- The map lookup `v[key]`; a nil slice when the key is absent. -/
def Values.lookup (v : Values) (key : GoString) : List GoString :=
  match v.find? (fun kv => kv.1 = key) with
  | some kv => kv.2
  | none => []

/-- Method `Values.Set`: the entry of the key is replaced by the single value. -/
def Values.Set (v : Values) (key value : GoString) : Values :=
  v.filter (fun kv => kv.1 ≠ key) ++ [(key, [value])]

/-- Function `strings.Join`. -/
def Join (elems : List GoString) (sep : GoString) : GoString :=
  match elems with
  | [] => []
  | [e] => e
  | e :: es => e ++ sep ++ Join es sep

/-- Method `Values.Encode`: `key=value` pairs, escaped, joined by `&`, in the
order of the sorted keys. -/
def Values.Encode (v : Values) : GoString :=
  Join ((sortKeys (v.map (fun kv => kv.1))).flatMap fun k =>
    (v.lookup k).map fun value => QueryEscape k ++ goStr "=" ++ QueryEscape value) (goStr "&")

/-! ## internal/auth/auth.go -/

/-- Type `OAuth2Config`. -/
structure OAuth2Config where
  ClientID : GoString
  ClientSecret : GoString
  RedirectURI : GoString
  Scopes : List GoString
  deriving DecidableEq, Repr

/-- Type `AuthorizationURLParams`. -/
structure AuthorizationURLParams where
  ApprovalPrompt : GoString
  State : GoString
  deriving DecidableEq, Repr

/-- The query values `q` that `GetAuthorizationURL` has built when it encodes
them; `u.Query()` of the fixed authorization URL is empty. -/
def OAuth2Config.authorizationQuery (c : OAuth2Config) (params : AuthorizationURLParams) :
    Values :=
  let q : Values := []
  let q := q.Set (goStr "client_id") c.ClientID
  let q := q.Set (goStr "response_type") (goStr "code")
  let q := q.Set (goStr "redirect_uri") c.RedirectURI
  let q := if c.Scopes.length > 0 then q.Set (goStr "scope") (Join c.Scopes (goStr ",")) else q
  let q := if params.ApprovalPrompt ≠ [] then
      q.Set (goStr "approval_prompt") params.ApprovalPrompt else q
  let q := if params.State ≠ [] then q.Set (goStr "state") params.State else q
  q

/-- Method `(*OAuth2Config).GetAuthorizationURL`. `u.String()` of the parsed URL
with the new `RawQuery` is the URL followed by `?` and the query when the query is
not empty. -/
def OAuth2Config.GetAuthorizationURL (c : OAuth2Config) (params : AuthorizationURLParams) :
    GoString :=
  let rawQuery := (c.authorizationQuery params).Encode
  goStr "https://www.strava.com/oauth/authorize" ++
    (if rawQuery ≠ [] then goStr "?" ++ rawQuery else [])

/-- Constant `http.StatusOK`. -/
def StatusOK : Int := 200

/-- An int64 result of Go arithmetic: the mathematical result wrapped around into
the range from `-2^63` to `2^63 - 1`. -/
def wrapInt64 (x : Int) : Int :=
  (x + 9223372036854775808) % 18446744073709551616 - 9223372036854775808

/-- Constant `unixToInternal` of package `time`: the seconds from the zero instant
to January 1, 1970 UTC. -/
def unixToInternal : Int := 62135596800

/-- Method `Time.Unix`: the whole seconds since January 1, 1970 UTC. -/
def Time.Unix (t : Time) : Int := t / Second - unixToInternal

/-- Type `models.Athlete`, the identity snapshot of a token response. No function
of the token manager reads a field of it; it is kept by its identifier. -/
structure Athlete where
  ID : Int
  deriving DecidableEq, Repr

/-- Type `TokenResponse`; `ExpiresAt` is an int64 of seconds since 1970, a nil
`Athlete` pointer is `none`. -/
structure TokenResponse where
  TokenType : GoString
  ExpiresAt : Int
  ExpiresIn : Int
  RefreshToken : GoString
  AccessToken : GoString
  Athlete : Option Athlete
  deriving DecidableEq, Repr

/-- What `doTokenRequest` meets outside the program: `roundTrip body` is the
outcome of `client.Do(req)` for the POST request with that form body, an error or
a response; `decodeToken` is `json.NewDecoder(resp.Body).Decode(&tokenResp)` on
the body of the response; `unmarshal` is the `json.Unmarshal` of `ParseError`. -/
structure TokenEndpoint where
  roundTrip : GoString → Except GoError HttpResponse
  decodeToken : Option GoString → Except GoError TokenResponse
  unmarshal : GoString → Option Error

/-- Method `(*OAuth2Config).doTokenRequest`. Building the request cannot fail: the
method and the URL are constants. -/
def OAuth2Config.doTokenRequest (_c : OAuth2Config) (w : TokenEndpoint) (data : Values) :
    Except GoError TokenResponse :=
  match w.roundTrip data.Encode with
  | .error err => .error err
  | .ok resp =>
    if resp.StatusCode ≠ StatusOK then .error (.api (ParseError w.unmarshal resp))
    else
      match w.decodeToken resp.Body with
      | .error err => .error (.wrapped (goStr "failed to decode token response: ") err)
      | .ok tokenResp => .ok tokenResp

/-- Method `(*OAuth2Config).ExchangeCode`. -/
def OAuth2Config.ExchangeCode (c : OAuth2Config) (w : TokenEndpoint) (code : GoString) :
    Except GoError TokenResponse :=
  c.doTokenRequest w
    [(goStr "client_id", [c.ClientID]), (goStr "client_secret", [c.ClientSecret]),
     (goStr "code", [code]), (goStr "grant_type", [goStr "authorization_code"])]

/-- Method `(*OAuth2Config).RefreshToken`. -/
def OAuth2Config.RefreshToken (c : OAuth2Config) (w : TokenEndpoint)
    (refreshToken : GoString) : Except GoError TokenResponse :=
  c.doTokenRequest w
    [(goStr "client_id", [c.ClientID]), (goStr "client_secret", [c.ClientSecret]),
     (goStr "refresh_token", [refreshToken]), (goStr "grant_type", [goStr "refresh_token"])]

/-- Type `TokenManager`. A nil `token` is `none`; `onTokenUpdate` is `none` when no
callback is set and names the registered function otherwise. -/
structure TokenManager where
  config : OAuth2Config
  token : Option TokenResponse
  refreshToken : GoString
  onTokenUpdate : Option Nat
  deriving DecidableEq, Repr

/-- Function `NewTokenManager`. With a nil `token` the field read
`token.RefreshToken` dereferences nil and the call panics: the result is `none`. -/
def NewTokenManager (config : OAuth2Config) (token : Option TokenResponse) :
    Option TokenManager :=
  match token with
  | none => none
  | some t => some { config := config, token := some t, refreshToken := t.RefreshToken,
                     onTokenUpdate := none }

/-- Method `(*TokenManager).SetTokenUpdateCallback`. -/
def TokenManager.SetTokenUpdateCallback (tm : TokenManager) (callback : Option Nat) :
    TokenManager :=
  { tm with onTokenUpdate := callback }

/-- The result of `UpdateToken`: the manager afterwards, and whether the call
panicked. -/
structure UpdateTokenOutcome where
  tm : TokenManager
  panicked : Bool
  deriving DecidableEq, Repr

/-- Method `(*TokenManager).UpdateToken`. With a nil `token` the assignment
`tm.token = token` is made and the read `token.RefreshToken` then panics. -/
def TokenManager.UpdateToken (tm : TokenManager) (token : Option TokenResponse) :
    UpdateTokenOutcome :=
  let tm1 := { tm with token := token }
  match token with
  | none => { tm := tm1, panicked := true }
  | some t =>
    if t.RefreshToken ≠ [] then
      { tm := { tm1 with refreshToken := t.RefreshToken }, panicked := false }
    else { tm := tm1, panicked := false }

/-- Method `(*TokenManager).GetToken`. -/
def TokenManager.GetToken (tm : TokenManager) : Option TokenResponse := tm.token

/-- The test of `GetAccessToken` for a refresh being due, at instant `now`:
`time.Now().Unix() >= (tm.token.ExpiresAt - 300)`, with the int64 subtraction. -/
def TokenResponse.refreshDue (t : TokenResponse) (now : Time) : Bool :=
  decide (Time.Unix now ≥ wrapInt64 (t.ExpiresAt - 300))

/-- The observable result of one call of `GetAccessToken`: the returned string and
error, the manager afterwards, the refresh tokens of the calls of `RefreshToken`
it made (each is one request to the token endpoint), and the arguments with which
it invoked the update callback. -/
structure AccessTokenOutcome where
  accessToken : GoString
  err : Option GoError
  tm : TokenManager
  exchanges : List GoString
  notified : List TokenResponse
  deriving DecidableEq, Repr

/-- Method `(*TokenManager).GetAccessToken`, called at instant `now`. -/
def TokenManager.GetAccessToken (tm : TokenManager) (w : TokenEndpoint) (now : Time) :
    AccessTokenOutcome :=
  match tm.token with
  | none =>
    { accessToken := [], err := some (.other (goStr "no token available")), tm := tm,
      exchanges := [], notified := [] }
  | some token =>
    if token.refreshDue now then
      if tm.refreshToken = [] then
        { accessToken := []
          err := some (.other (goStr "token expired and no refresh token available"))
          tm := tm, exchanges := [], notified := [] }
      else
        match tm.config.RefreshToken w tm.refreshToken with
        | .error err =>
          { accessToken := []
            err := some (.wrapped (goStr "failed to refresh token: ") err)
            tm := tm, exchanges := [tm.refreshToken], notified := [] }
        | .ok newToken =>
          let tm1 := { tm with token := some newToken, refreshToken := newToken.RefreshToken }
          { accessToken := newToken.AccessToken, err := none, tm := tm1
            exchanges := [tm.refreshToken]
            notified := if tm1.onTokenUpdate.isSome then [newToken] else [] }
    else
      { accessToken := token.AccessToken, err := none, tm := tm, exchanges := [],
        notified := [] }

/-- A token response for examples: it expires at second `expiresAt`. -/
def sampleToken (expiresAt : Int) (refreshToken : GoString) : TokenResponse :=
  { TokenType := goStr "Bearer", ExpiresAt := expiresAt, ExpiresIn := 21600,
    RefreshToken := refreshToken, AccessToken := goStr "access-1", Athlete := none }

/-- The token response that the endpoint of the examples grants: a new access
token and refresh token, expiring 100000 seconds after `sampleNow`. -/
def grantedToken : TokenResponse :=
  { TokenType := goStr "Bearer", ExpiresAt := 1764503200, ExpiresIn := 21600,
    RefreshToken := goStr "r2", AccessToken := goStr "access-2", Athlete := none }

/-- A configuration for examples. -/
def sampleConfig : OAuth2Config :=
  { ClientID := goStr "12345", ClientSecret := goStr "secret",
    RedirectURI := goStr "http://localhost:8080/callback",
    Scopes := [goStr "read", goStr "activity:read_all"] }

/-- A token endpoint for examples that answers every request with status 200 and
the token `t`. -/
def endpointGranting (t : TokenResponse) : TokenEndpoint :=
  { roundTrip := fun _ => .ok { StatusCode := 200, Body := some [] }
    decodeToken := fun _ => .ok t
    unmarshal := fun _ => none }

/-- A token endpoint for examples that answers every request with status 401. -/
def endpointRefusing : TokenEndpoint :=
  { roundTrip := fun _ => .ok { StatusCode := 401, Body := some (goStr "Unauthorized") }
    decodeToken := fun _ => .error (.other (goStr "EOF"))
    unmarshal := fun _ => none }

/-- A manager for examples holding `sampleToken`. -/
def sampleManager (expiresAt : Int) (refreshToken : GoString) : TokenManager :=
  { config := sampleConfig, token := some (sampleToken expiresAt refreshToken),
    refreshToken := refreshToken, onTokenUpdate := some 1 }

/-- Function `time.Unix(sec, 0)`: the instant `sec` seconds after January 1, 1970
UTC. -/
def unixTime (sec : Int) : Time := (sec + unixToInternal) * Second

/-- Method `(*TokenResponse).ExpirationTime`. -/
def TokenResponse.ExpirationTime (t : TokenResponse) : Time := unixTime t.ExpiresAt

/-- Method `(*TokenResponse).IsExpired`, at instant `now`. -/
def TokenResponse.IsExpired (t : TokenResponse) (now : Time) : Bool :=
  decide (Time.Unix now ≥ t.ExpiresAt)

/-! ## Callers of `GetAccessToken` that overlap

`GetAccessToken` blocks at one place, the call of `tm.config.RefreshToken`, and
the manager has no lock. Another caller can therefore run while the request of
the first is in flight. The definitions below cut the method at that place. -/

/-- Where one call of `GetAccessToken` stands: not yet entered, blocked in
`RefreshToken` with the request for that refresh token in flight, or returned. -/
inductive CallState where
  | ready
  | inFlight (refreshToken : GoString)
  | done (accessToken : GoString) (err : Option GoError)
  deriving DecidableEq, Repr

/-- The statements of `GetAccessToken` up to the call of `RefreshToken`: the nil
test, the test for a refresh being due and the test of the refresh token. They
read the manager and write nothing. -/
def TokenManager.enterGetAccessToken (tm : TokenManager) (now : Time) : CallState :=
  match tm.token with
  | none => .done [] (some (.other (goStr "no token available")))
  | some token =>
    if token.refreshDue now then
      if tm.refreshToken = [] then
        .done [] (some (.other (goStr "token expired and no refresh token available")))
      else .inFlight tm.refreshToken
    else .done token.AccessToken none

/-- The statements of `GetAccessToken` after `RefreshToken` has returned `result`:
the manager afterwards, the state of the call, and the arguments with which the
callback was invoked. -/
def TokenManager.resumeGetAccessToken (tm : TokenManager)
    (result : Except GoError TokenResponse) :
    TokenManager × CallState × List TokenResponse :=
  match result with
  | .error err => (tm, .done [] (some (.wrapped (goStr "failed to refresh token: ") err)), [])
  | .ok newToken =>
    let tm1 := { tm with token := some newToken, refreshToken := newToken.RefreshToken }
    (tm1, .done newToken.AccessToken none,
      if tm1.onTokenUpdate.isSome then [newToken] else [])

/-- One manager shared by several callers of `GetAccessToken`: the manager, the
state of each call, the refresh tokens of the requests sent to the token endpoint
so far, and the invocations of the callback so far. -/
structure SharedManager where
  tm : TokenManager
  calls : List CallState
  exchanges : List GoString
  notified : List TokenResponse
  deriving DecidableEq, Repr

/-- Caller `i` runs until it blocks or returns: a call not yet entered runs the
first part of `GetAccessToken` and, when it reaches `RefreshToken`, sends its
request; a call whose request is in flight receives the answer of the endpoint and
runs the rest. -/
def SharedManager.step (w : TokenEndpoint) (now : Time) (s : SharedManager) (i : Nat) :
    SharedManager :=
  match s.calls[i]? with
  | some .ready =>
    match s.tm.enterGetAccessToken now with
    | .inFlight rt =>
      { s with calls := s.calls.set i (.inFlight rt), exchanges := s.exchanges ++ [rt] }
    | st => { s with calls := s.calls.set i st }
  | some (.inFlight rt) =>
    match s.tm.resumeGetAccessToken (s.tm.config.RefreshToken w rt) with
    | (tm1, st, notified) =>
      { s with tm := tm1, calls := s.calls.set i st, notified := s.notified ++ notified }
  | _ => s

/-- The callers run in the order of a schedule, a list of caller numbers. -/
def SharedManager.run (w : TokenEndpoint) (now : Time) (s : SharedManager)
    (schedule : List Nat) : SharedManager :=
  schedule.foldl (SharedManager.step w now) s

/-- The outcomes of calls of `GetAccessToken` made in turn, each after the one
before has returned, at the instants `nows`. -/
def callsInTurn (w : TokenEndpoint) : List Time → TokenManager → List AccessTokenOutcome
  | [], _ => []
  | now :: nows, tm => tm.GetAccessToken w now :: callsInTurn w nows (tm.GetAccessToken w now).tm

/-- A token endpoint for examples that answers every request with status 429. -/
def endpointLimiting : TokenEndpoint :=
  { roundTrip := fun _ => .ok { StatusCode := 429, Body := some (goStr "Rate Limit Exceeded") }
    decodeToken := fun _ => .error (.other (goStr "EOF"))
    unmarshal := fun _ => none }

/-! ## strava.go -/

/-- Type `http.Header`, a `map[string][]string` whose keys are in canonical form
(`X-RateLimit-Limit` is stored as `X-Ratelimit-Limit`). -/
abbrev Header := Values

/-- Method `Header.Get` for a key given in canonical form: the first value of the
key, the empty string when there is none. -/
def Header.Get (h : Header) (key : GoString) : GoString :=
  match Values.lookup h key with
  | [] => []
  | value :: _ => value

/-- The part of an `*http.Response` that `Client.Do` reads: status code, headers,
and the bytes of the body (`none` when reading them fails). -/
structure TransportResponse where
  StatusCode : Int
  Header : Header
  Body : Option GoString
  deriving DecidableEq, Repr

/-- The response as `ParseError` reads it. -/
def TransportResponse.toHttp (resp : TransportResponse) : HttpResponse :=
  { StatusCode := resp.StatusCode, Body := resp.Body }

/-- Function `parseRateLimitHeaders`. `sscanInt s` stands for
`fmt.Sscanf(s, "%d", &n)`: the integer it stores, `none` when it stores nothing and
the field keeps its zero. -/
def parseRateLimitHeaders (sscanInt : GoString → Option Int) (headers : Header) :
    RateLimitInfo :=
  let info : RateLimitInfo := { Limit := 0, Usage := 0, Reset := 0 }
  let info :=
    if Header.Get headers (goStr "X-Ratelimit-Limit") ≠ [] then
      { info with
        Limit := (sscanInt (Header.Get headers (goStr "X-Ratelimit-Limit"))).getD info.Limit }
    else info
  let info :=
    if Header.Get headers (goStr "X-Ratelimit-Usage") ≠ [] then
      { info with
        Usage := (sscanInt (Header.Get headers (goStr "X-Ratelimit-Usage"))).getD info.Usage }
    else info
  info

/-- Type `Client`, without its services and its HTTP client; the latter is the
`roundTrip` of a `DoEnv`. -/
structure Client where
  baseURL : GoString
  accessToken : GoString
  rateLimiter : RateLimiter
  deriving DecidableEq, Repr

/-- Type `ClientOptions`, without the HTTP client. -/
structure ClientOptions where
  BaseURL : GoString
  RateLimit : Option RateLimiterConfig
  deriving DecidableEq, Repr

/-- Constant `BaseURL`. -/
def BaseURL : GoString := goStr "https://www.strava.com/api/v3"

/-- Function `NewClientWithOptions`. -/
def NewClientWithOptions (accessToken : GoString) (opts : ClientOptions) : Client :=
  let opts := if opts.BaseURL = [] then { opts with BaseURL := BaseURL } else opts
  { baseURL := opts.BaseURL, accessToken := accessToken,
    rateLimiter := NewRateLimiter opts.RateLimit }

/-- Function `NewClient`. -/
def NewClient (accessToken : GoString) : Client :=
  NewClientWithOptions accessToken { BaseURL := [], RateLimit := none }

/-- Method `(*Client).SetAccessToken`. -/
def Client.SetAccessToken (c : Client) (token : GoString) : Client :=
  { c with accessToken := token }

/-- An `*http.Request` as the client builds it: method, URL, headers and the bytes
of the body (`none` when there is no body). -/
structure Request where
  Method : GoString
  URL : GoString
  Header : Header
  Body : Option GoString
  deriving DecidableEq, Repr

/-- The `body interface{}` argument of `NewRequest`, by the case of the type switch
it takes: nil; a `url.Values`; an `io.Reader`, given by the bytes it yields; any
other value, given by what `json.Marshal` returns for it. -/
inductive RequestBody where
  | absent
  | values (v : Values)
  | reader (content : GoString)
  | other (json : Except GoError GoString)

/-- What `NewRequest` uses from the standard library: `parseURL s` is `url.Parse(s)`
followed by `u.String()`, or the error of `url.Parse`; `requestError method url` is
the error of `http.NewRequestWithContext`, if any. A request that
`http.NewRequestWithContext` returns has the method it was given, and `GET` when
that is the empty string. -/
structure RequestEnv where
  parseURL : GoString → Except GoError GoString
  requestError : GoString → GoString → Option GoError

/-- Method `(*Client).NewRequest`. -/
def Client.NewRequest (c : Client) (env : RequestEnv) (method path : GoString)
    (body : RequestBody) : Except GoError Request :=
  match env.parseURL (c.baseURL ++ path) with
  | .error err => .error err
  | .ok u =>
    let bodyReader : Except GoError (Option GoString) :=
      match body with
      | .absent => .ok none
      | .values v => .ok (some v.Encode)
      | .reader content => .ok (some content)
      | .other json =>
        match json with
        | .error err => .error err
        | .ok jsonBody => .ok (some jsonBody)
    match bodyReader with
    | .error err => .error err
    | .ok bodyReader =>
      match env.requestError method u with
      | some err => .error err
      | none =>
        let header : Header := []
        let header := Values.Set header (goStr "Authorization") (goStr "Bearer " ++ c.accessToken)
        let header :=
          match body with
          | .absent => header
          | .values _ =>
            Values.Set header (goStr "Content-Type") (goStr "application/x-www-form-urlencoded")
          | _ => Values.Set header (goStr "Content-Type") (goStr "application/json")
        .ok { Method := if method = [] then goStr "GET" else method, URL := u,
              Header := header, Body := bodyReader }

/-- What one call of `Client.Do` meets outside the client: the context, the
instant `now` of the call and the choice `tie` of the `select` in `Wait`;
`roundTrip req`, the outcome of `c.httpClient.Do(req)`; `sscanInt` for
`parseRateLimitHeaders`; `unmarshal`, the `json.Unmarshal` of `ParseError`; and
`decode body`, the error (or nil) of `json.NewDecoder(resp.Body).Decode(result)`. -/
structure DoEnv where
  ctx : Context
  now : Time
  tie : SelectCase
  roundTrip : Request → Except GoError TransportResponse
  sscanInt : GoString → Option Int
  unmarshal : GoString → Option Error
  decode : Option GoString → Option GoError

/-- Type `Response`: the response with the rate limit information read from it. -/
structure Response where
  resp : TransportResponse
  RateLimit : RateLimitInfo
  deriving DecidableEq, Repr

/-- The observable result of one call of `Client.Do`: the returned response and
error, the state of the limiter afterwards, and whether the request was sent,
whether `ParseError` was invoked and whether the body was decoded into the
result. -/
structure DoOutcome where
  response : Option Response
  err : Option GoError
  rateLimiter : RateLimiter
  sent : Bool
  parsedError : Bool
  decoded : Bool
  deriving DecidableEq, Repr

/-- Method `(*Client).Do`; `wantResult` is `result != nil`. -/
def Client.Do (c : Client) (env : DoEnv) (req : Request) (wantResult : Bool) : DoOutcome :=
  let waited := c.rateLimiter.Wait env.ctx env.now env.tie
  match waited.err with
  | some err =>
    { response := none, err := some err, rateLimiter := waited.rl, sent := false,
      parsedError := false, decoded := false }
  | none =>
    match env.roundTrip req with
    | .error err =>
      { response := none, err := some err, rateLimiter := waited.rl, sent := true,
        parsedError := false, decoded := false }
    | .ok resp =>
      let response : Response :=
        { resp := resp, RateLimit := parseRateLimitHeaders env.sscanInt resp.Header }
      let rl := waited.rl.Update response.RateLimit
      if resp.StatusCode ≥ 400 then
        { response := some response, err := some (.api (ParseError env.unmarshal resp.toHttp)),
          rateLimiter := rl, sent := true, parsedError := true, decoded := false }
      else if wantResult then
        { response := some response, err := env.decode resp.Body, rateLimiter := rl,
          sent := true, parsedError := false, decoded := true }
      else
        { response := some response, err := none, rateLimiter := rl, sent := true,
          parsedError := false, decoded := false }

/-- A client and its limiter after a sequence of calls of `Do`, one after the
other. -/
def Client.doAll (c : Client) : List (DoEnv × Request × Bool) → Client
  | [] => c
  | (env, req, wantResult) :: rest =>
    Client.doAll { c with rateLimiter := (c.Do env req wantResult).rateLimiter } rest

/-- An environment of `Do` for examples: the server answers with the given status,
quota headers `100,1000` and `100,250`, and an empty JSON object. -/
def sampleDoEnv (status : Int) : DoEnv :=
  { ctx := background, now := sampleNow, tie := .timerFired
    roundTrip := fun _ => .ok
      { StatusCode := status
        Header := [(goStr "X-Ratelimit-Limit", [goStr "100,1000"]),
                   (goStr "X-Ratelimit-Usage", [goStr "100,250"])]
        Body := some (goStr "\x7b\x7d") }
    sscanInt := fun _ => some 100
    unmarshal := fun _ => none
    decode := fun _ => none }

/-- A request for examples. -/
def sampleRequest : Request :=
  { Method := goStr "GET", URL := goStr "https://www.strava.com/api/v3/athlete",
    Header := [(goStr "Authorization", [goStr "Bearer access-1"])], Body := none }

/-- An environment of `NewRequest` for examples: every URL parses to itself and
every request can be built. -/
def sampleRequestEnv : RequestEnv :=
  { parseURL := fun s => .ok s, requestError := fun _ _ => none }

/-! ## net/url: parsing a query -/

/-- Function `ishex` of package `net/url`. -/
def ishex (c : UInt8) : Bool :=
  (48 ≤ c && c ≤ 57) || (97 ≤ c && c ≤ 102) || (65 ≤ c && c ≤ 70)

/-- Function `unhex` of package `net/url`. -/
def unhex (c : UInt8) : UInt8 :=
  if 48 ≤ c && c ≤ 57 then c - 48
  else if 97 ≤ c && c ≤ 102 then c - 97 + 10
  else if 65 ≤ c && c ≤ 70 then c - 65 + 10
  else 0

/-- Function `url.QueryUnescape`: `%XX` becomes the byte with that hexadecimal
code, `+` becomes a space; `none` is the error for a `%` that is not followed by
two hexadecimal digits. -/
def QueryUnescape : GoString → Option GoString
  | [] => some []
  | c :: rest =>
    if c = 37 then
      match rest with
      | h :: l :: rest2 =>
        if ishex h && ishex l then
          (QueryUnescape rest2).map fun t => (unhex h * 16 + unhex l) :: t
        else none
      | _ => none
    else if c = 43 then (QueryUnescape rest).map fun t => 32 :: t
    else (QueryUnescape rest).map fun t => c :: t

/-- Function `strings.Cut` for a separator of one byte: the text before the first
separator and the text after it, `none` when there is no separator. -/
def cutByte (sep : UInt8) : GoString → GoString × Option GoString
  | [] => ([], none)
  | c :: rest =>
    if c = sep then ([], some rest)
    else ((c :: (cutByte sep rest).1), (cutByte sep rest).2)

/-- Function `strings.Split` for a separator of one byte. -/
def splitByte (sep : UInt8) : GoString → List GoString
  | [] => [[]]
  | c :: rest =>
    if c = sep then [] :: splitByte sep rest
    else
      match splitByte sep rest with
      | [] => [[c]]
      | seg :: segs => (c :: seg) :: segs

/-- The statement `m[key] = append(m[key], value)` on query values. -/
def Values.Add : Values → GoString → GoString → Values
  | [], key, value => [(key, [value])]
  | (k, vs) :: rest, key, value =>
    if k = key then (k, vs ++ [value]) :: rest else (k, vs) :: Values.Add rest key value

/-- Method `Values.Get`: the first value of the key, the empty string when there
is none. -/
def Values.Get (v : Values) (key : GoString) : GoString :=
  match Values.lookup v key with
  | [] => []
  | value :: _ => value

/-- One round of the loop of `parseQuery`, for the text `segment` between two `&`:
a segment with a semicolon or with a malformed escape is reported and skipped, an
empty one is skipped, any other is cut at its first `=` and added unescaped. The
second component is whether an error has been reported. -/
def parseQuerySegment (acc : Values × Bool) (segment : GoString) : Values × Bool :=
  if 59 ∈ segment then (acc.1, true)
  else if segment = [] then acc
  else
    match QueryUnescape (cutByte 61 segment).1 with
    | none => (acc.1, true)
    | some key =>
      match QueryUnescape ((cutByte 61 segment).2.getD []) with
      | none => (acc.1, true)
      | some value => (acc.1.Add key value, acc.2)

/-- Function `url.ParseQuery`: the values, and whether an error is reported. The
loop of `parseQuery` cuts the query at each `&` in turn, which visits the segments
of the query split at `&`. -/
def ParseQuery (query : GoString) : Values × Bool :=
  (splitByte 38 query).foldl parseQuerySegment ([], false)

/-- The field `RawQuery` of the result of `url.Parse`: the fragment after the
first `#` is set aside, and the raw query is what follows the first `?`. -/
def rawQueryOf (rawURL : GoString) : GoString :=
  ((cutByte 63 (cutByte 35 rawURL).1).2).getD []

/-- One `key=value` pair as `Values.Encode` writes it. -/
def querySegment (kv : GoString × GoString) : GoString :=
  QueryEscape kv.1 ++ goStr "=" ++ QueryEscape kv.2

/-- The parameters of the authorization URL as pairs of key and value, in the
order in which `Values.Encode` writes them. -/
def OAuth2Config.authorizationPairs (c : OAuth2Config) (params : AuthorizationURLParams) :
    List (GoString × GoString) :=
  (if params.ApprovalPrompt ≠ [] then [(goStr "approval_prompt", params.ApprovalPrompt)]
    else []) ++
  ([(goStr "client_id", c.ClientID), (goStr "redirect_uri", c.RedirectURI),
    (goStr "response_type", goStr "code")] ++
  ((if c.Scopes ≠ [] then [(goStr "scope", Join c.Scopes (goStr ","))] else []) ++
  (if params.State ≠ [] then [(goStr "state", params.State)] else [])))

/-! ## internal/utils/utils.go: polylines -/

/-- Conversion `byte(x)` of an int `x`: its low eight bits. -/
def byteOfInt (x : Int) : UInt8 := UInt8.ofNat (x % 256).toNat

/-- Operator `x << s` on an int of 64 bits: the product with `2^s`, wrapped
around; zero bits come in from the right and a count of 64 or more gives 0. -/
def shiftLeftInt (x : Int) (s : Nat) : Int := wrapInt64 (x * 2 ^ s)

/-- The loop `for value >= 0x20` of `encodeValue` with the write that follows it:
the bytes written, first to last. A value of 64 bits leaves the loop after at most
twelve rounds; `none` is a loop that is still running when the rounds given are
used up. -/
def encodeGroups : Nat → Int → Option GoString
  | 0, _ => none
  | fuel + 1, value =>
    if value ≥ 32 then
      (encodeGroups fuel (Int.shiftRight value 5)).map fun written =>
        byteOfInt (Int.lor 32 (Int.land value 31) + 63) :: written
    else some [byteOfInt (value + 63)]

/-- Function `encodeValue`: the content of the builder after the call. -/
def encodeValue (encoded : GoString) (value : Int) : Option GoString :=
  let value := if value < 0 then Int.not (shiftLeftInt value 1) else shiftLeftInt value 1
  (encodeGroups 13 value).map fun written => encoded ++ written

/-- The loop of `EncodePolyline` over the coordinates. An entry is given by the
two ints `lat` and `lng` that the loop computes from it,
`int(math.Round(coord[0] * 1e5))` and `int(math.Round(coord[1] * 1e5))`. -/
def encodeCoordinates : List (Int × Int) → Int → Int → GoString → Option GoString
  | [], _, _, encoded => some encoded
  | (lat, lng) :: rest, prevLat, prevLng, encoded =>
    let dlat := wrapInt64 (lat - prevLat)
    let dlng := wrapInt64 (lng - prevLng)
    (encodeValue encoded dlat).bind fun encoded =>
      (encodeValue encoded dlng).bind fun encoded =>
        encodeCoordinates rest lat lng encoded

/-- Function `EncodePolyline`, on the rounded coordinates. -/
def EncodePolyline (coordinates : List (Int × Int)) : Option GoString :=
  encodeCoordinates coordinates 0 0 []

/-- One of the two inner loops of `DecodePolyline`, run on the bytes from `index`
on: the value of `result`, the new `index` and the bytes that remain. `none` is
the panic of `encoded[index]` with `index` at the end of the string. -/
def decodeGroups : GoString → Nat → Nat → Int → Option (Int × Nat × GoString)
  | [], _, _, _ => none
  | c :: rest, index, shift, result =>
    let b : Int := (c.toNat : Int) - 63
    let result := Int.lor result (shiftLeftInt (Int.land b 31) shift)
    if b < 32 then some (result, index + 1, rest)
    else decodeGroups rest (index + 1) (shift + 5) result

/-- The value that `DecodePolyline` adds to `lat` or `lng` for a decoded
`result`. -/
def decodeDelta (result : Int) : Int :=
  if Int.land result 1 ≠ 0 then Int.not (Int.shiftRight result 1) else Int.shiftRight result 1

/-- The ways in which a run of `DecodePolyline` ends without a result: the panic
of an index out of range, and a loop that is still running when the rounds given
are used up. -/
inductive DecodeStop where
  | indexOutOfRange
  | rounds
  deriving DecidableEq, Repr

/-- The outer loop of `DecodePolyline`, run on the bytes from `index` on. The
result is the list of the pairs `lat`, `lng`, of which the code appends
`float64(lat) / 1e5` and `float64(lng) / 1e5`, with the value of `index` when the
loop ends. -/
def decodeCoordinates :
    Nat → GoString → Nat → Int → Int → List (Int × Int) →
      Except DecodeStop (List (Int × Int) × Nat)
  | _, [], index, _, _, coordinates => .ok (coordinates, index)
  | 0, _ :: _, _, _, _, _ => .error .rounds
  | fuel + 1, c :: rest, index, lat, lng, coordinates =>
    match decodeGroups (c :: rest) index 0 0 with
    | none => .error .indexOutOfRange
    | some (result, index, encoded) =>
      let lat := wrapInt64 (lat + decodeDelta result)
      match decodeGroups encoded index 0 0 with
      | none => .error .indexOutOfRange
      | some (result, index, encoded) =>
        let lng := wrapInt64 (lng + decodeDelta result)
        decodeCoordinates fuel encoded index lat lng (coordinates ++ [(lat, lng)])

/-- Function `DecodePolyline`. A round of the outer loop reads at least two
bytes, so the loop has ended after as many rounds as the string has bytes. -/
def DecodePolyline (encoded : GoString) : Except DecodeStop (List (Int × Int) × Nat) :=
  decodeCoordinates encoded.length encoded 0 0 0 []

/-! ## Properties of the error classifier -/

/-- C1: the classification predicates of an API error. Rate-limited holds exactly
for status 429, auth-error exactly for status 401 or 403, not-found exactly for
status 404; for status 429 the three predicates are (true, false, false) and for
status 404 rate-limited is false and not-found is true. -/
theorem error_predicates (e : Error) :
    (e.IsRateLimitError = true ↔ e.StatusCode = 429) ∧
    (e.IsAuthError = true ↔ (e.StatusCode = 401 ∨ e.StatusCode = 403)) ∧
    (e.IsNotFoundError = true ↔ e.StatusCode = 404) ∧
    (({ e with StatusCode := 429 } : Error).IsRateLimitError = true ∧
      ({ e with StatusCode := 429 } : Error).IsAuthError = false ∧
      ({ e with StatusCode := 429 } : Error).IsNotFoundError = false) ∧
    (({ e with StatusCode := 404 } : Error).IsRateLimitError = false ∧
      ({ e with StatusCode := 404 } : Error).IsNotFoundError = true) := by
  simp [Error.IsRateLimitError, Error.IsAuthError, Error.IsNotFoundError,
    StatusTooManyRequests, StatusUnauthorized, StatusForbidden, StatusNotFound]

/-- C2: the error `ParseError` returns carries the status code of the transport
response, whatever the body is and whatever `json.Unmarshal` makes of it; in
particular a payload that decodes with a status code `d.StatusCode` of its own
does not change it. -/
theorem parseError_status (unmarshal : GoString → Option Error) (resp : HttpResponse) :
    (ParseError unmarshal resp).StatusCode = resp.StatusCode ∧
    ∀ (d : Error) (body : GoString),
      (ParseError (fun _ => some d) { StatusCode := resp.StatusCode, Body := some body }).StatusCode
        = resp.StatusCode := by
  refine ⟨?_, fun d body => rfl⟩
  unfold ParseError
  split
  · rfl
  · split <;> rfl

/-- C3: for a response with status `status` whose body `b` was read. When `b`
does not decode, `ParseError` returns the error with that status, the raw bytes of
`b` as message, no fault list and empty resource, field and code. When `b` decodes
to `d`, the message, code, resource, field and fault list are those of `d`. -/
theorem parseError_body (unmarshal : GoString → Option Error) (status : Int) (b : GoString) :
    (unmarshal b = none →
      ParseError unmarshal { StatusCode := status, Body := some b } =
        { StatusCode := status, Message := b, Errors := [], Resource := [], Field := [],
          Code := [] }) ∧
    (∀ d : Error, unmarshal b = some d →
      (ParseError unmarshal { StatusCode := status, Body := some b }).Message = d.Message ∧
      (ParseError unmarshal { StatusCode := status, Body := some b }).Code = d.Code ∧
      (ParseError unmarshal { StatusCode := status, Body := some b }).Resource = d.Resource ∧
      (ParseError unmarshal { StatusCode := status, Body := some b }).Field = d.Field ∧
      (ParseError unmarshal { StatusCode := status, Body := some b }).Errors = d.Errors) := by
  constructor
  · intro h
    simp [ParseError, h]
  · intro d h
    simp [ParseError, h]

/-- C3, at concrete bodies: the body `oops` does not decode and becomes the
message of a 500 error; the sample payload decodes and its message is taken. -/
theorem parseError_body_witness :
    ParseError sampleUnmarshal { StatusCode := 500, Body := some (goStr "oops") } =
        { StatusCode := 500, Message := goStr "oops", Errors := [], Resource := [],
          Field := [], Code := [] } ∧
    (ParseError sampleUnmarshal { StatusCode := 429, Body := some sampleBody }).Message
      = goStr "Rate Limit Exceeded" :=
  ⟨(parseError_body sampleUnmarshal 500 (goStr "oops")).1 (by decide),
   ((parseError_body sampleUnmarshal 429 sampleBody).2
      { StatusCode := 200, Message := goStr "Rate Limit Exceeded"
        Errors := [], Resource := [], Field := [], Code := [] } (by decide)).1⟩

/-! ## Properties of the rate limiter -/

/-- C4: `Update` on an enabled limiter. Each of limit, usage and reset takes the
value of the update when that value is present (`Limit > 0`, `Usage > 0`, `Reset`
not the zero instant) and keeps the stored value otherwise; the minimum delay, the
maximum retry count and the enabled flag keep their values. -/
theorem update_fields (rl : RateLimiter) (info : RateLimitInfo) (h : rl.enabled = true) :
    (rl.Update info).limit = (if info.Limit > 0 then info.Limit else rl.limit) ∧
    (rl.Update info).usage = (if info.Usage > 0 then info.Usage else rl.usage) ∧
    (rl.Update info).reset = (if info.Reset ≠ 0 then info.Reset else rl.reset) ∧
    (rl.Update info).minDelay = rl.minDelay ∧
    (rl.Update info).maxRetries = rl.maxRetries ∧
    (rl.Update info).enabled = rl.enabled := by
  unfold RateLimiter.Update Time.IsZero
  simp only [h]
  by_cases h1 : info.Limit > 0 <;> by_cases h2 : info.Usage > 0 <;>
    by_cases h3 : info.Reset = 0 <;> simp [h1, h2, h3, h]

/-- C4, at a concrete update: a limiter holding limit 100, usage 40 and reset
instant 7 that receives limit 200 with usage and reset absent keeps 40 and 7. -/
theorem update_fields_witness :
    (({ limit := 100, usage := 40, reset := 7, minDelay := 100 * Millisecond,
        maxRetries := 3, enabled := true } : RateLimiter).Update
      { Limit := 200, Usage := 0, Reset := 0 }).limit = 200 ∧
    (({ limit := 100, usage := 40, reset := 7, minDelay := 100 * Millisecond,
        maxRetries := 3, enabled := true } : RateLimiter).Update
      { Limit := 200, Usage := 0, Reset := 0 }).usage = 40 ∧
    (({ limit := 100, usage := 40, reset := 7, minDelay := 100 * Millisecond,
        maxRetries := 3, enabled := true } : RateLimiter).Update
      { Limit := 200, Usage := 0, Reset := 0 }).reset = 7 :=
  have h := update_fields
    { limit := 100, usage := 40, reset := 7, minDelay := 100 * Millisecond,
      maxRetries := 3, enabled := true } { Limit := 200, Usage := 0, Reset := 0 } rfl
  ⟨h.1.trans (by decide), h.2.1.trans (by decide), h.2.2.1.trans (by decide)⟩

/-- `Update` never changes the minimum delay or the enabled flag. -/
theorem update_upd_frame (rl : RateLimiter) (info : RateLimitInfo) :
    (rl.Update info).minDelay = rl.minDelay ∧ (rl.Update info).enabled = rl.enabled := by
  unfold RateLimiter.Update
  split_ifs <;> simp

/-- The duration until an instant is positive exactly when the instant is ahead. -/
theorem until_pos_iff (now reset : Time) : 0 < Until now reset ↔ now < reset := by
  unfold Until Time.Sub maxDuration minDuration
  simp only [Time, Duration] at *
  split_ifs <;> omega

/-- The time until a later instant, saturated at the largest duration. -/
theorem sleepTime_until (now reset : Time) (h : now < reset) :
    sleepTime (Until now reset) = min (reset - now) maxDuration := by
  unfold Until Time.Sub sleepTime maxDuration minDuration
  simp only [Time, Duration] at *
  split_ifs <;> omega

/-- A sleep lasts at least its argument and is never negative. -/
theorem sleepTime_bounds (d : Duration) : d ≤ sleepTime d ∧ 0 ≤ sleepTime d := by
  unfold sleepTime
  simp only [Time, Duration] at *
  omega

/-- The time a `select` blocks is never negative. -/
theorem selectCtxTimer_blocked_nonneg (ctx : Context) (now : Time) (d : Duration)
    (tie : SelectCase) : 0 ≤ (selectCtxTimer ctx now d tie).2 := by
  have hs := (sleepTime_bounds d).2
  unfold selectCtxTimer
  split
  · exact hs
  · split_ifs
    · simp only [Time, Duration] at *
      omega
    · exact hs
    · exact hs

/-- The four ways a call of `Wait` can go: on a disabled limiter; cut short by the
context during the quota suspension; after a completed quota suspension; without a
quota suspension. -/
theorem wait_cases (rl : RateLimiter) (ctx : Context) (now : Time) (tie : SelectCase) :
    (rl.enabled = false ∧
      rl.Wait ctx now tie = { err := none, rl := rl, quota := .notNeeded, slept := none }) ∨
    (rl.enabled = true ∧ ∃ b : Duration, 0 ≤ b ∧
      rl.Wait ctx now tie =
        { err := some (.ctx ctx.err), rl := rl, quota := .cancelled b, slept := none }) ∨
    (rl.enabled = true ∧ ∃ b : Duration, 0 ≤ b ∧
      rl.Wait ctx now tie =
        { err := none, rl := { rl with usage := 0 }, quota := .completed b,
          slept := some (sleepTime rl.minDelay) }) ∨
    (rl.enabled = true ∧
      rl.Wait ctx now tie =
        { err := none, rl := rl, quota := .notNeeded, slept := some (sleepTime rl.minDelay) }) := by
  have hb := selectCtxTimer_blocked_nonneg ctx now (Until now rl.reset) tie
  unfold RateLimiter.Wait
  cases he : rl.enabled with
  | false => simp
  | true =>
    simp only [Bool.not_true, Bool.false_eq_true, if_false]
    split_ifs
    · split
      · rename_i b heq
        rw [heq] at hb
        exact Or.inr (Or.inl ⟨trivial, b, hb, rfl⟩)
      · rename_i b heq
        rw [heq] at hb
        exact Or.inr (Or.inr (Or.inl ⟨trivial, b, hb, rfl⟩))
    · simp
    · simp

/-- `Wait` never changes the minimum delay or the enabled flag. -/
theorem wait_config_frame (rl : RateLimiter) (ctx : Context) (now : Time) (tie : SelectCase) :
    (rl.Wait ctx now tie).rl.minDelay = rl.minDelay ∧
    (rl.Wait ctx now tie).rl.enabled = rl.enabled := by
  rcases wait_cases rl ctx now tie with ⟨he, hw⟩ | ⟨he, b, _, hw⟩ | ⟨he, b, _, hw⟩ | ⟨he, hw⟩ <;>
    rw [hw] <;> simp [he]

/-- C5, as stated, fails: a limiter at its ceiling whose reset instant lies 10^19
nanoseconds (about 317 years) ahead suspends, without cancellation, for the
largest duration only (about 292 years), which is less than `reset - now`. -/
theorem wait_quota_shortfall :
    (limiterAtQuota (sampleNow + 10 ^ 19)).limit > 0 ∧
    (limiterAtQuota (sampleNow + 10 ^ 19)).usage ≥ (limiterAtQuota (sampleNow + 10 ^ 19)).limit ∧
    (limiterAtQuota (sampleNow + 10 ^ 19)).reset > sampleNow ∧
    ((limiterAtQuota (sampleNow + 10 ^ 19)).Wait background sampleNow .timerFired).err = none ∧
    ((limiterAtQuota (sampleNow + 10 ^ 19)).Wait background sampleNow .timerFired).quota
      = .completed maxDuration ∧
    ((limiterAtQuota (sampleNow + 10 ^ 19)).Wait background sampleNow .timerFired).quota.blocked
      < (limiterAtQuota (sampleNow + 10 ^ 19)).reset - sampleNow := by
  decide

/-- C5, amended: for an enabled limiter and a context that is never cancelled,
`Wait` suspends for quota iff `limit > 0`, `usage >= limit` and `reset > now`; the
suspension then runs to completion and lasts `min (reset - now) maxDuration`, so
at least `reset - now` whenever that difference is a representable duration; when
`limit <= 0` there is no quota suspension and the call lasts the minimum delay
only; the call returns nil. -/
theorem wait_quota_suspension (rl : RateLimiter) (now : Time) (e : CtxErr) (tie : SelectCase)
    (h : rl.enabled = true) :
    ((rl.Wait { doneAt := none, err := e } now tie).quota.suspended = true ↔
      (rl.limit > 0 ∧ rl.usage ≥ rl.limit ∧ rl.reset > now)) ∧
    ((rl.limit > 0 ∧ rl.usage ≥ rl.limit ∧ rl.reset > now) →
      (rl.Wait { doneAt := none, err := e } now tie).quota
        = .completed (min (rl.reset - now) maxDuration)) ∧
    ((rl.limit > 0 ∧ rl.usage ≥ rl.limit ∧ rl.reset > now) → rl.reset - now ≤ maxDuration →
      (rl.Wait { doneAt := none, err := e } now tie).quota.blocked ≥ rl.reset - now) ∧
    (rl.limit ≤ 0 →
      (rl.Wait { doneAt := none, err := e } now tie).quota = .notNeeded ∧
      (rl.Wait { doneAt := none, err := e } now tie).elapsed = sleepTime rl.minDelay) ∧
    (rl.Wait { doneAt := none, err := e } now tie).err = none := by
  by_cases hq : rl.limit > 0 ∧ rl.usage ≥ rl.limit
  · by_cases hr : rl.reset > now
    · have hw : 0 < Until now rl.reset := (until_pos_iff now rl.reset).2 hr
      have hv := sleepTime_until now rl.reset hr
      simp [RateLimiter.Wait, h, hq, hr, hw, hv, selectCtxTimer, QuotaPhase.suspended,
        QuotaPhase.blocked]
    · have hw : ¬ 0 < Until now rl.reset := fun hc => hr ((until_pos_iff now rl.reset).1 hc)
      simp [RateLimiter.Wait, h, hq, hr, hw, QuotaPhase.suspended, WaitOutcome.elapsed,
        QuotaPhase.blocked]
  · have hc : (decide (rl.limit > 0) && decide (rl.usage ≥ rl.limit)) = false := by
      simpa using hq
    simp only [RateLimiter.Wait, h, hc]
    simp [QuotaPhase.suspended, WaitOutcome.elapsed, QuotaPhase.blocked]
    simp only [gt_iff_lt, ge_iff_le, not_and, not_le] at hq
    constructor
    · intro h1 h2
      exact absurd h2 (not_le.2 (hq h1))
    · intro h1 h2
      exact absurd h2 (not_le.2 (hq h1))
/-- C5, amended, at a concrete state: a limiter at its ceiling whose reset lies two
seconds ahead suspends for exactly two seconds. -/
theorem wait_quota_suspension_witness :
    ((limiterAtQuota (sampleNow + 2 * Second)).Wait { doneAt := none, err := .Canceled }
      sampleNow .timerFired).quota = .completed (2 * Second) :=
  ((wait_quota_suspension (limiterAtQuota (sampleNow + 2 * Second)) sampleNow .Canceled
    .timerFired rfl).2.1 (by decide)).trans (by decide)

/-- C6: `Wait` changes at most the usage field. The limit, reset instant, minimum
delay, maximum retry count and enabled flag after the call are those before it;
usage is 0 when the quota suspension ran to completion and is unchanged in every
other case; a call that returns an error, a call on a disabled limiter and a call
that needed no suspension leave the whole state as it was. An error is returned
exactly when the quota suspension was cut short. -/
theorem wait_frame (rl : RateLimiter) (ctx : Context) (now : Time) (tie : SelectCase) :
    (rl.Wait ctx now tie).rl.limit = rl.limit ∧
    (rl.Wait ctx now tie).rl.reset = rl.reset ∧
    (rl.Wait ctx now tie).rl.minDelay = rl.minDelay ∧
    (rl.Wait ctx now tie).rl.maxRetries = rl.maxRetries ∧
    (rl.Wait ctx now tie).rl.enabled = rl.enabled ∧
    (rl.Wait ctx now tie).rl.usage =
      (if (rl.Wait ctx now tie).quota.ranToCompletion then 0 else rl.usage) ∧
    ((rl.Wait ctx now tie).err ≠ none → (rl.Wait ctx now tie).rl = rl) ∧
    (rl.enabled = false → (rl.Wait ctx now tie).rl = rl) ∧
    ((rl.Wait ctx now tie).quota = .notNeeded → (rl.Wait ctx now tie).rl = rl) ∧
    ((rl.Wait ctx now tie).err ≠ none ↔
      (rl.Wait ctx now tie).quota.suspended = true ∧
        (rl.Wait ctx now tie).quota.ranToCompletion = false) := by
  rcases wait_cases rl ctx now tie with ⟨he, hw⟩ | ⟨he, b, _, hw⟩ | ⟨he, b, _, hw⟩ | ⟨he, hw⟩ <;>
    rw [hw] <;> simp [QuotaPhase.ranToCompletion, QuotaPhase.suspended, he]

/-- C6, at concrete states: a quota suspension that runs to completion sets usage
to 0, one that is cancelled after one second leaves the state as it was. -/
theorem wait_frame_witness :
    ((limiterAtQuota (sampleNow + 2 * Second)).Wait background sampleNow .timerFired).rl
      = { limiterAtQuota (sampleNow + 2 * Second) with usage := 0 } ∧
    ((limiterAtQuota (sampleNow + 2 * Second)).Wait (cancelledAt (sampleNow + Second))
      sampleNow .timerFired).rl = limiterAtQuota (sampleNow + 2 * Second) :=
  ⟨by decide,
   (wait_frame (limiterAtQuota (sampleNow + 2 * Second)) (cancelledAt (sampleNow + Second))
      sampleNow .timerFired).2.2.2.2.2.2.1 (by decide)⟩

/-- C7: a call of `Wait` on an enabled limiter that returns nil has kept its caller
suspended for the minimum delay on top of the quota suspension, hence for at least
the minimum delay. Consequently, when a second call on the same limiter (whose
state a response may have updated in between) starts no earlier than the first one
returned and returns nil too, the two returns are at least the minimum delay
apart. -/
theorem wait_min_delay (rl : RateLimiter) (ctx1 ctx2 : Context) (t1 t2 : Time)
    (tie1 tie2 : SelectCase) (info : RateLimitInfo)
    (h : rl.enabled = true)
    (h1 : (rl.Wait ctx1 t1 tie1).err = none)
    (hseq : t1 + (rl.Wait ctx1 t1 tie1).elapsed ≤ t2)
    (h2 : (((rl.Wait ctx1 t1 tie1).rl.Update info).Wait ctx2 t2 tie2).err = none) :
    (rl.Wait ctx1 t1 tie1).elapsed ≥ (rl.Wait ctx1 t1 tie1).quota.blocked + rl.minDelay ∧
    (rl.Wait ctx1 t1 tie1).quota.blocked ≥ 0 ∧
    (rl.Wait ctx1 t1 tie1).elapsed ≥ rl.minDelay ∧
    (t2 + (((rl.Wait ctx1 t1 tie1).rl.Update info).Wait ctx2 t2 tie2).elapsed)
      - (t1 + (rl.Wait ctx1 t1 tie1).elapsed) ≥ rl.minDelay := by
  have key : ∀ (r : RateLimiter) (c : Context) (t : Time) (ti : SelectCase),
      r.enabled = true → (r.Wait c t ti).err = none →
      (r.Wait c t ti).elapsed ≥ (r.Wait c t ti).quota.blocked + r.minDelay ∧
      (r.Wait c t ti).quota.blocked ≥ 0 := by
    intro r c t ti he hn
    have hs := sleepTime_bounds r.minDelay
    rcases wait_cases r c t ti with ⟨hd, _⟩ | ⟨_, b, _, hw⟩ | ⟨_, b, hb, hw⟩ | ⟨_, hw⟩
    · rw [he] at hd
      exact absurd hd (by decide)
    · rw [hw] at hn
      simp at hn
    · rw [hw]
      simp only [WaitOutcome.elapsed, QuotaPhase.blocked, Option.getD_some]
      simp only [Time, Duration] at *
      omega
    · rw [hw]
      simp only [WaitOutcome.elapsed, QuotaPhase.blocked, Option.getD_some]
      simp only [Time, Duration] at *
      omega
  have hf := wait_config_frame rl ctx1 t1 tie1
  have hu := update_upd_frame (rl.Wait ctx1 t1 tie1).rl info
  have k1 := key rl ctx1 t1 tie1 h h1
  have k2 := key ((rl.Wait ctx1 t1 tie1).rl.Update info) ctx2 t2 tie2
    (by rw [hu.2, hf.2, h]) h2
  rw [hu.1, hf.1] at k2
  simp only [Time, Duration] at *
  refine ⟨k1.1, k1.2, ?_, ?_⟩ <;> omega

/-- C7, at a concrete run: two calls on a limiter at its ceiling, the second one
a tenth of a second after the first returned. -/
theorem wait_min_delay_witness :
    ((limiterAtQuota (sampleNow + 2 * Second)).Wait background sampleNow .timerFired).elapsed
      ≥ (limiterAtQuota (sampleNow + 2 * Second)).minDelay :=
  (wait_min_delay (limiterAtQuota (sampleNow + 2 * Second)) background background sampleNow
    (sampleNow + 3 * Second) .timerFired .timerFired { Limit := 100, Usage := 1, Reset := 0 }
    rfl (by decide) (by decide) (by decide)).2.2.1

/-- C8, where the code departs from it: `Wait` on a fresh enabled limiter (no quota
suspension due) returns nil after sleeping the minimum delay although the context
was cancelled a second before the call, and likewise when the context is cancelled
in the middle of that sleep, also after a completed quota suspension. The quota
suspension itself does return the error of the context, when the context is
cancelled during it or before the call. -/
theorem wait_sleep_ignores_context :
    ((NewRateLimiter none).Wait (cancelledAt (sampleNow - Second)) sampleNow .ctxDone).err
      = none ∧
    ((NewRateLimiter none).Wait (cancelledAt (sampleNow - Second)) sampleNow .ctxDone).slept
      = some (100 * Millisecond) ∧
    ((NewRateLimiter none).Wait (cancelledAt (sampleNow + 50 * Millisecond)) sampleNow
      .ctxDone).err = none ∧
    ((limiterAtQuota (sampleNow + 2 * Second)).Wait
      (cancelledAt (sampleNow + 2 * Second + 50 * Millisecond)) sampleNow .ctxDone).err = none ∧
    ((limiterAtQuota (sampleNow + 2 * Second)).Wait (cancelledAt (sampleNow + Second))
      sampleNow .timerFired).err = some (.ctx .Canceled) ∧
    ((limiterAtQuota (sampleNow + 2 * Second)).Wait (cancelledAt (sampleNow - Second))
      sampleNow .timerFired).err = some (.ctx .Canceled) := by
  decide

/-- A context that is never cancelled lets every timer fire. -/
theorem selectCtxTimer_never (ctx : Context) (now : Time) (d : Duration) (tie : SelectCase)
    (h : ctx.doneAt = none) : (selectCtxTimer ctx now d tie).1 = .timerFired := by
  simp [selectCtxTimer, h]

/-- The backoff after `i` completed waits: doubling from one second, held at 30. -/
theorem nextBackoff_cap (i : Nat) :
    nextBackoff (min (2 ^ i) 30 * Second) = min (2 ^ (i + 1)) 30 * Second := by
  have hpos : (1 : Int) ≤ 2 ^ i := by exact_mod_cast Nat.one_le_two_pow
  unfold nextBackoff Second
  simp only [Duration, pow_succ] at *
  generalize (2 : Int) ^ i = x at hpos ⊢
  split_ifs <;> omega

/-- One round of the loop of `RetryWithBackoff`, by cases. -/
theorem retryLoop_succ (rl : RateLimiter) (ctx : Context) (fn : Nat → Option GoError)
    (clock : Nat → Time) (tie : Nat → SelectCase) (fuel i : Nat) (backoff : Duration)
    (lastErr : Option GoError) (delays : List Duration) :
    (¬ (i : Int) ≤ rl.maxRetries ∧
      retryLoop rl ctx fn clock tie (fuel + 1) i backoff lastErr delays
        = some { err := lastErr, calls := i, delays := delays }) ∨
    ((i : Int) ≤ rl.maxRetries ∧ fn i = none ∧
      retryLoop rl ctx fn clock tie (fuel + 1) i backoff lastErr delays
        = some { err := none, calls := i + 1, delays := delays }) ∨
    ((i : Int) ≤ rl.maxRetries ∧ IsRateLimitError (fn i) = false ∧
      retryLoop rl ctx fn clock tie (fuel + 1) i backoff lastErr delays
        = some { err := fn i, calls := i + 1, delays := delays }) ∨
    ((i : Int) = rl.maxRetries ∧ IsRateLimitError (fn i) = true ∧
      retryLoop rl ctx fn clock tie (fuel + 1) i backoff lastErr delays
        = some { err := fn i, calls := i + 1, delays := delays }) ∨
    ((i : Int) < rl.maxRetries ∧ IsRateLimitError (fn i) = true ∧
      (selectCtxTimer ctx (clock i) backoff (tie i)).1 = .ctxDone ∧
      retryLoop rl ctx fn clock tie (fuel + 1) i backoff lastErr delays
        = some { err := some (.ctx ctx.err), calls := i + 1, delays := delays }) ∨
    ((i : Int) < rl.maxRetries ∧ IsRateLimitError (fn i) = true ∧
      (selectCtxTimer ctx (clock i) backoff (tie i)).1 = .timerFired ∧
      retryLoop rl ctx fn clock tie (fuel + 1) i backoff lastErr delays
        = retryLoop rl ctx fn clock tie fuel (i + 1) (nextBackoff backoff) (fn i)
            (delays ++ [backoff])) := by
  by_cases hc : (i : Int) ≤ rl.maxRetries
  · right
    cases hfn : fn i with
    | none => exact Or.inl ⟨hc, rfl, by simp [retryLoop, hc, hfn]⟩
    | some err =>
      right
      cases hr : IsRateLimitError (some err) with
      | false => exact Or.inl ⟨hc, rfl, by simp [retryLoop, hc, hfn, hr]⟩
      | true =>
        right
        by_cases hm : (i : Int) = rl.maxRetries
        · exact Or.inl ⟨hm, rfl, by simp [retryLoop, hc, hfn, hr, hm]⟩
        · right
          have hlt : (i : Int) < rl.maxRetries := lt_of_le_of_ne hc hm
          cases hs : (selectCtxTimer ctx (clock i) backoff (tie i)).1 with
          | ctxDone => exact Or.inl ⟨hlt, rfl, rfl, by simp [retryLoop, hc, hfn, hr, hm, hs]⟩
          | timerFired => exact Or.inr ⟨hlt, rfl, rfl, by simp [retryLoop, hc, hfn, hr, hm, hs]⟩
  · exact Or.inl ⟨hc, by simp [retryLoop, hc]⟩

/-- The loop of `RetryWithBackoff` ends within `maxRetries + 1 - i` rounds. -/
theorem retryLoop_total (rl : RateLimiter) (ctx : Context) (fn : Nat → Option GoError)
    (clock : Nat → Time) (tie : Nat → SelectCase) (fuel : Nat) :
    ∀ (i : Nat) (backoff : Duration) (lastErr : Option GoError) (delays : List Duration),
      rl.maxRetries - i < fuel →
      ∃ out, retryLoop rl ctx fn clock tie fuel i backoff lastErr delays = some out := by
  induction fuel with
  | zero =>
    intro i backoff lastErr delays h
    have : ¬ ((i : Int) ≤ rl.maxRetries) := by omega
    simp [retryLoop, this]
  | succ n ih =>
    intro i backoff lastErr delays h
    rcases retryLoop_succ rl ctx fn clock tie n i backoff lastErr delays with
      ⟨_, hr⟩ | ⟨_, _, hr⟩ | ⟨_, _, hr⟩ | ⟨_, _, hr⟩ | ⟨_, _, _, hr⟩ | ⟨hlt, _, _, hr⟩
    · exact ⟨_, hr⟩
    · exact ⟨_, hr⟩
    · exact ⟨_, hr⟩
    · exact ⟨_, hr⟩
    · exact ⟨_, hr⟩
    · rw [hr]
      exact ih _ _ _ _ (by push_cast at h ⊢; omega)

/-- The waits of the loop follow the backoff schedule, and every completed wait is
followed by one more invocation. -/
theorem retryLoop_delays (rl : RateLimiter) (ctx : Context) (fn : Nat → Option GoError)
    (clock : Nat → Time) (tie : Nat → SelectCase) (fuel : Nat) :
    ∀ (i : Nat) (backoff : Duration) (lastErr : Option GoError) (delays : List Duration)
      (out : RetryOutcome),
      retryLoop rl ctx fn clock tie fuel i backoff lastErr delays = some out →
      backoff = min (2 ^ i) 30 * Second →
      delays.length = i →
      (i = 0 ∨ (i : Int) ≤ rl.maxRetries) →
      (∀ k, k < delays.length → delays[k]? = some (min (2 ^ k) 30 * Second)) →
      out.delays.length = out.calls - 1 ∧
      ∀ k, k < out.delays.length → out.delays[k]? = some (min (2 ^ k) 30 * Second) := by
  induction fuel with
  | zero =>
    intro i backoff lastErr delays out h hb hl hi hd
    unfold retryLoop at h
    by_cases hc : (i : Int) ≤ rl.maxRetries
    · simp [hc] at h
    · simp only [hc, if_false, Option.some.injEq] at h
      subst h
      rcases hi with hi | hi
      · subst hi
        exact ⟨by simpa using hl, hd⟩
      · exact absurd hi hc
  | succ n ih =>
    intro i backoff lastErr delays out h hb hl hi hd
    rcases retryLoop_succ rl ctx fn clock tie n i backoff lastErr delays with
      ⟨hc, hr⟩ | ⟨_, _, hr⟩ | ⟨_, _, hr⟩ | ⟨_, _, hr⟩ | ⟨_, _, _, hr⟩ | ⟨hlt, _, _, hr⟩
    · rw [hr] at h
      cases h
      rcases hi with hi | hi
      · subst hi
        exact ⟨by simpa using hl, hd⟩
      · exact absurd hi hc
    · rw [hr] at h
      cases h
      exact ⟨by simpa using hl, hd⟩
    · rw [hr] at h
      cases h
      exact ⟨by simpa using hl, hd⟩
    · rw [hr] at h
      cases h
      exact ⟨by simpa using hl, hd⟩
    · rw [hr] at h
      cases h
      exact ⟨by simpa using hl, hd⟩
    · rw [hr] at h
      refine ih _ _ _ _ out h ?_ ?_ ?_ ?_
      · rw [hb]
        exact nextBackoff_cap i
      · simp [hl]
      · right
        push_cast
        omega
      · intro k hk
        rw [List.length_append, List.length_singleton] at hk
        by_cases hki : k < delays.length
        · rw [List.getElem?_append_left hki]
          exact hd k hki
        · have hke : k = delays.length := by omega
          subst hke
          rw [List.getElem?_append_right (le_refl _)]
          simp [hb, hl]

/-- The loop of `RetryWithBackoff` on an operation that is rate limited at every
invocation, with a context that is never cancelled: it runs through round
`maxRetries` and returns what that invocation returned. -/
theorem retryLoop_exhausts (rl : RateLimiter) (ctx : Context) (fn : Nat → Option GoError)
    (clock : Nat → Time) (tie : Nat → SelectCase)
    (hctx : ctx.doneAt = none) (hfn : ∀ j, IsRateLimitError (fn j) = true) (fuel : Nat) :
    ∀ (i : Nat) (backoff : Duration) (lastErr : Option GoError) (delays : List Duration),
      (i : Int) ≤ rl.maxRetries → rl.maxRetries - i < fuel →
      ∃ out, retryLoop rl ctx fn clock tie fuel i backoff lastErr delays = some out ∧
        (out.calls : Int) = rl.maxRetries + 1 ∧ out.err = fn rl.maxRetries.toNat ∧
        (out.delays.length : Int) = delays.length + (rl.maxRetries - i) := by
  induction fuel with
  | zero =>
    intro i backoff lastErr delays h1 h2
    exact absurd h2 (by push_cast; omega)
  | succ n ih =>
    intro i backoff lastErr delays h1 h2
    rcases retryLoop_succ rl ctx fn clock tie n i backoff lastErr delays with
      ⟨hc, _⟩ | ⟨_, hn, _⟩ | ⟨_, hn, _⟩ | ⟨hm, _, hr⟩ | ⟨_, _, hs, _⟩ | ⟨hlt, _, _, hr⟩
    · exact absurd h1 hc
    · have := hfn i
      rw [hn] at this
      simp [IsRateLimitError] at this
    · rw [hfn i] at hn
      exact absurd hn (by decide)
    · refine ⟨_, hr, ?_, ?_, ?_⟩
      · push_cast
        omega
      · have : rl.maxRetries.toNat = i := by omega
        rw [this]
      · simp only
        omega
    · rw [selectCtxTimer_never ctx _ _ _ hctx] at hs
      exact absurd hs (by decide)
    · rw [hr]
      obtain ⟨out, ho, hcalls, herr, hlen⟩ :=
        ih (i + 1) (nextBackoff backoff) (fn i) (delays ++ [backoff])
          (by push_cast; omega) (by push_cast at h2 ⊢; omega)
      refine ⟨out, ho, hcalls, herr, ?_⟩
      rw [hlen, List.length_append, List.length_singleton]
      push_cast
      omega

/-- Every limiter that `NewRateLimiter` builds has a maximum retry count of at least
one; `Update` and `Wait` keep the count, so it is never negative. -/
theorem newRateLimiter_maxRetries_pos (config : Option RateLimiterConfig) :
    1 ≤ (NewRateLimiter config).maxRetries := by
  unfold NewRateLimiter
  cases config with
  | none => decide
  | some c =>
    simp only
    split_ifs <;> simp <;> omega

/-- C9: on an enabled limiter with maximum retry count `m` (never negative, see
`newRateLimiter_maxRetries_pos`), with a context that is never cancelled and an
operation that fails with a rate-limited error at every invocation,
`RetryWithBackoff` returns, having invoked the operation exactly `m + 1` times and
waited `m` times in between, and what it returns is the error of the last
invocation, number `m` counted from 0. -/
theorem retry_exhausts (rl : RateLimiter) (ctx : Context) (fn : Nat → Option GoError)
    (clock : Nat → Time) (tie : Nat → SelectCase)
    (he : rl.enabled = true) (hm : 0 ≤ rl.maxRetries) (hctx : ctx.doneAt = none)
    (hfn : ∀ j, IsRateLimitError (fn j) = true) :
    ∃ out, rl.RetryWithBackoff ctx fn clock tie = some out ∧
      (out.calls : Int) = rl.maxRetries + 1 ∧
      out.err = fn rl.maxRetries.toNat ∧
      (out.delays.length : Int) = rl.maxRetries := by
  obtain ⟨out, ho, hcalls, herr, hlen⟩ :=
    retryLoop_exhausts rl ctx fn clock tie hctx hfn (rl.maxRetries + 1).toNat 0 (1 * Second)
      none [] (by simpa using hm) (by push_cast; omega)
  refine ⟨out, ?_, hcalls, herr, ?_⟩
  · simp only [RateLimiter.RetryWithBackoff, he, Bool.not_true, Bool.false_eq_true, if_false, ho]
  · simpa using hlen

/-- C9, at a concrete limiter: the default limiter, with 3 retries, invokes an
operation that is always rate limited 4 times. -/
theorem retry_exhausts_witness :
    ∃ out, (NewRateLimiter none).RetryWithBackoff background alwaysRateLimited
        (fun _ => sampleNow) (fun _ => .timerFired) = some out ∧
      (out.calls : Int) = (NewRateLimiter none).maxRetries + 1 ∧
      out.err = alwaysRateLimited (NewRateLimiter none).maxRetries.toNat ∧
      (out.delays.length : Int) = (NewRateLimiter none).maxRetries :=
  retry_exhausts (NewRateLimiter none) background alwaysRateLimited (fun _ => sampleNow)
    (fun _ => .timerFired) rfl (by decide) rfl (fun _ => rfl)

/-- C10: `RetryWithBackoff` returns, the number of waits it completed is the number
of retries (invocations after the first), and for every `k >= 1` up to that number
the wait before retry `k` is `min (2^(k-1)) 30` seconds: one second at first,
doubled after each retry, at most 30 seconds. -/
theorem retry_backoff_schedule (rl : RateLimiter) (ctx : Context)
    (fn : Nat → Option GoError) (clock : Nat → Time) (tie : Nat → SelectCase) :
    ∃ out, rl.RetryWithBackoff ctx fn clock tie = some out ∧
      out.delays.length = out.calls - 1 ∧
      ∀ k, 1 ≤ k → k ≤ out.calls - 1 →
        out.delays[k - 1]? = some (min (2 ^ (k - 1)) 30 * Second) := by
  cases he : rl.enabled with
  | false =>
    refine ⟨{ err := fn 0, calls := 1, delays := [] }, by simp [RateLimiter.RetryWithBackoff, he],
      rfl, ?_⟩
    intro k h1 h2
    simp only [Nat.sub_self] at h2
    omega
  | true =>
    obtain ⟨out, ho⟩ := retryLoop_total rl ctx fn clock tie (rl.maxRetries + 1).toNat 0
      (1 * Second) none [] (by push_cast; omega)
    obtain ⟨hlen, hd⟩ := retryLoop_delays rl ctx fn clock tie _ 0 (1 * Second) none [] out ho
      (by simp [Second]) rfl (Or.inl rfl) (by simp)
    refine ⟨out, by simp only [RateLimiter.RetryWithBackoff, he, Bool.not_true,
      Bool.false_eq_true, if_false, ho], hlen, ?_⟩
    intro k h1 h2
    exact hd (k - 1) (by omega)

/-- C10, at a concrete limiter with 8 retries and an operation that is always rate
limited. -/
theorem retry_backoff_schedule_witness :
    ∃ out, ({ NewRateLimiter none with maxRetries := 8 } : RateLimiter).RetryWithBackoff
        background alwaysRateLimited (fun _ => sampleNow) (fun _ => .timerFired) = some out ∧
      out.delays.length = out.calls - 1 ∧
      ∀ k, 1 ≤ k → k ≤ out.calls - 1 →
        out.delays[k - 1]? = some (min (2 ^ (k - 1)) 30 * Second) :=
  retry_backoff_schedule _ _ _ _ _

/-- The run of that example in full: nine invocations, and waits of 1, 2, 4, 8, 16,
30, 30 and 30 seconds. -/
theorem retry_backoff_run :
    ({ NewRateLimiter none with maxRetries := 8 } : RateLimiter).RetryWithBackoff
        background alwaysRateLimited (fun _ => sampleNow) (fun _ => .timerFired) =
      some { err := alwaysRateLimited 8, calls := 9
             delays := [1 * Second, 2 * Second, 4 * Second, 8 * Second, 16 * Second,
                        30 * Second, 30 * Second, 30 * Second] } := by
  decide

/-- The waits of `RetryWithBackoff` follow the backoff schedule. -/
theorem retryWithBackoff_delays (rl : RateLimiter) (ctx : Context)
    (fn : Nat → Option GoError) (clock : Nat → Time) (tie : Nat → SelectCase)
    (out : RetryOutcome) (h : rl.RetryWithBackoff ctx fn clock tie = some out) :
    ∀ k, k < out.delays.length → out.delays[k]? = some (min (2 ^ k) 30 * Second) := by
  unfold RateLimiter.RetryWithBackoff at h
  cases he : rl.enabled with
  | false =>
    simp only [he, Bool.not_false, if_true, Option.some.injEq] at h
    subst h
    intro k hk
    simp at hk
  | true =>
    simp only [he, Bool.not_true, Bool.false_eq_true, if_false] at h
    exact (retryLoop_delays rl ctx fn clock tie _ 0 (1 * Second) none [] out h
      (by simp [Second]) rfl (Or.inl rfl) (by simp)).2

/-- The backoff schedule never decreases. -/
theorem backoff_schedule_mono (i j : Nat) (h : i ≤ j) :
    min (2 ^ i) 30 * Second ≤ min (2 ^ j) 30 * Second := by
  have h2 : (2 : Int) ^ i ≤ 2 ^ j := pow_le_pow_right₀ (by norm_num) h
  have h3 : min ((2 : Int) ^ i) 30 ≤ min (2 ^ j) 30 := min_le_min h2 le_rfl
  unfold Second
  simp only [Duration] at *
  omega

/-- The backoff schedule increases strictly over its first six entries. -/
theorem backoff_schedule_strict (i j : Nat) (h : i < j) (hj : j < 6) :
    min (2 ^ i) 30 * Second < min (2 ^ j) 30 * Second := by
  unfold Second
  interval_cases j <;> interval_cases i <;> decide

/-- An entry of a list that `getElem?` finds. -/
theorem getElem_of_getElem? {l : List Duration} {k : Nat} {v : Duration} (hk : k < l.length)
    (h : l[k]? = some v) : l[k] = v := by
  rw [List.getElem?_eq_getElem hk] at h
  exact Option.some.inj h

/-- C11, as stated, fails: with a maximum retry count of 7 and an operation that
is always rate limited the waits are 1, 2, 4, 8, 16, 30 and 30 seconds; the last
two are equal, so the sequence is not strictly increasing. -/
theorem retry_delays_not_strict :
    ((NewRateLimiter (some { Enabled := true, MinDelay := 0, MaxRetries := 7 })).RetryWithBackoff
        background alwaysRateLimited (fun _ => sampleNow) (fun _ => .timerFired)).map
      (fun out => out.delays)
      = some [1 * Second, 2 * Second, 4 * Second, 8 * Second, 16 * Second, 30 * Second,
              30 * Second] ∧
    ¬ List.Pairwise (fun a b : Duration => a < b)
        [1 * Second, 2 * Second, 4 * Second, 8 * Second, 16 * Second, 30 * Second,
         30 * Second] := by
  decide

/-- C11, amended: on an enabled limiter with maximum retry count `m` (never
negative), with a context that is never cancelled and an operation that is rate
limited at every invocation, the `m` waits of `RetryWithBackoff` never decrease;
they increase strictly when `m <= 6`, that is up to the wait that reaches the cap
of 30 seconds, and do not when `m >= 7`, where the cap repeats. -/
theorem retry_delays_monotone (rl : RateLimiter) (ctx : Context) (fn : Nat → Option GoError)
    (clock : Nat → Time) (tie : Nat → SelectCase)
    (he : rl.enabled = true) (hm : 0 ≤ rl.maxRetries) (hctx : ctx.doneAt = none)
    (hfn : ∀ j, IsRateLimitError (fn j) = true) :
    ∃ out, rl.RetryWithBackoff ctx fn clock tie = some out ∧
      (out.delays.length : Int) = rl.maxRetries ∧
      List.Pairwise (fun a b : Duration => a ≤ b) out.delays ∧
      (rl.maxRetries ≤ 6 → List.Pairwise (fun a b : Duration => a < b) out.delays) ∧
      (7 ≤ rl.maxRetries → ¬ List.Pairwise (fun a b : Duration => a < b) out.delays) := by
  obtain ⟨out, ho, _, _, hlen⟩ :=
    retryLoop_exhausts rl ctx fn clock tie hctx hfn (rl.maxRetries + 1).toNat 0 (1 * Second)
      none [] (by simpa using hm) (by push_cast; omega)
  have hR : rl.RetryWithBackoff ctx fn clock tie = some out := by
    simp only [RateLimiter.RetryWithBackoff, he, Bool.not_true, Bool.false_eq_true, if_false, ho]
  have hd := retryWithBackoff_delays rl ctx fn clock tie out hR
  have hlen2 : (out.delays.length : Int) = rl.maxRetries := by simpa using hlen
  refine ⟨out, hR, hlen2, ?_, ?_, ?_⟩
  · rw [List.pairwise_iff_getElem]
    intro i j hi hj hij
    rw [getElem_of_getElem? hi (hd i hi), getElem_of_getElem? hj (hd j hj)]
    exact backoff_schedule_mono i j (le_of_lt hij)
  · intro h6
    rw [List.pairwise_iff_getElem]
    intro i j hi hj hij
    rw [getElem_of_getElem? hi (hd i hi), getElem_of_getElem? hj (hd j hj)]
    exact backoff_schedule_strict i j hij (by omega)
  · intro h7 hp
    rw [List.pairwise_iff_getElem] at hp
    have h5 : 5 < out.delays.length := by omega
    have h6 : 6 < out.delays.length := by omega
    have := hp 5 6 h5 h6 (by decide)
    rw [getElem_of_getElem? h5 (hd 5 h5), getElem_of_getElem? h6 (hd 6 h6)] at this
    revert this
    decide

/-- C11, amended, at the default limiter: its three waits of 1, 2 and 4 seconds
increase strictly. -/
theorem retry_delays_monotone_witness :
    ∃ out, (NewRateLimiter none).RetryWithBackoff background alwaysRateLimited
        (fun _ => sampleNow) (fun _ => .timerFired) = some out ∧
      List.Pairwise (fun a b : Duration => a < b) out.delays :=
  match retry_delays_monotone (NewRateLimiter none) background alwaysRateLimited
      (fun _ => sampleNow) (fun _ => .timerFired) rfl (by decide) rfl (fun _ => rfl) with
  | ⟨out, h1, _, _, h4, _⟩ => ⟨out, h1, h4 (by decide)⟩

/-- A timer that ends before the context is cancelled fires. -/
theorem selectCtxTimer_fires (ctx : Context) (now : Time) (d : Duration) (tie : SelectCase)
    (c : Time) (hc : ctx.doneAt = some c) (hd : 0 < d) (h : now + d < c) :
    (selectCtxTimer ctx now d tie).1 = .timerFired := by
  have h1 : ¬ (max c now < now + max d 0) ∧ ¬ (max c now = now + max d 0) := by
    revert hd h
    simp only [Time, Duration]
    omega
  unfold selectCtxTimer sleepTime
  simp only [hc]
  simp [h1.1, h1.2]

/-- A context cancelled before the timer ends interrupts the wait. -/
theorem selectCtxTimer_cancelled (ctx : Context) (now : Time) (d : Duration)
    (tie : SelectCase) (c : Time) (hc : ctx.doneAt = some c) (hd : 0 < d) (h : c < now + d) :
    (selectCtxTimer ctx now d tie).1 = .ctxDone := by
  have h1 : max c now < now + max d 0 := by
    revert hd h
    simp only [Time, Duration]
    omega
  unfold selectCtxTimer sleepTime
  simp only [hc]
  simp [h1]

/-- Every entry of the backoff schedule is positive. -/
theorem backoff_schedule_pos (i : Nat) : 0 < min (2 ^ i) 30 * Second := by
  have hpos : (1 : Int) ≤ 2 ^ i := by exact_mod_cast Nat.one_le_two_pow
  unfold Second
  simp only [Duration] at *
  omega

/-- The loop of `RetryWithBackoff` when the context is cancelled during the wait of
round `i`: the rounds before `i` wait in full, round `i` returns the error of the
context. -/
theorem retryLoop_cancelled (rl : RateLimiter) (ctx : Context) (fn : Nat → Option GoError)
    (clock : Nat → Time) (tie : Nat → SelectCase) (i : Nat) (c : Time)
    (hi : (i : Int) < rl.maxRetries)
    (hfn : ∀ j, j ≤ i → IsRateLimitError (fn j) = true)
    (hc : ctx.doneAt = some c)
    (hbefore : ∀ j, j < i → clock j + min (2 ^ j) 30 * Second < c)
    (hduring : c < clock i + min (2 ^ i) 30 * Second) (fuel : Nat) :
    ∀ (s : Nat) (lastErr : Option GoError) (delays : List Duration),
      s ≤ i → rl.maxRetries - s < fuel →
      ∃ out, retryLoop rl ctx fn clock tie fuel s (min (2 ^ s) 30 * Second) lastErr delays
          = some out ∧
        out.err = some (.ctx ctx.err) ∧ out.calls = i + 1 ∧
        out.delays.length = delays.length + (i - s) := by
  induction fuel with
  | zero =>
    intro s lastErr delays hs hf
    exact absurd hf (by push_cast; omega)
  | succ n ih =>
    intro s lastErr delays hs hf
    rcases retryLoop_succ rl ctx fn clock tie n s (min (2 ^ s) 30 * Second) lastErr delays with
      ⟨hcond, _⟩ | ⟨_, hn, _⟩ | ⟨_, hn, _⟩ | ⟨hm, _, _⟩ | ⟨_, _, hsel, hr⟩ | ⟨hlt, _, hsel, hr⟩
    · exact absurd (by omega) hcond
    · have := hfn s hs
      rw [hn] at this
      simp [IsRateLimitError] at this
    · rw [hfn s hs] at hn
      exact absurd hn (by decide)
    · omega
    · by_cases hsi : s = i
      · subst hsi
        exact ⟨_, hr, rfl, rfl, by simp⟩
      · have hlt2 : s < i := lt_of_le_of_ne hs hsi
        rw [selectCtxTimer_fires ctx _ _ _ c hc (backoff_schedule_pos s) (hbefore s hlt2)] at hsel
        exact absurd hsel (by decide)
    · by_cases hsi : s = i
      · subst hsi
        rw [selectCtxTimer_cancelled ctx _ _ _ c hc (backoff_schedule_pos s) hduring] at hsel
        exact absurd hsel (by decide)
      · have hlt2 : s < i := lt_of_le_of_ne hs hsi
        rw [hr, nextBackoff_cap s]
        obtain ⟨out, ho, h1, h2, h3⟩ := ih (s + 1) (fn s) (delays ++ [min (2 ^ s) 30 * Second])
          (by omega) (by push_cast at hf ⊢; omega)
        refine ⟨out, ho, h1, h2, ?_⟩
        rw [h3, List.length_append, List.length_singleton]
        omega

/-- C12: when the first invocation of the operation returns an error that is not
classified rate limited, `RetryWithBackoff` (on a limiter whose maximum retry
count is not negative, enabled or not, and whatever the context) returns that same
error after exactly one invocation and without any wait. -/
theorem retry_other_error (rl : RateLimiter) (ctx : Context) (fn : Nat → Option GoError)
    (clock : Nat → Time) (tie : Nat → SelectCase) (err : GoError)
    (hm : 0 ≤ rl.maxRetries) (h0 : fn 0 = some err)
    (hnr : IsRateLimitError (some err) = false) :
    rl.RetryWithBackoff ctx fn clock tie = some { err := some err, calls := 1, delays := [] } := by
  unfold RateLimiter.RetryWithBackoff
  cases he : rl.enabled with
  | false => simp [h0]
  | true =>
    simp only [Bool.not_true, Bool.false_eq_true, if_false]
    obtain ⟨n, hn⟩ : ∃ n, (rl.maxRetries + 1).toNat = n + 1 := ⟨rl.maxRetries.toNat, by omega⟩
    rw [hn]
    rcases retryLoop_succ rl ctx fn clock tie n 0 (1 * Second) none [] with
      ⟨hcond, _⟩ | ⟨_, hnone, _⟩ | ⟨_, _, hr⟩ | ⟨_, hrl, _⟩ | ⟨_, hrl, _, _⟩ | ⟨_, hrl, _, _⟩
    · exact absurd (by simpa using hm) hcond
    · rw [h0] at hnone
      exact absurd hnone (by simp)
    · rw [hr, h0]
    · rw [h0, hnr] at hrl
      exact absurd hrl (by decide)
    · rw [h0, hnr] at hrl
      exact absurd hrl (by decide)
    · rw [h0, hnr] at hrl
      exact absurd hrl (by decide)

/-- C12, at a concrete operation: a 404 API error is returned by the default
limiter after one invocation. -/
theorem retry_other_error_witness :
    (NewRateLimiter none).RetryWithBackoff background
        (fun _ => some (.api { StatusCode := 404, Message := goStr "Not Found", Errors := [],
                               Resource := [], Field := [], Code := [] }))
        (fun _ => sampleNow) (fun _ => .timerFired)
      = some { err := some (.api { StatusCode := 404, Message := goStr "Not Found", Errors := [],
                                   Resource := [], Field := [], Code := [] }),
               calls := 1, delays := [] } :=
  retry_other_error (NewRateLimiter none) background _ _ _ _ (by decide) rfl (by decide)

/-- C13: on an enabled limiter, let the first `i + 1` invocations be rate limited,
with `i` below the maximum retry count, so that a wait follows invocation `i`. If
the context is cancelled at an instant `c` before the timer of that wait ends,
and after the timers of the earlier waits ended, `RetryWithBackoff` returns the
error of the context, the operation has been invoked `i + 1` times and no more,
and `i` waits ran to completion. -/
theorem retry_cancelled_between (rl : RateLimiter) (ctx : Context)
    (fn : Nat → Option GoError) (clock : Nat → Time) (tie : Nat → SelectCase)
    (i : Nat) (c : Time)
    (he : rl.enabled = true)
    (hi : (i : Int) < rl.maxRetries)
    (hfn : ∀ j, j ≤ i → IsRateLimitError (fn j) = true)
    (hc : ctx.doneAt = some c)
    (hbefore : ∀ j, j < i → clock j + min (2 ^ j) 30 * Second < c)
    (hduring : c < clock i + min (2 ^ i) 30 * Second) :
    ∃ out, rl.RetryWithBackoff ctx fn clock tie = some out ∧
      out.err = some (.ctx ctx.err) ∧ out.calls = i + 1 ∧ out.delays.length = i := by
  obtain ⟨out, ho, h1, h2, h3⟩ :=
    retryLoop_cancelled rl ctx fn clock tie i c hi hfn hc hbefore hduring
      (rl.maxRetries + 1).toNat 0 none [] (Nat.zero_le _) (by push_cast; omega)
  refine ⟨out, ?_, h1, h2, by simpa using h3⟩
  simp only [RateLimiter.RetryWithBackoff, he, Bool.not_true, Bool.false_eq_true, if_false]
  simpa [Second] using ho

/-- C13, at a concrete run: the default limiter, an operation that is always rate
limited and takes no time, and a context cancelled 1.5 seconds after the start,
half a second into the second wait: two invocations, then the error of the
context. -/
theorem retry_cancelled_between_witness :
    ∃ out, (NewRateLimiter none).RetryWithBackoff
        (cancelledAt (sampleNow + 1500 * Millisecond)) alwaysRateLimited
        (fun j => sampleNow + j * Second) (fun _ => .timerFired) = some out ∧
      out.err = some (.ctx .Canceled) ∧ out.calls = 1 + 1 ∧ out.delays.length = 1 :=
  retry_cancelled_between (NewRateLimiter none) (cancelledAt (sampleNow + 1500 * Millisecond))
    alwaysRateLimited (fun j => sampleNow + j * Second) (fun _ => .timerFired) 1
    (sampleNow + 1500 * Millisecond) rfl (by decide) (fun _ _ => rfl) rfl
    (fun j hj => by
      have hj0 : j = 0 := by omega
      subst hj0
      decide)
    (by decide)

/-! ## Properties of the token manager -/

/-- The seconds of an instant reach `n` exactly when the instant reaches second
`n`. -/
theorem unix_ge_iff (now : Time) (n : Int) : Time.Unix now ≥ n ↔ unixTime n ≤ now := by
  unfold Time.Unix unixTime Second unixToInternal
  simp only [Time, Duration]
  omega

/-- An int64 computation whose mathematical result is in range gives that result. -/
theorem wrapInt64_of_range (x : Int) (h1 : -9223372036854775808 ≤ x)
    (h2 : x < 9223372036854775808) : wrapInt64 x = x := by
  unfold wrapInt64
  omega

/-- C14, as stated, fails: for a credential whose expiry is the least int64 the
subtraction `ExpiresAt - 300` wraps around to a large positive number, and
`GetAccessToken`, called in 2025 with a refresh token at hand, makes no exchange
and returns the held access token, although the instant of the call is later than
`E - 300` seconds. -/
theorem getAccessToken_buffer_wraps :
    (sampleManager (-9223372036854775808) (goStr "r1")).refreshToken ≠ [] ∧
    Time.Unix sampleNow ≥ -9223372036854775808 - 300 ∧
    unixTime (-9223372036854775808 - 300) ≤ sampleNow ∧
    ((sampleManager (-9223372036854775808) (goStr "r1")).GetAccessToken
        (endpointGranting grantedToken) sampleNow).exchanges = [] ∧
    ((sampleManager (-9223372036854775808) (goStr "r1")).GetAccessToken
        (endpointGranting grantedToken) sampleNow).accessToken
      = goStr "access-1" := by
  decide

/-- C14, amended: for a manager holding a credential whose expiry `E` is an int64
not below `-2^63 + 300`, with a non-empty refresh token, and for every instant
`now`: `GetAccessToken` makes a refresh exchange, exactly one and with the stored
refresh token, iff `now` is not earlier than `E - 300` seconds; when `now` is
earlier it returns the held access token without error, makes no exchange, invokes
no callback and leaves the manager as it was. -/
theorem getAccessToken_refresh_iff (tm : TokenManager) (w : TokenEndpoint) (now : Time)
    (tok : TokenResponse)
    (ht : tm.token = some tok) (hr : tm.refreshToken ≠ [])
    (hlo : -9223372036854775808 + 300 ≤ tok.ExpiresAt)
    (hhi : tok.ExpiresAt < 9223372036854775808) :
    ((tm.GetAccessToken w now).exchanges = [tm.refreshToken] ↔
      unixTime (tok.ExpiresAt - 300) ≤ now) ∧
    ((tm.GetAccessToken w now).exchanges = [] ↔ now < unixTime (tok.ExpiresAt - 300)) ∧
    (now < unixTime (tok.ExpiresAt - 300) →
      tm.GetAccessToken w now =
        { accessToken := tok.AccessToken, err := none, tm := tm, exchanges := [],
          notified := [] }) := by
  have hw : wrapInt64 (tok.ExpiresAt - 300) = tok.ExpiresAt - 300 :=
    wrapInt64_of_range _ (by omega) (by omega)
  have hiff := unix_ge_iff now (tok.ExpiresAt - 300)
  by_cases hdue : unixTime (tok.ExpiresAt - 300) ≤ now
  · have hd : tok.refreshDue now = true := by
      simp only [TokenResponse.refreshDue, hw, decide_eq_true_eq]
      exact hiff.2 hdue
    have hnl : ¬ now < unixTime (tok.ExpiresAt - 300) := not_lt.2 hdue
    simp only [TokenManager.GetAccessToken, ht, hd, if_true, hr, if_false]
    cases tm.config.RefreshToken w tm.refreshToken <;> simp [hdue, hnl]
  · have hd : tok.refreshDue now = false := by
      simp only [TokenResponse.refreshDue, hw, decide_eq_false_iff_not]
      exact fun h => hdue (hiff.1 h)
    have hnl : now < unixTime (tok.ExpiresAt - 300) := not_le.1 hdue
    simp [TokenManager.GetAccessToken, ht, hd, hdue, hnl]

/-- C14, amended, at concrete managers: with an expiry 200 seconds ahead the
exchange is made, with an expiry 301 seconds ahead the held token is returned. -/
theorem getAccessToken_refresh_iff_witness :
    ((sampleManager 1764403400 (goStr "r1")).GetAccessToken
        (endpointGranting grantedToken) sampleNow).exchanges
      = [goStr "r1"] ∧
    ((sampleManager 1764403501 (goStr "r1")).GetAccessToken
        (endpointGranting grantedToken) sampleNow).exchanges = [] :=
  ⟨(getAccessToken_refresh_iff (sampleManager 1764403400 (goStr "r1"))
      (endpointGranting grantedToken) sampleNow
      (sampleToken 1764403400 (goStr "r1")) rfl (by decide) (by decide) (by decide)).1.2
      (by decide),
   (getAccessToken_refresh_iff (sampleManager 1764403501 (goStr "r1"))
      (endpointGranting grantedToken) sampleNow
      (sampleToken 1764403501 (goStr "r1")) rfl (by decide) (by decide) (by decide)).2.1.2
      (by decide)⟩

/-- C15, as stated, fails: a credential whose expiry is the least int64 is
expired in 2026, and no refresh token is stored, yet `GetAccessToken` returns the
held access token and no error, since the subtraction `ExpiresAt - 300` of its
test wraps around. -/
theorem getAccessToken_expired_without_error :
    (sampleToken (-9223372036854775808) []).IsExpired sampleNow = true ∧
    (sampleManager (-9223372036854775808) []).refreshToken = [] ∧
    ((sampleManager (-9223372036854775808) []).GetAccessToken endpointRefusing sampleNow).err
      = none ∧
    ((sampleManager (-9223372036854775808) []).GetAccessToken endpointRefusing
        sampleNow).accessToken
      = goStr "access-1" := by
  decide

/-- C15, amended: for a manager holding a credential whose expiry `E` is an int64
not below `-2^63 + 300`, which at the instant `now` is expired (`IsExpired`) or
within the buffer (the seconds of `now` have reached `E - 300`), and whose stored
refresh token is empty: `GetAccessToken` returns no token and the error `token
expired and no refresh token available`, makes no exchange, invokes no callback
and leaves the manager, hence the held credential, as it was. -/
theorem getAccessToken_no_refresh_token (tm : TokenManager) (w : TokenEndpoint) (now : Time)
    (tok : TokenResponse)
    (ht : tm.token = some tok)
    (hlo : -9223372036854775808 + 300 ≤ tok.ExpiresAt)
    (hhi : tok.ExpiresAt < 9223372036854775808)
    (hdue : tok.IsExpired now = true ∨ Time.Unix now ≥ tok.ExpiresAt - 300)
    (hr : tm.refreshToken = []) :
    (tm.GetAccessToken w now).err
      = some (.other (goStr "token expired and no refresh token available")) ∧
    (tm.GetAccessToken w now).accessToken = [] ∧
    (tm.GetAccessToken w now).exchanges = [] ∧
    (tm.GetAccessToken w now).notified = [] ∧
    (tm.GetAccessToken w now).tm = tm ∧
    (tm.GetAccessToken w now).tm.GetToken = some tok := by
  have hw : wrapInt64 (tok.ExpiresAt - 300) = tok.ExpiresAt - 300 :=
    wrapInt64_of_range _ (by omega) (by omega)
  have hd : tok.refreshDue now = true := by
    simp only [TokenResponse.refreshDue, hw, decide_eq_true_eq]
    rcases hdue with h | h
    · simp only [TokenResponse.IsExpired, decide_eq_true_eq] at h
      omega
    · exact h
  simp [TokenManager.GetAccessToken, TokenManager.GetToken, ht, hd, hr]

/-- C15, amended, at a concrete manager: a credential that expired 200 seconds
ago, held without a refresh token. -/
theorem getAccessToken_no_refresh_token_witness :
    (sampleToken 1764403000 []).IsExpired sampleNow = true ∧
    ((sampleManager 1764403000 []).GetAccessToken endpointRefusing sampleNow).err
      = some (.other (goStr "token expired and no refresh token available")) ∧
    ((sampleManager 1764403000 []).GetAccessToken endpointRefusing sampleNow).exchanges = [] :=
  have h := getAccessToken_no_refresh_token (sampleManager 1764403000 []) endpointRefusing
    sampleNow (sampleToken 1764403000 []) rfl (by decide) (by decide) (Or.inl (by decide)) rfl
  ⟨by decide, h.1, h.2.2.1⟩

/-- C16: when the held credential is due for refresh, the stored refresh token is
not empty and the exchange made with it succeeds with the credential `c`, one call
of `GetAccessToken` makes exactly that one exchange, returns `c.AccessToken`
without error, and afterwards the manager holds `c` as its credential and
`c.RefreshToken` as its refresh token, everything else unchanged; the update
callback, when one is set, has been invoked exactly once, with `c`, and not at all
when none is set. -/
theorem getAccessToken_refresh_ok (tm : TokenManager) (w : TokenEndpoint) (now : Time)
    (tok c : TokenResponse)
    (ht : tm.token = some tok) (hdue : tok.refreshDue now = true)
    (hr : tm.refreshToken ≠ [])
    (hx : tm.config.RefreshToken w tm.refreshToken = .ok c) :
    (tm.GetAccessToken w now).exchanges = [tm.refreshToken] ∧
    (tm.GetAccessToken w now).accessToken = c.AccessToken ∧
    (tm.GetAccessToken w now).err = none ∧
    (tm.GetAccessToken w now).tm
      = { tm with token := some c, refreshToken := c.RefreshToken } ∧
    (tm.onTokenUpdate ≠ none → (tm.GetAccessToken w now).notified = [c]) ∧
    (tm.onTokenUpdate = none → (tm.GetAccessToken w now).notified = []) := by
  simp only [TokenManager.GetAccessToken, ht, hdue, if_true, hr, if_false, hx]
  refine ⟨trivial, trivial, trivial, trivial, ?_, ?_⟩
  · intro h
    cases hc : tm.onTokenUpdate with
    | none => exact absurd hc h
    | some _ => simp
  · intro h
    simp [h]

/-- C16, at a concrete manager: the credential expired 200 seconds ago, the
endpoint grants a new one. -/
theorem getAccessToken_refresh_ok_witness :
    ((sampleManager 1764403000 (goStr "r1")).GetAccessToken
        (endpointGranting grantedToken) sampleNow).exchanges
      = [goStr "r1"] ∧
    ((sampleManager 1764403000 (goStr "r1")).GetAccessToken
        (endpointGranting grantedToken) sampleNow).tm.refreshToken
      = goStr "r2" ∧
    ((sampleManager 1764403000 (goStr "r1")).GetAccessToken
        (endpointGranting grantedToken) sampleNow).notified
      = [grantedToken] :=
  have h := getAccessToken_refresh_ok (sampleManager 1764403000 (goStr "r1"))
    (endpointGranting grantedToken) sampleNow
    (sampleToken 1764403000 (goStr "r1")) grantedToken
    rfl (by decide) (by decide) rfl
  ⟨h.1, (congrArg TokenManager.refreshToken h.2.2.2.1).trans rfl, h.2.2.2.2.1 (by decide)⟩

/-- C17: when the held credential is due for refresh, the stored refresh token is
not empty and the exchange fails with the error `e`, `GetAccessToken` returns no
token and an error (wrapping `e`), does not invoke the callback, and leaves the
manager as it was: the held credential and the stored refresh token are the old
ones and `GetToken` still returns the old credential. -/
theorem getAccessToken_refresh_fails (tm : TokenManager) (w : TokenEndpoint) (now : Time)
    (tok : TokenResponse) (e : GoError)
    (ht : tm.token = some tok) (hdue : tok.refreshDue now = true)
    (hr : tm.refreshToken ≠ [])
    (hx : tm.config.RefreshToken w tm.refreshToken = .error e) :
    (tm.GetAccessToken w now).err = some (.wrapped (goStr "failed to refresh token: ") e) ∧
    (tm.GetAccessToken w now).accessToken = [] ∧
    (tm.GetAccessToken w now).notified = [] ∧
    (tm.GetAccessToken w now).tm = tm ∧
    (tm.GetAccessToken w now).tm.refreshToken = tm.refreshToken ∧
    (tm.GetAccessToken w now).tm.GetToken = some tok := by
  simp [TokenManager.GetAccessToken, TokenManager.GetToken, ht, hdue, hr, hx]

/-- C17, at a concrete manager: the endpoint answers the refresh with status 401. -/
theorem getAccessToken_refresh_fails_witness :
    ((sampleManager 1764403000 (goStr "r1")).GetAccessToken endpointRefusing sampleNow).tm
      = sampleManager 1764403000 (goStr "r1") ∧
    ((sampleManager 1764403000 (goStr "r1")).GetAccessToken endpointRefusing
        sampleNow).accessToken = [] :=
  have h := getAccessToken_refresh_fails (sampleManager 1764403000 (goStr "r1"))
    endpointRefusing sampleNow (sampleToken 1764403000 (goStr "r1"))
    (.api { StatusCode := 401, Message := goStr "Unauthorized", Errors := [], Resource := [],
            Field := [], Code := [] })
    rfl (by decide) (by decide) rfl
  ⟨h.2.2.2.1, h.2.1⟩

/-- C18, where the code departs from it: `NewTokenManager` with an absent
credential panics and yields no manager, and `UpdateToken` with an absent
credential panics after it has cleared the held credential. `GetAccessToken`
itself, on every manager that holds no credential, returns no token and the error
`no token available`, makes no exchange and leaves the manager as it was. -/
theorem tokenManager_absent_credential :
    (∀ config : OAuth2Config, NewTokenManager config none = none) ∧
    (∀ tm : TokenManager, (tm.UpdateToken none).panicked = true ∧
      (tm.UpdateToken none).tm.token = none) ∧
    (∀ (tm : TokenManager) (w : TokenEndpoint) (now : Time), tm.token = none →
      tm.GetAccessToken w now =
        { accessToken := [], err := some (.other (goStr "no token available")), tm := tm,
          exchanges := [], notified := [] }) := by
  refine ⟨fun _ => rfl, fun _ => ⟨rfl, rfl⟩, ?_⟩
  intro tm w now h
  simp [TokenManager.GetAccessToken, h]

/-- C20: the query values that `GetAuthorizationURL` encodes are exactly
`client_id` with the client id, `response_type` with `code`, `redirect_uri` with
the redirect URI, `scope` with the scopes joined by `,` iff there is a scope,
`approval_prompt` iff the approval prompt is not empty and `state` iff the state is
not empty, each once and no other; the URL returned is the authorization URL, `?`,
and these as `key=value` with the values escaped, in the order of the keys and
joined by `&`. It is a function of the configuration and the parameters alone. -/
theorem authorizationURL_query (c : OAuth2Config) (p : AuthorizationURLParams) :
    c.authorizationQuery p =
      [(goStr "client_id", [c.ClientID]), (goStr "response_type", [goStr "code"]),
       (goStr "redirect_uri", [c.RedirectURI])] ++
      ((if c.Scopes ≠ [] then [(goStr "scope", [Join c.Scopes (goStr ",")])] else []) ++
      ((if p.ApprovalPrompt ≠ [] then [(goStr "approval_prompt", [p.ApprovalPrompt])] else []) ++
      (if p.State ≠ [] then [(goStr "state", [p.State])] else []))) ∧
    c.GetAuthorizationURL p =
      goStr "https://www.strava.com/oauth/authorize?" ++
      Join
        ((if p.ApprovalPrompt ≠ [] then
            [goStr "approval_prompt=" ++ QueryEscape p.ApprovalPrompt] else []) ++
         ([goStr "client_id=" ++ QueryEscape c.ClientID,
           goStr "redirect_uri=" ++ QueryEscape c.RedirectURI,
           goStr "response_type=code"] ++
         ((if c.Scopes ≠ [] then
            [goStr "scope=" ++ QueryEscape (Join c.Scopes (goStr ","))] else []) ++
         (if p.State ≠ [] then [goStr "state=" ++ QueryEscape p.State] else []))))
        (goStr "&") := by
  have hq : c.authorizationQuery p =
      [(goStr "client_id", [c.ClientID]), (goStr "response_type", [goStr "code"]),
       (goStr "redirect_uri", [c.RedirectURI])] ++
      ((if c.Scopes ≠ [] then [(goStr "scope", [Join c.Scopes (goStr ",")])] else []) ++
      ((if p.ApprovalPrompt ≠ [] then [(goStr "approval_prompt", [p.ApprovalPrompt])] else []) ++
      (if p.State ≠ [] then [(goStr "state", [p.State])] else []))) := by
    obtain ⟨cid, sec, ruri, scopes⟩ := c
    obtain ⟨prompt, state⟩ := p
    cases scopes <;> cases prompt <;> cases state <;>
      simp only [OAuth2Config.authorizationQuery, List.length_cons, List.length_nil, gt_iff_lt,
        Nat.zero_lt_succ, lt_self_iff_false, if_true, if_false, ne_eq, not_true_eq_false,
        not_false_eq_true, reduceCtorEq] <;> rfl
  refine ⟨hq, ?_⟩
  unfold OAuth2Config.GetAuthorizationURL
  rw [hq]
  generalize Join c.Scopes (goStr ",") = joined
  by_cases hs : c.Scopes = [] <;> by_cases hp : p.ApprovalPrompt = [] <;>
    by_cases ht : p.State = [] <;>
    simp only [hs, hp, ht, ne_eq, not_true_eq_false, not_false_eq_true, if_true, if_false,
      List.append_nil, List.nil_append, List.cons_append] <;> rfl


set_option maxRecDepth 20000 in
/-- C20, at the sample configuration with approval prompt `auto`. -/
theorem authorizationURL_query_witness :
    sampleConfig.GetAuthorizationURL { ApprovalPrompt := goStr "auto", State := [] } =
      goStr ("https://www.strava.com/oauth/authorize?approval_prompt=auto&client_id=12345" ++
        "&redirect_uri=http%3A%2F%2Flocalhost%3A8080%2Fcallback&response_type=code" ++
        "&scope=read%2Cactivity%3Aread_all") :=
  (authorizationURL_query sampleConfig { ApprovalPrompt := goStr "auto", State := [] }).2.trans
    (by decide)

/-- The two parts into which `GetAccessToken` is cut at the call of `RefreshToken`
make up the method. -/
theorem getAccessToken_eq_parts (tm : TokenManager) (w : TokenEndpoint) (now : Time) :
    tm.GetAccessToken w now =
      match tm.enterGetAccessToken now with
      | .inFlight rt =>
        match tm.resumeGetAccessToken (tm.config.RefreshToken w rt) with
        | (tm1, .done accessToken err, notified) =>
          { accessToken := accessToken, err := err, tm := tm1, exchanges := [rt],
            notified := notified }
        | (tm1, _, notified) =>
          { accessToken := [], err := none, tm := tm1, exchanges := [rt], notified := notified }
      | .done accessToken err =>
        { accessToken := accessToken, err := err, tm := tm, exchanges := [], notified := [] }
      | .ready =>
        { accessToken := [], err := none, tm := tm, exchanges := [], notified := [] } := by
  unfold TokenManager.GetAccessToken TokenManager.enterGetAccessToken
    TokenManager.resumeGetAccessToken
  cases tm.token with
  | none => rfl
  | some token =>
    simp only
    cases token.refreshDue now with
    | false => rfl
    | true =>
      simp only [if_true]
      by_cases hr : tm.refreshToken = []
      · simp only [hr, if_true]
      · simp only [hr, if_false]
        cases tm.config.RefreshToken w tm.refreshToken <;> rfl

/-- Calls made in turn on a manager whose credential is not due return that
credential and change nothing. -/
theorem callsInTurn_not_due (w : TokenEndpoint) (tm : TokenManager) (c : TokenResponse)
    (ht : tm.token = some c) (nows : List Time) (hc : ∀ t ∈ nows, c.refreshDue t = false) :
    callsInTurn w nows tm =
      nows.map fun _ =>
        { accessToken := c.AccessToken, err := none, tm := tm, exchanges := [],
          notified := [] } := by
  induction nows with
  | nil => rfl
  | cons t ts ih =>
    have h1 : tm.GetAccessToken w t =
        { accessToken := c.AccessToken, err := none, tm := tm, exchanges := [],
          notified := [] } := by
      simp [TokenManager.GetAccessToken, ht, hc t (List.mem_cons_self _ _)]
    simp only [callsInTurn, h1, List.map_cons]
    rw [ih (fun t ht2 => hc t (List.mem_cons_of_mem _ ht2))]

/-- C19, as stated, fails: two callers of `GetAccessToken` on a manager whose
credential expired 200 seconds ago, the second entering while the request of the
first is in flight (schedule 0, 1, 0, 1), send two requests to the token endpoint,
both with the old refresh token, and the callback is invoked twice. -/
theorem getAccessToken_overlap_two_exchanges :
    (SharedManager.run (endpointGranting grantedToken) sampleNow
        { tm := sampleManager 1764403000 (goStr "r1"), calls := [.ready, .ready],
          exchanges := [], notified := [] } [0, 1, 0, 1]).exchanges
      = [goStr "r1", goStr "r1"] ∧
    (SharedManager.run (endpointGranting grantedToken) sampleNow
        { tm := sampleManager 1764403000 (goStr "r1"), calls := [.ready, .ready],
          exchanges := [], notified := [] } [0, 1, 0, 1]).calls
      = [.done (goStr "access-2") none, .done (goStr "access-2") none] ∧
    (SharedManager.run (endpointGranting grantedToken) sampleNow
        { tm := sampleManager 1764403000 (goStr "r1"), calls := [.ready, .ready],
          exchanges := [], notified := [] } [0, 1, 0, 1]).notified
      = [grantedToken, grantedToken] := by
  decide

/-- C19, amended: when callers invoke `GetAccessToken` in turn, each after the one
before has returned, on a manager whose credential is due for refresh at the first
call and whose refresh token is not empty, and the exchange succeeds with a
credential `c` that is not due at the later calls, then exactly one exchange is
made in all, by the first caller, and every caller is returned `c.AccessToken`
without error. -/
theorem getAccessToken_in_turn (tm : TokenManager) (w : TokenEndpoint) (now : Time)
    (later : List Time) (tok c : TokenResponse)
    (ht : tm.token = some tok) (hdue : tok.refreshDue now = true)
    (hr : tm.refreshToken ≠ [])
    (hx : tm.config.RefreshToken w tm.refreshToken = .ok c)
    (hc : ∀ t ∈ later, c.refreshDue t = false) :
    (callsInTurn w (now :: later) tm).length = later.length + 1 ∧
    (callsInTurn w (now :: later) tm).flatMap (fun o => o.exchanges) = [tm.refreshToken] ∧
    ∀ o ∈ callsInTurn w (now :: later) tm, o.accessToken = c.AccessToken ∧ o.err = none := by
  have h1 : tm.GetAccessToken w now =
      { accessToken := c.AccessToken, err := none
        tm := { tm with token := some c, refreshToken := c.RefreshToken }
        exchanges := [tm.refreshToken]
        notified := if tm.onTokenUpdate.isSome then [c] else [] } := by
    simp only [TokenManager.GetAccessToken, ht, hdue, if_true, hr, if_false, hx]
  have h2 := callsInTurn_not_due w { tm with token := some c, refreshToken := c.RefreshToken }
    c rfl later hc
  simp only [callsInTurn, h1, h2]
  refine ⟨by simp, ?_, ?_⟩
  · simp
  · intro o ho
    simp only [List.mem_cons, List.mem_map] at ho
    rcases ho with rfl | ⟨_, _, rfl⟩ <;> exact ⟨rfl, rfl⟩

/-- C19, amended, at concrete callers: three calls in turn, one second apart. -/
theorem getAccessToken_in_turn_witness :
    (callsInTurn (endpointGranting grantedToken)
        [sampleNow, sampleNow + Second, sampleNow + 2 * Second]
        (sampleManager 1764403000 (goStr "r1"))).flatMap (fun o => o.exchanges)
      = [goStr "r1"] :=
  (getAccessToken_in_turn (sampleManager 1764403000 (goStr "r1"))
    (endpointGranting grantedToken) sampleNow [sampleNow + Second, sampleNow + 2 * Second]
    (sampleToken 1764403000 (goStr "r1")) grantedToken rfl (by decide) (by decide) rfl
    (by decide)).2.1

/-! ## Further properties of the rate limiter and the error predicates -/

/-- An error that is not rate limited at the first invocation ends
`RetryWithBackoff` at once. -/
theorem retryWithBackoff_first_other (rl : RateLimiter) (ctx : Context)
    (fn : Nat → Option GoError) (clock : Nat → Time) (tie : Nat → SelectCase) (err : GoError)
    (hm : 0 ≤ rl.maxRetries) (h0 : fn 0 = some err)
    (hnr : IsRateLimitError (some err) = false) :
    rl.RetryWithBackoff ctx fn clock tie = some { err := some err, calls := 1, delays := [] } := by
  unfold RateLimiter.RetryWithBackoff
  cases he : rl.enabled with
  | false => simp [h0]
  | true =>
    simp only [Bool.not_true, Bool.false_eq_true, if_false]
    obtain ⟨n, hn⟩ : ∃ n, (rl.maxRetries + 1).toNat = n + 1 := ⟨rl.maxRetries.toNat, by omega⟩
    rw [hn]
    rcases retryLoop_succ rl ctx fn clock tie n 0 (1 * Second) none [] with
      ⟨hcond, _⟩ | ⟨_, hnone, _⟩ | ⟨_, _, hr⟩ | ⟨_, hrl, _⟩ | ⟨_, hrl, _, _⟩ | ⟨_, hrl, _, _⟩
    · exact absurd (by simpa using hm) hcond
    · rw [h0] at hnone
      exact absurd hnone (by simp)
    · rw [hr, h0]
    · rw [h0, hnr] at hrl
      exact absurd hrl (by decide)
    · rw [h0, hnr] at hrl
      exact absurd hrl (by decide)
    · rw [h0, hnr] at hrl
      exact absurd hrl (by decide)

/-- C25, as stated, fails: on a fresh enabled limiter that has recorded limit 100,
usage 99 and a reset two seconds ahead, the next call of `Wait` does not suspend
for quota, since the usage is below the limit; it returns after the minimum delay
of 100 ms, long before the reset instant, and the usage still reads 99. So does
the call after it. -/
theorem wait_below_limit_no_suspension :
    (((NewRateLimiter none).Update
        { Limit := 100, Usage := 99, Reset := sampleNow + 2 * Second }).Wait background sampleNow
        .timerFired).quota = .notNeeded ∧
    (((NewRateLimiter none).Update
        { Limit := 100, Usage := 99, Reset := sampleNow + 2 * Second }).Wait background sampleNow
        .timerFired).elapsed = 100 * Millisecond ∧
    (((NewRateLimiter none).Update
        { Limit := 100, Usage := 99, Reset := sampleNow + 2 * Second }).Wait background sampleNow
        .timerFired).rl.usage = 99 ∧
    ((((NewRateLimiter none).Update
        { Limit := 100, Usage := 99, Reset := sampleNow + 2 * Second }).Wait background sampleNow
        .timerFired).rl.Wait background (sampleNow + 100 * Millisecond) .timerFired).quota
      = .notNeeded := by
  decide

/-- A limiter that `NewRateLimiter` has just built holds no quota information. -/
theorem newRateLimiter_fresh (config : Option RateLimiterConfig) :
    (NewRateLimiter config).limit = 0 ∧ (NewRateLimiter config).usage = 0 ∧
    (NewRateLimiter config).reset = 0 := by
  unfold NewRateLimiter
  cases config with
  | none => exact ⟨rfl, rfl, rfl⟩
  | some c =>
    simp only
    split_ifs <;> exact ⟨rfl, rfl, rfl⟩

/-- `Update` on an enabled limiter with limit, usage and reset all present. -/
theorem update_all_present (rl : RateLimiter) (info : RateLimitInfo) (he : rl.enabled = true)
    (h1 : 0 < info.Limit) (h2 : 0 < info.Usage) (h3 : info.Reset ≠ 0) :
    rl.Update info =
      { rl with limit := info.Limit, usage := info.Usage, reset := info.Reset } := by
  unfold RateLimiter.Update Time.IsZero
  simp [he, h1, h2, h3]

/-- C25, amended: starting from a fresh enabled limiter, at an instant `now` that
is not before the zero instant. After limit 100, usage 99 and reset `now + 2 s`
have been recorded, a call of `Wait` does not suspend for quota and leaves the
usage at 99. After limit 100, usage 100 and reset `now + 2 s` have been recorded,
the next call of `Wait` (context never cancelled) suspends for the two seconds
until the reset instant and the usage reads 0 when it returns; the call after
that, made once the first has returned, does not suspend for quota. -/
theorem wait_scenario (config : Option RateLimiterConfig) (now : Time) (tie : SelectCase)
    (he : (NewRateLimiter config).enabled = true) (hnow : 0 ≤ now) :
    (((NewRateLimiter config).Update
        { Limit := 100, Usage := 99, Reset := now + 2 * Second }).Wait background now tie).quota
      = .notNeeded ∧
    (((NewRateLimiter config).Update
        { Limit := 100, Usage := 99, Reset := now + 2 * Second }).Wait background now tie).rl.usage
      = 99 ∧
    (((NewRateLimiter config).Update
        { Limit := 100, Usage := 100, Reset := now + 2 * Second }).Wait background now tie).quota
      = .completed (2 * Second) ∧
    (((NewRateLimiter config).Update
        { Limit := 100, Usage := 100, Reset := now + 2 * Second }).Wait background now tie).rl.usage
      = 0 ∧
    ∀ (later : Time) (tie2 : SelectCase),
      ((((NewRateLimiter config).Update
          { Limit := 100, Usage := 100, Reset := now + 2 * Second }).Wait background now tie).rl.Wait
          background later tie2).quota = .notNeeded := by
  have hr : now + 2 * Second ≠ 0 := by
    unfold Second
    simp only [Time, Duration] at *
    omega
  have hu : Until now (now + 2 * Second) = 2 * Second := by
    unfold Until Time.Sub maxDuration minDuration Second
    simp only [Time, Duration] at *
    split_ifs <;> omega
  have hpos : (0 : Duration) < 2 * Second := by decide
  have hs : sleepTime (2 * Second) = 2 * Second := by decide
  have h99 := update_all_present (NewRateLimiter config)
    { Limit := 100, Usage := 99, Reset := now + 2 * Second } he
    (show (0 : Int) < 100 by decide) (show (0 : Int) < 99 by decide) hr
  have h100 := update_all_present (NewRateLimiter config)
    { Limit := 100, Usage := 100, Reset := now + 2 * Second } he
    (show (0 : Int) < 100 by decide) (show (0 : Int) < 100 by decide) hr
  rw [h99, h100]
  simp [RateLimiter.Wait, he, hu, hpos, hs, selectCtxTimer, background]

/-- C25, amended, at the default limiter and the sample instant. -/
theorem wait_scenario_witness :
    (((NewRateLimiter none).Update
        { Limit := 100, Usage := 100, Reset := sampleNow + 2 * Second }).Wait background
        sampleNow .timerFired).quota = .completed (2 * Second) :=
  (wait_scenario none sampleNow .timerFired rfl (by decide)).2.2.1

/-- C26, where the code departs from it: for a nil config the limiter has the
documented defaults (enabled, 100 ms, 3 retries), and for a non-nil config the
minimum delay and the maximum retry count are those of the config when positive
and the defaults otherwise. The enabled flag of a non-nil config, however, is
taken as it is: a config that leaves `Enabled` at its zero value, such as one that
sets `MinDelay` to 200 ms and nothing else, gives a disabled limiter and not the
documented default `true`. -/
theorem newRateLimiter_defaults :
    NewRateLimiter none =
      { limit := 0, usage := 0, reset := 0, minDelay := 100 * Millisecond, maxRetries := 3,
        enabled := true } ∧
    (∀ c : RateLimiterConfig,
      (NewRateLimiter (some c)).minDelay
        = (if c.MinDelay > 0 then c.MinDelay else 100 * Millisecond) ∧
      (NewRateLimiter (some c)).maxRetries = (if c.MaxRetries > 0 then c.MaxRetries else 3) ∧
      (NewRateLimiter (some c)).enabled = c.Enabled) ∧
    (NewRateLimiter (some { Enabled := false, MinDelay := 200 * Millisecond, MaxRetries := 0 }))
      = { limit := 0, usage := 0, reset := 0, minDelay := 200 * Millisecond, maxRetries := 3,
          enabled := false } := by
  refine ⟨rfl, ?_, by decide⟩
  intro c
  unfold NewRateLimiter
  simp only
  cases c.Enabled <;> split_ifs <;> simp_all

/-- C28: the four package-level predicates are false on nil and on every error
that is not itself an `*Error`, in particular on an error that wraps an `*Error`
whatever its status, such as the error `GetAccessToken` returns when the refresh
exchange fails; and `RetryWithBackoff` (maximum retry count not negative) returns
an error that wraps a rate-limit error after a single invocation, without a
wait. -/
theorem predicates_ignore_wrapped :
    (IsError none = false ∧ IsRateLimitError none = false ∧ IsAuthError none = false ∧
      IsNotFoundError none = false) ∧
    (∀ err : GoError, (∀ e : Error, err ≠ .api e) →
      IsError (some err) = false ∧ IsRateLimitError (some err) = false ∧
      IsAuthError (some err) = false ∧ IsNotFoundError (some err) = false) ∧
    (∀ (msg : GoString) (e : Error),
      IsError (some (.wrapped msg (.api e))) = false ∧
      IsRateLimitError (some (.wrapped msg (.api e))) = false ∧
      IsAuthError (some (.wrapped msg (.api e))) = false ∧
      IsNotFoundError (some (.wrapped msg (.api e))) = false) ∧
    (∀ (tm : TokenManager) (w : TokenEndpoint) (now : Time) (tok : TokenResponse) (e : GoError),
      tm.token = some tok → tok.refreshDue now = true → tm.refreshToken ≠ [] →
      tm.config.RefreshToken w tm.refreshToken = .error e →
      (tm.GetAccessToken w now).err = some (.wrapped (goStr "failed to refresh token: ") e) ∧
      IsRateLimitError (tm.GetAccessToken w now).err = false ∧
      IsAuthError (tm.GetAccessToken w now).err = false) ∧
    (∀ (rl : RateLimiter) (ctx : Context) (fn : Nat → Option GoError) (clock : Nat → Time)
      (tie : Nat → SelectCase) (msg : GoString) (inner : GoError),
      0 ≤ rl.maxRetries → fn 0 = some (.wrapped msg inner) →
      rl.RetryWithBackoff ctx fn clock tie =
        some { err := some (.wrapped msg inner), calls := 1, delays := [] }) := by
  refine ⟨⟨rfl, rfl, rfl, rfl⟩, ?_, fun _ _ => ⟨rfl, rfl, rfl, rfl⟩, ?_, ?_⟩
  · intro err h
    cases err with
    | api e => exact absurd rfl (h e)
    | ctx _ => exact ⟨rfl, rfl, rfl, rfl⟩
    | wrapped _ _ => exact ⟨rfl, rfl, rfl, rfl⟩
    | other _ => exact ⟨rfl, rfl, rfl, rfl⟩
  · intro tm w now tok e ht hdue hr hx
    have h : (tm.GetAccessToken w now).err
        = some (.wrapped (goStr "failed to refresh token: ") e) := by
      simp [TokenManager.GetAccessToken, ht, hdue, hr, hx]
    rw [h]
    exact ⟨rfl, rfl, rfl⟩
  · intro rl ctx fn clock tie msg inner hm h0
    exact retryWithBackoff_first_other rl ctx fn clock tie _ hm h0 rfl

/-- C28, at a concrete run: the token endpoint answers the refresh with status
429; the error of `GetAccessToken` wraps that rate-limit error, is not classified
rate limited, and the default limiter returns it after one invocation. -/
theorem predicates_ignore_wrapped_witness :
    ((sampleManager 1764403000 (goStr "r1")).GetAccessToken endpointLimiting sampleNow).err
      = some (.wrapped (goStr "failed to refresh token: ")
          (.api { StatusCode := 429, Message := goStr "Rate Limit Exceeded", Errors := [],
                  Resource := [], Field := [], Code := [] })) ∧
    IsRateLimitError
      ((sampleManager 1764403000 (goStr "r1")).GetAccessToken endpointLimiting sampleNow).err
      = false ∧
    (NewRateLimiter none).RetryWithBackoff background
        (fun _ => ((sampleManager 1764403000 (goStr "r1")).GetAccessToken endpointLimiting
          sampleNow).err)
        (fun _ => sampleNow) (fun _ => .timerFired)
      = some { err := some (.wrapped (goStr "failed to refresh token: ")
                  (.api { StatusCode := 429, Message := goStr "Rate Limit Exceeded",
                          Errors := [], Resource := [], Field := [], Code := [] })),
               calls := 1, delays := [] } :=
  ⟨by decide, by decide,
   predicates_ignore_wrapped.2.2.2.2 (NewRateLimiter none) background _ _ _ _ _ (by decide)
     (by decide)⟩

/-- C29: on a disabled limiter `RetryWithBackoff` invokes the operation exactly
once and returns what it returned, rate limited or not, without any wait; `Wait`
returns nil without suspending, whatever the context; `Update` leaves the state as
it was. -/
theorem disabled_limiter (rl : RateLimiter) (ctx : Context) (fn : Nat → Option GoError)
    (clock : Nat → Time) (tie : Nat → SelectCase) (now : Time) (tie1 : SelectCase)
    (info : RateLimitInfo) (h : rl.enabled = false) :
    rl.RetryWithBackoff ctx fn clock tie = some { err := fn 0, calls := 1, delays := [] } ∧
    rl.Wait ctx now tie1 = { err := none, rl := rl, quota := .notNeeded, slept := none } ∧
    (rl.Wait ctx now tie1).elapsed = 0 ∧
    rl.Update info = rl := by
  refine ⟨?_, ?_, ?_, ?_⟩
  · simp [RateLimiter.RetryWithBackoff, h]
  · simp [RateLimiter.Wait, h]
  · simp [RateLimiter.Wait, h, WaitOutcome.elapsed, QuotaPhase.blocked]
  · simp [RateLimiter.Update, h]

/-- C29, at a concrete limiter: disabled by its config, with an operation that is
always rate limited and a context that is already cancelled. -/
theorem disabled_limiter_witness :
    (NewRateLimiter (some { Enabled := false, MinDelay := 0, MaxRetries := 0 })).RetryWithBackoff
        (cancelledAt 0) alwaysRateLimited (fun _ => sampleNow) (fun _ => .ctxDone)
      = some { err := alwaysRateLimited 0, calls := 1, delays := [] } ∧
    ((NewRateLimiter (some { Enabled := false, MinDelay := 0, MaxRetries := 0 })).Wait
        (cancelledAt 0) sampleNow .ctxDone).err = none :=
  have h := disabled_limiter
    (NewRateLimiter (some { Enabled := false, MinDelay := 0, MaxRetries := 0 }))
    (cancelledAt 0) alwaysRateLimited (fun _ => sampleNow) (fun _ => .ctxDone) sampleNow
    .ctxDone { Limit := 100, Usage := 100, Reset := sampleNow } rfl
  ⟨h.1, by rw [h.2.1]⟩

/-! ## Properties of the request dispatcher -/

/-- The three ways a call of `Do` can go: `Wait` fails; the transport call fails;
a response arrives, the limiter is updated from its headers, and the status
decides between `ParseError` and decoding. -/
theorem do_cases (c : Client) (env : DoEnv) (req : Request) (wantResult : Bool) :
    (∃ err, (c.rateLimiter.Wait env.ctx env.now env.tie).err = some err ∧
      c.Do env req wantResult =
        { response := none, err := some err,
          rateLimiter := (c.rateLimiter.Wait env.ctx env.now env.tie).rl, sent := false,
          parsedError := false, decoded := false }) ∨
    ((c.rateLimiter.Wait env.ctx env.now env.tie).err = none ∧
      ∃ err, env.roundTrip req = .error err ∧
      c.Do env req wantResult =
        { response := none, err := some err,
          rateLimiter := (c.rateLimiter.Wait env.ctx env.now env.tie).rl, sent := true,
          parsedError := false, decoded := false }) ∨
    ((c.rateLimiter.Wait env.ctx env.now env.tie).err = none ∧
      ∃ resp, env.roundTrip req = .ok resp ∧
      c.Do env req wantResult =
        { response := some
            { resp := resp, RateLimit := parseRateLimitHeaders env.sscanInt resp.Header }
          err :=
            if resp.StatusCode ≥ 400 then some (.api (ParseError env.unmarshal resp.toHttp))
            else if wantResult = true then env.decode resp.Body else none
          rateLimiter := (c.rateLimiter.Wait env.ctx env.now env.tie).rl.Update
            (parseRateLimitHeaders env.sscanInt resp.Header)
          sent := true
          parsedError := decide (resp.StatusCode ≥ 400)
          decoded := decide (resp.StatusCode < 400) && wantResult }) := by
  cases hw : (c.rateLimiter.Wait env.ctx env.now env.tie).err with
  | some err =>
    refine Or.inl ⟨err, rfl, ?_⟩
    simp only [Client.Do, hw]
  | none =>
    right
    cases hr : env.roundTrip req with
    | error err =>
      refine Or.inl ⟨rfl, err, rfl, ?_⟩
      simp only [Client.Do, hw, hr]
    | ok resp =>
      refine Or.inr ⟨rfl, resp, rfl, ?_⟩
      simp only [Client.Do, hw, hr]
      by_cases hs : resp.StatusCode ≥ 400
      · have hlt : ¬ resp.StatusCode < 400 := not_lt.2 hs
        simp [hs, hlt]
      · have hlt : resp.StatusCode < 400 := not_le.1 hs
        cases wantResult <;> simp [hs, hlt]

/-- C22, as stated, fails: a response with status 304, which is not in the range
200-299, is not turned into an error: `Do` returns nil, does not invoke
`ParseError`, and decodes the body into the result. -/
theorem do_status_304 :
    ¬ ((200 : Int) ≤ 304 ∧ (304 : Int) ≤ 299) ∧
    ((NewClient (goStr "access-1")).Do (sampleDoEnv 304) sampleRequest true).err = none ∧
    ((NewClient (goStr "access-1")).Do (sampleDoEnv 304) sampleRequest true).parsedError
      = false ∧
    ((NewClient (goStr "access-1")).Do (sampleDoEnv 304) sampleRequest true).decoded = true := by
  decide

/-- C22, amended: for a response that `Do` receives (after `Wait` returned nil).
When its status code is 400 or more, `Do` returns as its error the `Error` that
`ParseError` builds from the response and does not decode the body. When its
status code is below 400, as every 2xx status is, `ParseError` is not invoked;
the body is decoded exactly when a result is wanted, and the error of `Do` is
that of the decoding. -/
theorem do_error_status (c : Client) (env : DoEnv) (req : Request) (wantResult : Bool)
    (resp : TransportResponse)
    (hw : (c.rateLimiter.Wait env.ctx env.now env.tie).err = none)
    (hr : env.roundTrip req = .ok resp) :
    (resp.StatusCode ≥ 400 →
      (c.Do env req wantResult).err = some (.api (ParseError env.unmarshal resp.toHttp)) ∧
      (c.Do env req wantResult).parsedError = true ∧
      (c.Do env req wantResult).decoded = false) ∧
    (resp.StatusCode < 400 →
      (c.Do env req wantResult).parsedError = false ∧
      (c.Do env req wantResult).decoded = wantResult ∧
      (c.Do env req wantResult).err
        = (if wantResult = true then env.decode resp.Body else none)) ∧
    ((200 ≤ resp.StatusCode ∧ resp.StatusCode ≤ 299) →
      (c.Do env req wantResult).parsedError = false) := by
  rcases do_cases c env req wantResult with ⟨err, he, _⟩ | ⟨_, err, he, _⟩ | ⟨_, r, he, hd⟩
  · rw [hw] at he
    exact absurd he (by simp)
  · rw [hr] at he
    exact absurd he (by simp)
  · rw [hr] at he
    cases he
    rw [hd]
    refine ⟨fun h => ?_, fun h => ?_, fun h => ?_⟩
    · have hlt : ¬ resp.StatusCode < 400 := not_lt.2 h
      simp [h, hlt]
    · have hge : ¬ resp.StatusCode ≥ 400 := not_le.2 h
      simp [h, hge]
    · have hge : ¬ resp.StatusCode ≥ 400 := by omega
      simp [hge]

/-- C22, amended, at concrete responses: status 404 gives the error of
`ParseError`, status 200 does not invoke it. -/
theorem do_error_status_witness :
    ((NewClient (goStr "access-1")).Do (sampleDoEnv 404) sampleRequest true).err
      = some (.api (ParseError (sampleDoEnv 404).unmarshal
          { StatusCode := 404, Body := some (goStr "\x7b\x7d") })) ∧
    ((NewClient (goStr "access-1")).Do (sampleDoEnv 200) sampleRequest true).parsedError
      = false :=
  ⟨((do_error_status (NewClient (goStr "access-1")) (sampleDoEnv 404) sampleRequest true
      _ (by decide) rfl).1 (by decide)).1,
   ((do_error_status (NewClient (goStr "access-1")) (sampleDoEnv 200) sampleRequest true
      _ (by decide) rfl).2.1 (by decide)).1⟩

/-- C23: when `Do` receives a response, whatever its status code and whatever
becomes of the decoding, the limiter afterwards is the limiter after `Wait`
updated by `Update` with `parseRateLimitHeaders` of the headers of the response.
When `Wait` fails or the transport call fails, and only then, there is no update:
the limiter afterwards is the limiter after `Wait`. -/
theorem do_updates_limiter (c : Client) (env : DoEnv) (req : Request) (wantResult : Bool) :
    (∀ resp, (c.rateLimiter.Wait env.ctx env.now env.tie).err = none →
      env.roundTrip req = .ok resp →
      (c.Do env req wantResult).rateLimiter =
        (c.rateLimiter.Wait env.ctx env.now env.tie).rl.Update
          (parseRateLimitHeaders env.sscanInt resp.Header)) ∧
    ((c.rateLimiter.Wait env.ctx env.now env.tie).err ≠ none →
      (c.Do env req wantResult).rateLimiter = (c.rateLimiter.Wait env.ctx env.now env.tie).rl ∧
      (c.Do env req wantResult).sent = false) ∧
    (∀ err, (c.rateLimiter.Wait env.ctx env.now env.tie).err = none →
      env.roundTrip req = .error err →
      (c.Do env req wantResult).rateLimiter = (c.rateLimiter.Wait env.ctx env.now env.tie).rl ∧
      (c.Do env req wantResult).err = some err) := by
  rcases do_cases c env req wantResult with ⟨err, he, hd⟩ | ⟨hn, err, he, hd⟩ | ⟨hn, r, he, hd⟩
  · refine ⟨fun resp hw => ?_, fun _ => ?_, fun e hw => ?_⟩
    · rw [hw] at he
      exact absurd he (by simp)
    · rw [hd]
      exact ⟨rfl, rfl⟩
    · rw [hw] at he
      exact absurd he (by simp)
  · refine ⟨fun resp _ hr => ?_, fun h => absurd hn h, fun e _ hr => ?_⟩
    · rw [hr] at he
      exact absurd he (by simp)
    · rw [hr] at he
      cases he
      rw [hd]
      exact ⟨rfl, rfl⟩
  · refine ⟨fun resp _ hr => ?_, fun h => absurd hn h, fun e _ hr => ?_⟩
    · rw [hr] at he
      cases he
      rw [hd]
    · rw [hr] at he
      exact absurd he (by simp)

/-- C23, at concrete responses: after a 404 as after a 200 the limiter holds the
limit and usage of the headers. -/
theorem do_updates_limiter_witness :
    ((NewClient (goStr "access-1")).Do (sampleDoEnv 404) sampleRequest true).rateLimiter
      = { limit := 100, usage := 100, reset := 0, minDelay := 100 * Millisecond, maxRetries := 3,
          enabled := true } ∧
    ((NewClient (goStr "access-1")).Do (sampleDoEnv 200) sampleRequest true).rateLimiter
      = { limit := 100, usage := 100, reset := 0, minDelay := 100 * Millisecond, maxRetries := 3,
          enabled := true } :=
  ⟨((do_updates_limiter (NewClient (goStr "access-1")) (sampleDoEnv 404) sampleRequest true).1
      _ (by decide) rfl).trans (by decide),
   ((do_updates_limiter (NewClient (goStr "access-1")) (sampleDoEnv 200) sampleRequest true).1
      _ (by decide) rfl).trans (by decide)⟩

/-- The rate limit information read from headers never has a reset instant. -/
theorem parseRateLimitHeaders_reset (sscanInt : GoString → Option Int) (headers : Header) :
    (parseRateLimitHeaders sscanInt headers).Reset = 0 := by
  unfold parseRateLimitHeaders
  simp only
  split_ifs <;> rfl

/-- An update without a reset instant keeps the stored one. -/
theorem update_reset_zero (rl : RateLimiter) (info : RateLimitInfo) (h : info.Reset = 0) :
    (rl.Update info).reset = rl.reset := by
  unfold RateLimiter.Update Time.IsZero
  simp only [h]
  split_ifs <;> simp_all

/-- `Wait` never changes the stored reset instant. -/
theorem wait_reset_frame (rl : RateLimiter) (ctx : Context) (now : Time) (tie : SelectCase) :
    (rl.Wait ctx now tie).rl.reset = rl.reset := by
  rcases wait_cases rl ctx now tie with ⟨_, hw⟩ | ⟨_, b, _, hw⟩ | ⟨_, b, _, hw⟩ | ⟨_, hw⟩ <;>
    rw [hw]

/-- A call of `Do` never changes the stored reset instant. -/
theorem do_reset_frame (c : Client) (env : DoEnv) (req : Request) (wantResult : Bool) :
    (c.Do env req wantResult).rateLimiter.reset = c.rateLimiter.reset := by
  have hwf := wait_reset_frame c.rateLimiter env.ctx env.now env.tie
  rcases do_cases c env req wantResult with ⟨err, _, hd⟩ | ⟨_, err, _, hd⟩ | ⟨_, r, _, hd⟩
  · rw [hd]
    exact hwf
  · rw [hd]
    exact hwf
  · rw [hd]
    exact (update_reset_zero _ _ (parseRateLimitHeaders_reset _ _)).trans hwf

/-- Calls of `Do` one after the other never change the stored reset instant. -/
theorem doAll_reset_frame (calls : List (DoEnv × Request × Bool)) :
    ∀ c : Client, (c.doAll calls).rateLimiter.reset = c.rateLimiter.reset := by
  induction calls with
  | nil => intro c; rfl
  | cons call rest ih =>
    intro c
    obtain ⟨env, req, wantResult⟩ := call
    simp only [Client.doAll]
    rw [ih]
    exact do_reset_frame c env req wantResult

/-- With the zero instant stored as reset, `Wait` called at an instant that is not
before the zero instant never suspends for quota. -/
theorem wait_reset_zero (rl : RateLimiter) (ctx : Context) (now : Time) (tie : SelectCase)
    (hr : rl.reset = 0) (hnow : 0 ≤ now) :
    (rl.Wait ctx now tie).quota = .notNeeded ∧ (rl.Wait ctx now tie).err = none ∧
    (rl.Wait ctx now tie).elapsed = (if rl.enabled then sleepTime rl.minDelay else 0) := by
  have hu : ¬ 0 < Until now rl.reset := by
    rw [until_pos_iff, hr]
    exact not_lt.2 hnow
  unfold RateLimiter.Wait
  cases he : rl.enabled with
  | false => simp [WaitOutcome.elapsed, QuotaPhase.blocked]
  | true =>
    simp only [Bool.not_true, Bool.false_eq_true, if_false, hu]
    split_ifs <;> simp [WaitOutcome.elapsed, QuotaPhase.blocked]

/-- C27: `parseRateLimitHeaders` returns the zero instant as reset for every
header set. Hence on a client as `NewClientWithOptions` builds it, after any
sequence of calls of `Do` the stored reset instant is still the zero instant, and
a call of `Wait` (at an instant not before the zero instant, whatever limit and
usage the responses reported and whatever the context) does not suspend for
quota: it returns nil after the minimum delay, or at once when the limiter is
disabled. -/
theorem limiter_reset_stays_zero (accessToken : GoString) (opts : ClientOptions)
    (calls : List (DoEnv × Request × Bool)) :
    (∀ (sscanInt : GoString → Option Int) (headers : Header),
      (parseRateLimitHeaders sscanInt headers).Reset = 0) ∧
    ((NewClientWithOptions accessToken opts).doAll calls).rateLimiter.reset = 0 ∧
    ∀ (ctx : Context) (now : Time) (tie : SelectCase), 0 ≤ now →
      ((((NewClientWithOptions accessToken opts).doAll calls).rateLimiter.Wait ctx now tie).quota
        = .notNeeded ∧
      (((NewClientWithOptions accessToken opts).doAll calls).rateLimiter.Wait ctx now tie).err
        = none ∧
      (((NewClientWithOptions accessToken opts).doAll calls).rateLimiter.Wait ctx now tie).elapsed
        = (if ((NewClientWithOptions accessToken opts).doAll calls).rateLimiter.enabled
            then sleepTime ((NewClientWithOptions accessToken opts).doAll calls).rateLimiter.minDelay
            else 0)) := by
  have h0 : ((NewClientWithOptions accessToken opts).doAll calls).rateLimiter.reset = 0 := by
    rw [doAll_reset_frame]
    unfold NewClientWithOptions
    simp only
    exact (newRateLimiter_fresh _).2.2
  exact ⟨parseRateLimitHeaders_reset, h0, fun ctx now tie hnow =>
    wait_reset_zero _ ctx now tie h0 hnow⟩

/-- C27, at a concrete client: after two responses that report limit 100 and usage
100 the limiter holds them with the zero instant as reset, and the next `Wait`
lasts the minimum delay only. -/
theorem limiter_reset_stays_zero_witness :
    ((NewClient (goStr "access-1")).doAll
        [(sampleDoEnv 200, sampleRequest, true), (sampleDoEnv 200, sampleRequest, true)]).rateLimiter
      = { limit := 100, usage := 100, reset := 0, minDelay := 100 * Millisecond, maxRetries := 3,
          enabled := true } ∧
    ((((NewClient (goStr "access-1")).doAll
        [(sampleDoEnv 200, sampleRequest, true), (sampleDoEnv 200, sampleRequest, true)]).rateLimiter.Wait
        background sampleNow .timerFired).quota = .notNeeded) :=
  ⟨by decide,
   ((limiter_reset_stays_zero (goStr "access-1") { BaseURL := [], RateLimit := none }
      [(sampleDoEnv 200, sampleRequest, true), (sampleDoEnv 200, sampleRequest, true)]).2.2
      background sampleNow .timerFired (by decide)).1⟩

/-- C24: for a request that `NewRequest` builds. Its `Authorization` header is
`Bearer ` followed by the access token of the client. With a nil body it has no
body and no `Content-Type` header; with a `url.Values` body its body is the form
encoding of the values and its `Content-Type` is
`application/x-www-form-urlencoded`; with an `io.Reader` body its body is what the
reader yields and with any other body its body is the JSON encoding, and in both
cases its `Content-Type` is `application/json`. -/
theorem newRequest_shape (c : Client) (env : RequestEnv) (method path : GoString)
    (body : RequestBody) (req : Request)
    (h : c.NewRequest env method path body = .ok req) :
    Header.Get req.Header (goStr "Authorization") = goStr "Bearer " ++ c.accessToken ∧
    match body with
    | .absent => req.Body = none ∧ Values.lookup req.Header (goStr "Content-Type") = []
    | .values v =>
      req.Body = some v.Encode ∧
      Header.Get req.Header (goStr "Content-Type")
        = goStr "application/x-www-form-urlencoded"
    | .reader content =>
      req.Body = some content ∧
      Header.Get req.Header (goStr "Content-Type") = goStr "application/json"
    | .other json =>
      json = .ok (req.Body.getD []) ∧ req.Body.isSome = true ∧
      Header.Get req.Header (goStr "Content-Type") = goStr "application/json" := by
  unfold Client.NewRequest at h
  cases hp : env.parseURL (c.baseURL ++ path) with
  | error e => simp [hp] at h
  | ok u =>
    simp only [hp] at h
    cases hq : env.requestError method u with
    | some e =>
      cases body with
      | absent => simp [hq] at h
      | values v => simp [hq] at h
      | reader content => simp [hq] at h
      | other json => cases json <;> simp [hq] at h
    | none =>
      cases body with
      | absent =>
        simp only [hq, Except.ok.injEq] at h
        subst h
        exact ⟨rfl, rfl, rfl⟩
      | values v =>
        simp only [hq, Except.ok.injEq] at h
        subst h
        exact ⟨rfl, rfl, rfl⟩
      | reader content =>
        simp only [hq, Except.ok.injEq] at h
        subst h
        exact ⟨rfl, rfl, rfl⟩
      | other json =>
        cases json with
        | error e => simp at h
        | ok jsonBody =>
          simp only [hq, Except.ok.injEq] at h
          subst h
          exact ⟨rfl, rfl, rfl, rfl⟩

/-- C24, at a concrete request: a form body posted by a client with access token
`access-1`. -/
theorem newRequest_shape_witness :
    ∃ req, (NewClient (goStr "access-1")).NewRequest sampleRequestEnv (goStr "POST")
        (goStr "/activities") (.values [(goStr "name", [goStr "Morning Ride"])]) = .ok req ∧
      Header.Get req.Header (goStr "Authorization") = goStr "Bearer access-1" ∧
      req.Body = some (goStr "name=Morning+Ride") ∧
      Header.Get req.Header (goStr "Content-Type")
        = goStr "application/x-www-form-urlencoded" :=
  ⟨_, rfl,
    (newRequest_shape (NewClient (goStr "access-1")) sampleRequestEnv (goStr "POST")
      (goStr "/activities") (.values [(goStr "name", [goStr "Morning Ride"])]) _ rfl).1,
    by decide,
    (newRequest_shape (NewClient (goStr "access-1")) sampleRequestEnv (goStr "POST")
      (goStr "/activities") (.values [(goStr "name", [goStr "Morning Ride"])]) _ rfl).2.2⟩

/-! ## Properties of the authorization URL: the round trip -/

/-- Every byte is the byte of its value, which is below 256. -/
theorem uint8_ofNat_toNat (c : UInt8) : UInt8.ofNat c.toNat = c ∧ c.toNat < 256 := by
  rcases c with ⟨v⟩
  refine ⟨?_, v.isLt⟩
  simp [UInt8.ofNat, UInt8.toNat]

set_option maxRecDepth 100000 in
/-- The escape of one byte, checked for each of the 256 bytes: it is the byte
itself, which is neither `%` nor `+`; or `+`, for a space; or `%` and two
hexadecimal digits that give the byte back. -/
theorem queryEscape_byte_forms :
    ∀ n, n < 256 →
      (QueryEscape [UInt8.ofNat n] = [UInt8.ofNat n] ∧ UInt8.ofNat n ≠ 37 ∧
        UInt8.ofNat n ≠ 43) ∨
      (QueryEscape [UInt8.ofNat n] = [43] ∧ UInt8.ofNat n = 32) ∨
      (QueryEscape [UInt8.ofNat n] = [37, upperhex (n / 16), upperhex (n % 16)] ∧
        (ishex (upperhex (n / 16)) && ishex (upperhex (n % 16))) = true ∧
        unhex (upperhex (n / 16)) * 16 + unhex (upperhex (n % 16)) = UInt8.ofNat n) := by
  decide

set_option maxRecDepth 100000 in
/-- No byte of the escape of a byte is `#`, `&`, `;`, `=` or `?`, checked for each
of the 256 bytes. -/
theorem queryEscape_byte_safe :
    ∀ n, n < 256 →
      ∀ b ∈ QueryEscape [UInt8.ofNat n], b ≠ 35 ∧ b ≠ 38 ∧ b ≠ 59 ∧ b ≠ 61 ∧ b ≠ 63 := by
  decide

/-- The escape of a string is made of the escapes of its bytes. -/
theorem queryEscape_cons (c : UInt8) (s : GoString) :
    QueryEscape (c :: s) = QueryEscape [c] ++ QueryEscape s := by
  simp [QueryEscape, List.flatMap_cons]

/-- Unescaping a byte that is neither `%` nor `+` keeps it. -/
theorem queryUnescape_plain (c : UInt8) (rest : GoString) (h37 : c ≠ 37) (h43 : c ≠ 43) :
    QueryUnescape (c :: rest) = (QueryUnescape rest).map fun t => c :: t := by
  cases rest with
  | nil => simp [QueryUnescape, h37, h43]
  | cons x t => cases t <;> simp [QueryUnescape, h37, h43]

/-- Unescaping `+` gives a space. -/
theorem queryUnescape_plus (rest : GoString) :
    QueryUnescape (43 :: rest) = (QueryUnescape rest).map fun t => 32 :: t := by
  have hne : ¬ ((43 : UInt8) = 37) := by decide
  cases rest with
  | nil => simp [QueryUnescape, hne]
  | cons x t => cases t <;> simp [QueryUnescape, hne]

/-- Unescaping `%` and two hexadecimal digits gives the byte they denote. -/
theorem queryUnescape_percent (h l : UInt8) (rest : GoString)
    (hhex : (ishex h && ishex l) = true) :
    QueryUnescape (37 :: h :: l :: rest)
      = (QueryUnescape rest).map fun t => (unhex h * 16 + unhex l) :: t := by
  simp only [QueryUnescape, if_true, hhex]

/-- Unescaping undoes the escape of a byte in front of any text. -/
theorem queryUnescape_escape_byte (c : UInt8) (rest : GoString) :
    QueryUnescape (QueryEscape [c] ++ rest) = (QueryUnescape rest).map fun t => c :: t := by
  obtain ⟨hc, hlt⟩ := uint8_ofNat_toNat c
  have h := queryEscape_byte_forms c.toNat hlt
  rw [hc] at h
  rcases h with ⟨he, h37, h43⟩ | ⟨he, h32⟩ | ⟨he, hhex, hval⟩
  · rw [he, List.singleton_append, queryUnescape_plain c rest h37 h43]
  · rw [he, h32, List.singleton_append, queryUnescape_plus]
  · rw [he]
    show QueryUnescape (37 :: upperhex (c.toNat / 16) :: upperhex (c.toNat % 16) :: rest) = _
    rw [queryUnescape_percent _ _ _ hhex, hval]

/-- Unescaping undoes escaping. -/
theorem queryUnescape_escape (s : GoString) : QueryUnescape (QueryEscape s) = some s := by
  induction s with
  | nil => rfl
  | cons c s ih =>
    rw [queryEscape_cons, queryUnescape_escape_byte, ih]
    rfl

/-- No byte of an escaped string is `#`, `&`, `;`, `=` or `?`. -/
theorem queryEscape_safe (s : GoString) :
    ∀ b ∈ QueryEscape s, b ≠ 35 ∧ b ≠ 38 ∧ b ≠ 59 ∧ b ≠ 61 ∧ b ≠ 63 := by
  induction s with
  | nil =>
    intro b hb
    simp [QueryEscape] at hb
  | cons c s ih =>
    intro b hb
    rw [queryEscape_cons, List.mem_append] at hb
    rcases hb with hb | hb
    · obtain ⟨hc, hlt⟩ := uint8_ofNat_toNat c
      have h := queryEscape_byte_safe c.toNat hlt
      rw [hc] at h
      exact h b hb
    · exact ih b hb

/-- A text without the separator is not cut. -/
theorem cutByte_not_mem (sep : UInt8) (l : GoString) (h : sep ∉ l) :
    cutByte sep l = (l, none) := by
  induction l with
  | nil => rfl
  | cons c l ih =>
    have hc : c ≠ sep := fun e => h (e ▸ List.mem_cons_self _ _)
    have hl : sep ∉ l := fun e => h (List.mem_cons_of_mem _ e)
    simp [cutByte, hc, ih hl]

/-- A text is cut at the first separator. -/
theorem cutByte_append (sep : UInt8) (a r : GoString) (h : sep ∉ a) :
    cutByte sep (a ++ sep :: r) = (a, some r) := by
  induction a with
  | nil => simp [cutByte]
  | cons c a ih =>
    have hc : c ≠ sep := fun e => h (e ▸ List.mem_cons_self _ _)
    have ha : sep ∉ a := fun e => h (List.mem_cons_of_mem _ e)
    simp [cutByte, hc, ih ha]

/-- A text without the separator is one segment. -/
theorem splitByte_not_mem (sep : UInt8) (a : GoString) (h : sep ∉ a) :
    splitByte sep a = [a] := by
  induction a with
  | nil => rfl
  | cons c a ih =>
    have hc : c ≠ sep := fun e => h (e ▸ List.mem_cons_self _ _)
    have ha : sep ∉ a := fun e => h (List.mem_cons_of_mem _ e)
    simp [splitByte, hc, ih ha]

/-- The first segment of a text ends at the first separator. -/
theorem splitByte_append (sep : UInt8) (a r : GoString) (h : sep ∉ a) :
    splitByte sep (a ++ sep :: r) = a :: splitByte sep r := by
  induction a with
  | nil => simp [splitByte]
  | cons c a ih =>
    have hc : c ≠ sep := fun e => h (e ▸ List.mem_cons_self _ _)
    have ha : sep ∉ a := fun e => h (List.mem_cons_of_mem _ e)
    simp [splitByte, hc, ih ha]

/-- Splitting undoes joining, for a list that is not empty and whose elements do
not contain the separator. -/
theorem splitByte_join (sep : UInt8) (segs : List GoString) (hne : segs ≠ [])
    (h : ∀ seg ∈ segs, sep ∉ seg) : splitByte sep (Join segs [sep]) = segs := by
  induction segs with
  | nil => exact absurd rfl hne
  | cons e es ih =>
    cases es with
    | nil =>
      simp only [Join]
      exact splitByte_not_mem sep e (h e (List.mem_cons_self _ _))
    | cons e2 es2 =>
      simp only [Join]
      rw [List.append_assoc, List.singleton_append,
        splitByte_append sep e _ (h e (List.mem_cons_self _ _)),
        ih (by simp) (fun seg hs => h seg (List.mem_cons_of_mem _ hs))]

/-- The bytes of a `key=value` pair are `=` and the bytes of the two escapes. -/
theorem mem_querySegment (kv : GoString × GoString) (b : UInt8) (hb : b ∈ querySegment kv) :
    b = 61 ∨ b ∈ QueryEscape kv.1 ∨ b ∈ QueryEscape kv.2 := by
  have he : goStr "=" = [61] := by decide
  unfold querySegment at hb
  rw [he] at hb
  simp only [List.mem_append, List.mem_singleton] at hb
  tauto

/-- One round of `parseQuery` on a `key=value` pair as `Values.Encode` writes it
adds the key and the value. -/
theorem parseQuerySegment_segment (acc : Values × Bool) (kv : GoString × GoString) :
    parseQuerySegment acc (querySegment kv) = (acc.1.Add kv.1 kv.2, acc.2) := by
  have he : goStr "=" = [61] := by decide
  have h59 : (59 : UInt8) ∉ querySegment kv := by
    intro hb
    rcases mem_querySegment kv 59 hb with h | h | h
    · exact absurd h (by decide)
    · exact (queryEscape_safe kv.1 59 h).2.2.1 rfl
    · exact (queryEscape_safe kv.2 59 h).2.2.1 rfl
  have hform : querySegment kv = QueryEscape kv.1 ++ 61 :: QueryEscape kv.2 := by
    unfold querySegment
    rw [he, List.append_assoc, List.singleton_append]
  have hne : querySegment kv ≠ [] := by
    rw [hform]
    simp
  have hcut : cutByte 61 (querySegment kv) = (QueryEscape kv.1, some (QueryEscape kv.2)) := by
    rw [hform]
    exact cutByte_append 61 _ _ (fun hb => (queryEscape_safe kv.1 61 hb).2.2.2.1 rfl)
  unfold parseQuerySegment
  simp only [h59, if_false, hne, hcut, Option.getD_some, queryUnescape_escape]

/-- The loop of `parseQuery` over the pairs that `Values.Encode` wrote adds them
in turn. -/
theorem foldl_parseQuerySegment (items : List (GoString × GoString)) :
    ∀ acc : Values × Bool,
      (items.map querySegment).foldl parseQuerySegment acc
        = items.foldl (fun (a : Values × Bool) (kv : GoString × GoString) => (Values.Add a.1 kv.1 kv.2, a.2)) acc := by
  induction items with
  | nil => intro acc; rfl
  | cons kv rest ih =>
    intro acc
    simp only [List.map_cons, List.foldl_cons, parseQuerySegment_segment, ih]

/-- Parsing a query made of pairs as `Values.Encode` writes them, joined by `&`,
reports no error and gives the pairs, added in turn. -/
theorem parseQuery_join (items : List (GoString × GoString)) :
    ParseQuery (Join (items.map querySegment) (goStr "&"))
      = items.foldl (fun (a : Values × Bool) (kv : GoString × GoString) => (Values.Add a.1 kv.1 kv.2, a.2)) ([], false) := by
  have ha : goStr "&" = [38] := by decide
  unfold ParseQuery
  cases items with
  | nil => rfl
  | cons kv rest =>
    rw [ha, splitByte_join 38 _ (by simp), foldl_parseQuerySegment]
    intro seg hs hb
    obtain ⟨kv2, _, rfl⟩ := List.mem_map.1 hs
    rcases mem_querySegment kv2 38 hb with h | h | h
    · exact absurd h (by decide)
    · exact (queryEscape_safe kv2.1 38 h).2.1 rfl
    · exact (queryEscape_safe kv2.2 38 h).2.1 rfl

/-- A byte of a joined text is a byte of the separator or of an element. -/
theorem mem_join (segs : List GoString) (sep : GoString) (b : UInt8)
    (hb : b ∈ Join segs sep) : b ∈ sep ∨ ∃ seg ∈ segs, b ∈ seg := by
  induction segs with
  | nil => simp [Join] at hb
  | cons e es ih =>
    cases es with
    | nil =>
      simp only [Join] at hb
      exact Or.inr ⟨e, List.mem_cons_self _ _, hb⟩
    | cons e2 es2 =>
      simp only [Join, List.mem_append] at hb
      rcases hb with (hb | hb) | hb
      · exact Or.inr ⟨e, List.mem_cons_self _ _, hb⟩
      · exact Or.inl hb
      · rcases ih hb with h | ⟨seg, hs, h⟩
        · exact Or.inl h
        · exact Or.inr ⟨seg, List.mem_cons_of_mem _ hs, h⟩

/-- The raw query of a URL without `?` and `#`, followed by `?` and a query made
of pairs as `Values.Encode` writes them, is that query. -/
theorem rawQueryOf_join (base : GoString) (items : List (GoString × GoString))
    (h35 : (35 : UInt8) ∉ base) (h63 : (63 : UInt8) ∉ base) :
    rawQueryOf (base ++ 63 :: Join (items.map querySegment) (goStr "&"))
      = Join (items.map querySegment) (goStr "&") := by
  have ha : goStr "&" = [38] := by decide
  have hq : (35 : UInt8) ∉ Join (items.map querySegment) (goStr "&") := by
    intro hb
    rcases mem_join _ _ 35 hb with h | ⟨seg, hs, h⟩
    · rw [ha] at h
      exact absurd h (by decide)
    · obtain ⟨kv, _, rfl⟩ := List.mem_map.1 hs
      rcases mem_querySegment kv 35 h with h | h | h
      · exact absurd h (by decide)
      · exact (queryEscape_safe kv.1 35 h).1 rfl
      · exact (queryEscape_safe kv.2 35 h).1 rfl
  have hall : (35 : UInt8) ∉ base ++ 63 :: Join (items.map querySegment) (goStr "&") := by
    simp only [List.mem_append, List.mem_cons, not_or]
    exact ⟨h35, by decide, hq⟩
  unfold rawQueryOf
  rw [cutByte_not_mem 35 _ hall, cutByte_append 63 _ _ h63]
  rfl

/-- The URL that `GetAuthorizationURL` returns, by its pairs of key and value. -/
theorem getAuthorizationURL_pairs (c : OAuth2Config) (p : AuthorizationURLParams) :
    c.GetAuthorizationURL p =
      goStr "https://www.strava.com/oauth/authorize" ++
        63 :: Join ((c.authorizationPairs p).map querySegment) (goStr "&") := by
  have hq : c.authorizationQuery p =
      [(goStr "client_id", [c.ClientID]), (goStr "response_type", [goStr "code"]),
       (goStr "redirect_uri", [c.RedirectURI])] ++
      ((if c.Scopes ≠ [] then [(goStr "scope", [Join c.Scopes (goStr ",")])] else []) ++
      ((if p.ApprovalPrompt ≠ [] then [(goStr "approval_prompt", [p.ApprovalPrompt])] else []) ++
      (if p.State ≠ [] then [(goStr "state", [p.State])] else []))) := by
    obtain ⟨cid, sec, ruri, scopes⟩ := c
    obtain ⟨prompt, state⟩ := p
    cases scopes <;> cases prompt <;> cases state <;>
      simp only [OAuth2Config.authorizationQuery, List.length_cons, List.length_nil, gt_iff_lt,
        Nat.zero_lt_succ, lt_self_iff_false, if_true, if_false, ne_eq, not_true_eq_false,
        not_false_eq_true, reduceCtorEq] <;> rfl
  unfold OAuth2Config.GetAuthorizationURL OAuth2Config.authorizationPairs
  rw [hq]
  generalize Join c.Scopes (goStr ",") = joined
  by_cases hs : c.Scopes = [] <;> by_cases hp : p.ApprovalPrompt = [] <;>
    by_cases ht : p.State = [] <;>
    simp only [hs, hp, ht, ne_eq, not_true_eq_false, not_false_eq_true, if_true, if_false,
      List.append_nil, List.nil_append, List.cons_append, List.map_cons, List.map_nil] <;> rfl

/-- The parsed query of the URL that `GetAuthorizationURL` returns: no error, and
the pairs of the URL added in turn. -/
theorem parseQuery_authorizationURL (c : OAuth2Config) (p : AuthorizationURLParams) :
    ParseQuery (rawQueryOf (c.GetAuthorizationURL p))
      = (c.authorizationPairs p).foldl
          (fun (a : Values × Bool) (kv : GoString × GoString) =>
            (Values.Add a.1 kv.1 kv.2, a.2)) ([], false) := by
  rw [getAuthorizationURL_pairs, rawQueryOf_join _ _ (by decide) (by decide), parseQuery_join]

set_option maxRecDepth 20000 in
/-- C21, as stated, fails for a configuration without scopes: the URL then has no
`scope` parameter, `Get` gives the empty string for it, and splitting the empty
string on `,` gives the list of one empty string, not the empty list of scopes. -/
theorem authorizationURL_no_scopes :
    ({ sampleConfig with Scopes := [] } : OAuth2Config).Scopes = [] ∧
    splitByte 44 ((ParseQuery (rawQueryOf
      (({ sampleConfig with Scopes := [] } : OAuth2Config).GetAuthorizationURL
        { ApprovalPrompt := goStr "auto", State := [] }))).1.Get (goStr "scope"))
      = [[]] ∧
    splitByte 44 ((ParseQuery (rawQueryOf
      (({ sampleConfig with Scopes := [] } : OAuth2Config).GetAuthorizationURL
        { ApprovalPrompt := goStr "auto", State := [] }))).1.Get (goStr "scope"))
      ≠ ({ sampleConfig with Scopes := [] } : OAuth2Config).Scopes := by
  decide

set_option maxRecDepth 20000 in
/-- C21, amended: for every configuration whose scopes contain no `,` and every
parameters, parsing the query of the URL that `GetAuthorizationURL` returns
reports no error and gives back the client id, the redirect URI, the approval
prompt, the state and the response type `code`; when the configuration has at
least one scope, splitting the decoded `scope` parameter on `,` gives the scopes,
and when it has none the URL has no `scope` parameter. -/
theorem authorizationURL_round_trip (c : OAuth2Config) (p : AuthorizationURLParams)
    (hcomma : ∀ s ∈ c.Scopes, (44 : UInt8) ∉ s) :
    (ParseQuery (rawQueryOf (c.GetAuthorizationURL p))).2 = false ∧
    (ParseQuery (rawQueryOf (c.GetAuthorizationURL p))).1.Get (goStr "client_id")
      = c.ClientID ∧
    (ParseQuery (rawQueryOf (c.GetAuthorizationURL p))).1.Get (goStr "redirect_uri")
      = c.RedirectURI ∧
    (ParseQuery (rawQueryOf (c.GetAuthorizationURL p))).1.Get (goStr "approval_prompt")
      = p.ApprovalPrompt ∧
    (ParseQuery (rawQueryOf (c.GetAuthorizationURL p))).1.Get (goStr "state") = p.State ∧
    (ParseQuery (rawQueryOf (c.GetAuthorizationURL p))).1.Get (goStr "response_type")
      = goStr "code" ∧
    (c.Scopes = [] →
      (ParseQuery (rawQueryOf (c.GetAuthorizationURL p))).1.lookup (goStr "scope") = []) ∧
    (c.Scopes ≠ [] →
      splitByte 44 ((ParseQuery (rawQueryOf (c.GetAuthorizationURL p))).1.Get (goStr "scope"))
        = c.Scopes) := by
  have hsplit : c.Scopes ≠ [] → splitByte 44 (Join c.Scopes (goStr ",")) = c.Scopes := by
    intro hne
    have hc : goStr "," = [44] := by decide
    rw [hc]
    exact splitByte_join 44 c.Scopes hne hcomma
  rw [parseQuery_authorizationURL]
  unfold OAuth2Config.authorizationPairs
  revert hsplit
  generalize Join c.Scopes (goStr ",") = joined
  intro hsplit
  have hscope : (if c.Scopes ≠ [] then [(goStr "scope", joined)] else [])
      = if c.Scopes = [] then [] else [(goStr "scope", joined)] := by
    by_cases hs : c.Scopes = [] <;> simp [hs]
  have hprompt : (if p.ApprovalPrompt ≠ [] then [(goStr "approval_prompt", p.ApprovalPrompt)]
      else []) = if p.ApprovalPrompt = [] then []
        else [(goStr "approval_prompt", p.ApprovalPrompt)] := by
    by_cases hp : p.ApprovalPrompt = [] <;> simp [hp]
  have hstate : (if p.State ≠ [] then [(goStr "state", p.State)] else [])
      = if p.State = [] then [] else [(goStr "state", p.State)] := by
    by_cases ht : p.State = [] <;> simp [ht]
  rw [hscope, hprompt, hstate]
  by_cases hs : c.Scopes = [] <;> by_cases hp : p.ApprovalPrompt = [] <;>
    by_cases ht : p.State = []
  all_goals
    first | rw [if_pos hs] | rw [if_neg hs]
  all_goals
    first | rw [if_pos hp] | rw [if_neg hp]
  all_goals
    first | rw [if_pos ht] | rw [if_neg ht]
  all_goals
    refine ⟨rfl, rfl, rfl, ?_, ?_, rfl, fun h => ?_, fun h => ?_⟩
  all_goals
    first
      | rfl
      | exact hp.symm
      | exact ht.symm
      | exact absurd h hs
      | exact absurd hs h
      | exact hsplit h

/-- The scopes `read` and `activity:read_all` with the approval prompt `auto`: the
parsed URL gives back every field and the two scopes. -/
theorem authorizationURL_round_trip_witness :
    (∀ s ∈ sampleConfig.Scopes, (44 : UInt8) ∉ s) ∧
    (ParseQuery (rawQueryOf (sampleConfig.GetAuthorizationURL
      { ApprovalPrompt := goStr "auto", State := [] }))).1.Get (goStr "approval_prompt")
      = goStr "auto" ∧
    splitByte 44 ((ParseQuery (rawQueryOf (sampleConfig.GetAuthorizationURL
      { ApprovalPrompt := goStr "auto", State := [] }))).1.Get (goStr "scope"))
      = [goStr "read", goStr "activity:read_all"] :=
  have h := authorizationURL_round_trip sampleConfig
    { ApprovalPrompt := goStr "auto", State := [] } (by decide)
  ⟨by decide, h.2.2.2.1, h.2.2.2.2.2.2.2 (by decide)⟩

/-! ## Properties of the polyline encoding: the round trip -/

/-- The complement `^x` of an int is `-x - 1`. -/
theorem int_not_eq (x : Int) : Int.not x = -x - 1 := by
  cases x with
  | ofNat n => simp only [Int.not, Int.ofNat_eq_coe, Int.negSucc_eq]; omega
  | negSucc n => simp only [Int.not, Int.ofNat_eq_coe, Int.negSucc_eq]; omega

/-- The low five bits of a natural number are its remainder by 32. -/
theorem int_land_31 (n : Nat) : Int.land (n : Int) 31 = ((n % 32 : Nat) : Int) := by
  have h : Int.land (n : Int) ((31 : Nat) : Int) = ((n &&& 31 : Nat) : Int) := rfl
  have h2 := Nat.and_pow_two_sub_one_eq_mod n 5
  norm_num at h2
  rw [← h2]
  exact h

/-- The low bit of a natural number is its remainder by 2. -/
theorem int_land_1 (n : Nat) : Int.land (n : Int) 1 = ((n % 2 : Nat) : Int) := by
  have h : Int.land (n : Int) ((1 : Nat) : Int) = ((n &&& 1 : Nat) : Int) := rfl
  rw [← Nat.and_one_is_mod]
  exact h

/-- The bitwise or of a number below `2^s` and a multiple of `2^s` is their sum. -/
theorem int_lor_shifted (r g s : Nat) (hr : r < 2 ^ s) :
    Int.lor (r : Int) ((g * 2 ^ s : Nat) : Int) = ((g * 2 ^ s + r : Nat) : Int) := by
  have h : Int.lor (r : Int) ((g * 2 ^ s : Nat) : Int) = ((r ||| g * 2 ^ s : Nat) : Int) := rfl
  rw [h, Nat.lor_comm, Nat.mul_comm g, ← Nat.mul_add_lt_is_or hr]

/-- The right shift of a natural number by five is its quotient by 32. -/
theorem int_shiftRight_5 (n : Nat) : Int.shiftRight (n : Int) 5 = ((n / 32 : Nat) : Int) := by
  have h := Int.shiftRight_eq_div_pow (n : Int) 5
  norm_num at h
  exact h

/-- The right shift of a natural number by one is its half. -/
theorem int_shiftRight_1 (n : Nat) : Int.shiftRight (n : Int) 1 = ((n / 2 : Nat) : Int) := by
  have h := Int.shiftRight_eq_div_pow (n : Int) 1
  norm_num at h
  exact h

set_option maxRecDepth 100000 in
/-- The byte that the loop of `encodeValue` writes for five bits `g`: read back,
it is at least `0x20` after the subtraction of 63 and has the low bits `g`. -/
theorem continuation_byte (g : Nat) (hg : g < 32) :
    ¬ (((byteOfInt (Int.lor 32 (g : Int) + 63)).toNat : Int) - 63 < 32) ∧
    Int.land (((byteOfInt (Int.lor 32 (g : Int) + 63)).toNat : Int) - 63) 31 = (g : Int) := by
  revert g
  decide

set_option maxRecDepth 100000 in
/-- The byte that `encodeValue` writes last, for a value `g` below `0x20`: read
back, it is `g` after the subtraction of 63. -/
theorem last_byte (g : Nat) (hg : g < 32) :
    (((byteOfInt ((g : Int) + 63)).toNat : Int) - 63 < 32) ∧
    Int.land (((byteOfInt ((g : Int) + 63)).toNat : Int) - 63) 31 = (g : Int) := by
  revert g
  decide

/-- The loop of `encodeValue` on a value that is not negative, by its cases. -/
theorem encodeGroups_succ (fuel n : Nat) :
    encodeGroups (fuel + 1) (n : Int) =
      if 32 ≤ n then
        (encodeGroups fuel ((n / 32 : Nat) : Int)).map fun written =>
          byteOfInt (Int.lor 32 ((n % 32 : Nat) : Int) + 63) :: written
      else some [byteOfInt ((n : Int) + 63)] := by
  have h : ((n : Int) ≥ 32) ↔ 32 ≤ n := by omega
  simp only [encodeGroups, h, int_shiftRight_5, int_land_31]

/-- The loop of `encodeValue` ends within thirteen rounds on every value below
`2^65`. -/
theorem encodeGroups_isSome (fuel : Nat) :
    ∀ n : Nat, n < 32 * 2 ^ (5 * fuel) → (encodeGroups (fuel + 1) (n : Int)).isSome = true := by
  induction fuel with
  | zero =>
    intro n hn
    rw [encodeGroups_succ]
    have h : ¬ 32 ≤ n := by omega
    simp [h]
  | succ k ih =>
    intro n hn
    rw [encodeGroups_succ]
    by_cases h : 32 ≤ n
    · have hq : n / 32 < 32 * 2 ^ (5 * k) := by
        have e : 32 * 2 ^ (5 * (k + 1)) = 32 * (32 * 2 ^ (5 * k)) := by ring
        rw [e] at hn
        exact Nat.div_lt_of_lt_mul hn
      have := ih (n / 32) hq
      simp only [h, if_true, Option.isSome_map']
      exact this
    · simp [h]

/-- The left shift of a natural number that stays below `2^63` is the product. -/
theorem shiftLeftInt_nat (g s : Nat) (h : g * 2 ^ s < 9223372036854775808) :
    shiftLeftInt (g : Int) s = ((g * 2 ^ s : Nat) : Int) := by
  unfold shiftLeftInt
  have e : (g : Int) * 2 ^ s = ((g * 2 ^ s : Nat) : Int) := by
    push_cast
    rfl
  rw [e, wrapInt64_of_range] <;> omega

/-- One round of an inner loop of `DecodePolyline`. -/
theorem decodeGroups_cons (c : UInt8) (rest : GoString) (index shift : Nat) (result : Int) :
    decodeGroups (c :: rest) index shift result =
      if (c.toNat : Int) - 63 < 32 then
        some (Int.lor result (shiftLeftInt (Int.land ((c.toNat : Int) - 63) 31) shift),
          index + 1, rest)
      else
        decodeGroups rest (index + 1) (shift + 5)
          (Int.lor result (shiftLeftInt (Int.land ((c.toNat : Int) - 63) 31) shift)) := rfl

/-- What the encoder wrote for a value that is not negative, the inner loop of
the decoder reads back: started with `shift` bits in `result`, it ends with the
value placed above them, just behind the bytes of the value. -/
theorem decodeGroups_encodeGroups (fuel : Nat) :
    ∀ (n s r : Nat) (written rest : GoString) (index : Nat),
      encodeGroups fuel (n : Int) = some written →
      r < 2 ^ s → n * 2 ^ s + r < 9223372036854775808 →
      decodeGroups (written ++ rest) index s (r : Int)
        = some (((n * 2 ^ s + r : Nat) : Int), index + written.length, rest) := by
  induction fuel with
  | zero =>
    intro n s r written rest index h
    simp [encodeGroups] at h
  | succ k ih =>
    intro n s r written rest index h hr hb
    rw [encodeGroups_succ] at h
    by_cases hn : 32 ≤ n
    · simp only [hn, if_true, Option.map_eq_some'] at h
      obtain ⟨w, hw, rfl⟩ := h
      have hg : n % 32 < 32 := Nat.mod_lt _ (by decide)
      obtain ⟨hc1, hc2⟩ := continuation_byte (n % 32) hg
      have hsplit : n = n / 32 * 32 + n % 32 := by omega
      have hpow : 2 ^ (s + 5) = 32 * 2 ^ s := by ring
      have hmul : n * 2 ^ s = n / 32 * (32 * 2 ^ s) + n % 32 * 2 ^ s := by
        conv_lhs => rw [hsplit]
        ring
      have hlow : n % 32 * 2 ^ s < 9223372036854775808 := by
        have : n % 32 * 2 ^ s ≤ n * 2 ^ s := Nat.mul_le_mul_right _ (Nat.mod_le _ _)
        omega
      have hr2 : n % 32 * 2 ^ s + r < 2 ^ (s + 5) := by
        rw [hpow]
        have : n % 32 * 2 ^ s ≤ 31 * 2 ^ s := Nat.mul_le_mul_right _ (by omega)
        omega
      have e1 : n / 32 * 2 ^ (s + 5) + (n % 32 * 2 ^ s + r) = n * 2 ^ s + r := by
        rw [hpow]
        omega
      have hb2 : n / 32 * 2 ^ (s + 5) + (n % 32 * 2 ^ s + r) < 9223372036854775808 := by
        rw [e1]
        exact hb
      have hrec := ih (n / 32) (s + 5) (n % 32 * 2 ^ s + r) w rest (index + 1) hw hr2 hb2
      have e2 : index + 1 + w.length = index + (w.length + 1) := by omega
      rw [List.cons_append, decodeGroups_cons, if_neg hc1, hc2, shiftLeftInt_nat _ _ hlow,
        int_lor_shifted r (n % 32) s hr, hrec, e1, List.length_cons, e2]
    · simp only [hn, if_false, Option.some.injEq] at h
      subst h
      have hg : n < 32 := by omega
      obtain ⟨hc1, hc2⟩ := last_byte n hg
      have hlow : n * 2 ^ s < 9223372036854775808 := by omega
      rw [List.singleton_append, decodeGroups_cons, if_pos hc1, hc2, shiftLeftInt_nat _ _ hlow,
        int_lor_shifted r n s hr]
      rfl

/-- The loop of `encodeValue` writes at least one byte. -/
theorem encodeGroups_ne_nil (fuel : Nat) :
    ∀ (value : Int) (written : GoString), encodeGroups fuel value = some written → written ≠ [] := by
  induction fuel with
  | zero =>
    intro value written h
    simp [encodeGroups] at h
  | succ k ih =>
    intro value written h
    unfold encodeGroups at h
    by_cases hv : value ≥ 32
    · simp only [hv, if_true, Option.map_eq_some'] at h
      obtain ⟨w, _, rfl⟩ := h
      exact List.cons_ne_nil _ _
    · simp only [hv, if_false, Option.some.injEq] at h
      subst h
      exact List.cons_ne_nil _ _

/-- The value that the decoder adds, for a result that is not negative: half of
it when it is even, minus the half of its successor when it is odd. -/
theorem decodeDelta_nat (n : Nat) :
    decodeDelta (n : Int) = if n % 2 = 0 then ((n / 2 : Nat) : Int) else -((n / 2 : Nat) : Int) - 1 := by
  unfold decodeDelta
  rw [int_land_1, int_shiftRight_1, int_not_eq]
  by_cases h : n % 2 = 0
  · simp [h]
  · have h1 : n % 2 = 1 := by omega
    simp [h1]

/-- The value that `encodeValue` passes to its loop, for a value from `-2^62` to
`2^62 - 1`: a number below `2^63` from which the decoder computes the value. -/
theorem zigzag_range (d : Int) (h1 : -4611686018427387904 ≤ d) (h2 : d < 4611686018427387904) :
    ∃ n : Nat, n < 9223372036854775808 ∧
      (if d < 0 then Int.not (shiftLeftInt d 1) else shiftLeftInt d 1) = (n : Int) ∧
      decodeDelta (n : Int) = d := by
  have hs : shiftLeftInt d 1 = d * 2 := by
    unfold shiftLeftInt
    rw [wrapInt64_of_range] <;> omega
  rw [hs, int_not_eq]
  by_cases hd : d < 0
  · refine ⟨(-(d * 2) - 1).toNat, by omega, ?_, ?_⟩
    · simp only [hd, if_true]
      omega
    · rw [decodeDelta_nat]
      have : (-(d * 2) - 1).toNat % 2 = 1 := by omega
      simp only [this]
      simp only [one_ne_zero, if_false]
      omega
  · refine ⟨(d * 2).toNat, by omega, ?_, ?_⟩
    · simp only [hd, if_false]
      omega
    · rw [decodeDelta_nat]
      have : (d * 2).toNat % 2 = 0 := by omega
      simp only [this, if_true]
      omega

/-- What `encodeValue` writes for a value from `-2^62` to `2^62 - 1` is not empty,
and an inner loop of the decoder reads exactly these bytes and yields a result
from which the decoder computes the value. -/
theorem decodeGroups_encodeValue (d : Int) (h1 : -4611686018427387904 ≤ d)
    (h2 : d < 4611686018427387904) :
    ∃ (written : GoString) (result : Int), written ≠ [] ∧ decodeDelta result = d ∧
      (∀ encoded, encodeValue encoded d = some (encoded ++ written)) ∧
      ∀ rest index, decodeGroups (written ++ rest) index 0 0
        = some (result, index + written.length, rest) := by
  obtain ⟨n, hn, hz, hdelta⟩ := zigzag_range d h1 h2
  have hsome := encodeGroups_isSome 12 n (by norm_num; omega)
  obtain ⟨w, hw⟩ := Option.isSome_iff_exists.1 hsome
  refine ⟨w, (n : Int), encodeGroups_ne_nil _ _ _ hw, hdelta, ?_, ?_⟩
  · intro encoded
    unfold encodeValue
    simp only [hz, hw, Option.map_some']
  · intro rest index
    have h := decodeGroups_encodeGroups 13 n 0 0 w rest index hw (by norm_num) (by omega)
    simpa using h

/-- An int64 result lies in the int64 range. -/
theorem wrapInt64_range (x : Int) :
    -9223372036854775808 ≤ wrapInt64 x ∧ wrapInt64 x < 9223372036854775808 := by
  unfold wrapInt64
  omega

/-- Function `encodeValue` returns on every value: its loop ends, and at least one
byte is appended to the builder. -/
theorem encodeValue_returns (encoded : GoString) (value : Int) :
    ∃ written, written ≠ [] ∧ encodeValue encoded value = some (encoded ++ written) := by
  have key : ∀ v : Int, v < 9223372036854775808 → ∃ w, encodeGroups 13 v = some w := by
    intro v hv
    by_cases h32 : v ≥ 32
    · obtain ⟨n, rfl⟩ := Int.eq_ofNat_of_zero_le (show (0 : Int) ≤ v by omega)
      exact Option.isSome_iff_exists.1 (encodeGroups_isSome 12 n (by norm_num; omega))
    · exact ⟨[byteOfInt (v + 63)], by simp only [encodeGroups, h32, if_false]⟩
  have hr := wrapInt64_range (value * 2 ^ 1)
  have hv : (if value < 0 then Int.not (shiftLeftInt value 1) else shiftLeftInt value 1)
      < 9223372036854775808 := by
    unfold shiftLeftInt
    rw [int_not_eq]
    split_ifs <;> omega
  obtain ⟨w, hw⟩ := key _ hv
  refine ⟨w, encodeGroups_ne_nil _ _ _ hw, ?_⟩
  unfold encodeValue
  simp only [hw, Option.map_some']

/-- Function `EncodePolyline` returns on every list of coordinates. -/
theorem encodeCoordinates_returns (coordinates : List (Int × Int)) :
    ∀ (prevLat prevLng : Int) (encoded : GoString),
      (encodeCoordinates coordinates prevLat prevLng encoded).isSome = true := by
  induction coordinates with
  | nil => intro _ _ _; rfl
  | cons p rest ih =>
    intro prevLat prevLng encoded
    obtain ⟨lat, lng⟩ := p
    obtain ⟨w1, _, h1⟩ := encodeValue_returns encoded (wrapInt64 (lat - prevLat))
    obtain ⟨w2, _, h2⟩ := encodeValue_returns (encoded ++ w1) (wrapInt64 (lng - prevLng))
    simp only [encodeCoordinates, h1, h2, Option.some_bind]
    exact ih _ _ _

/-- An inner loop of the decoder that ends has read at least one byte, and has
advanced `index` by the number of bytes read. -/
theorem decodeGroups_progress :
    ∀ (encoded : GoString) (index shift : Nat) (result : Int) (out : Int × Nat × GoString),
      decodeGroups encoded index shift result = some out →
      out.2.2.length < encoded.length ∧ out.2.1 + out.2.2.length = index + encoded.length := by
  intro encoded
  induction encoded with
  | nil =>
    intro index shift result out h
    simp [decodeGroups] at h
  | cons c rest ih =>
    intro index shift result out h
    rw [decodeGroups_cons] at h
    by_cases hb : (c.toNat : Int) - 63 < 32
    · rw [if_pos hb] at h
      cases h
      simp only [List.length_cons]
      omega
    · rw [if_neg hb] at h
      have := ih _ _ _ _ h
      simp only [List.length_cons]
      omega

/-- One round of the outer loop of `DecodePolyline` in which both inner loops
end. -/
theorem decodeCoordinates_step (fuel : Nat) (encoded : GoString) (index : Nat) (lat lng : Int)
    (coordinates : List (Int × Int)) (r1 r2 : Int) (i1 i2 : Nat) (e1 e2 : GoString)
    (hne : encoded ≠ [])
    (h1 : decodeGroups encoded index 0 0 = some (r1, i1, e1))
    (h2 : decodeGroups e1 i1 0 0 = some (r2, i2, e2)) :
    decodeCoordinates (fuel + 1) encoded index lat lng coordinates =
      decodeCoordinates fuel e2 i2 (wrapInt64 (lat + decodeDelta r1))
        (wrapInt64 (lng + decodeDelta r2))
        (coordinates ++ [(wrapInt64 (lat + decodeDelta r1), wrapInt64 (lng + decodeDelta r2))]) := by
  cases encoded with
  | nil => exact absurd rfl hne
  | cons c rest => simp only [decodeCoordinates, h1, h2]

/-- The outer loop of `DecodePolyline` has ended after as many rounds as there are
bytes to read. -/
theorem decodeCoordinates_ends (fuel : Nat) :
    ∀ (encoded : GoString) (index : Nat) (lat lng : Int) (coordinates : List (Int × Int)),
      encoded.length ≤ fuel →
      decodeCoordinates fuel encoded index lat lng coordinates ≠ .error .rounds := by
  induction fuel with
  | zero =>
    intro encoded index lat lng coordinates h
    cases encoded with
    | nil => simp [decodeCoordinates]
    | cons c rest => simp at h
  | succ k ih =>
    intro encoded index lat lng coordinates h
    cases encoded with
    | nil => simp [decodeCoordinates]
    | cons c rest =>
      cases h1 : decodeGroups (c :: rest) index 0 0 with
      | none => simp [decodeCoordinates, h1]
      | some o1 =>
        obtain ⟨r1, i1, e1⟩ := o1
        have p1 := decodeGroups_progress _ _ _ _ _ h1
        cases h2 : decodeGroups e1 i1 0 0 with
        | none => simp [decodeCoordinates, h1, h2]
        | some o2 =>
          obtain ⟨r2, i2, e2⟩ := o2
          have p2 := decodeGroups_progress _ _ _ _ _ h2
          rw [decodeCoordinates_step k (c :: rest) index lat lng coordinates r1 r2 i1 i2 e1 e2
            (List.cons_ne_nil _ _) h1 h2]
          apply ih
          simp only [List.length_cons] at p1 p2 h
          omega

/-- The loops of `EncodePolyline` and `DecodePolyline` on coordinates from `-2^61`
to `2^61 - 1`, started from such coordinates: the decoder reads exactly what the
encoder appended and appends the coordinates to its list. -/
theorem decodeCoordinates_encodeCoordinates (points : List (Int × Int)) :
    ∀ (prevLat prevLng : Int),
      -2305843009213693952 ≤ prevLat → prevLat < 2305843009213693952 →
      -2305843009213693952 ≤ prevLng → prevLng < 2305843009213693952 →
      (∀ p ∈ points, (-2305843009213693952 ≤ p.1 ∧ p.1 < 2305843009213693952) ∧
        (-2305843009213693952 ≤ p.2 ∧ p.2 < 2305843009213693952)) →
      ∃ written : GoString,
        (∀ encoded, encodeCoordinates points prevLat prevLng encoded = some (encoded ++ written)) ∧
        ∀ (fuel index : Nat) (coordinates : List (Int × Int)), written.length ≤ fuel →
          decodeCoordinates fuel written index prevLat prevLng coordinates
            = .ok (coordinates ++ points, index + written.length) := by
  induction points with
  | nil =>
    intro prevLat prevLng _ _ _ _ _
    refine ⟨[], fun encoded => by simp [encodeCoordinates], ?_⟩
    intro fuel index coordinates _
    cases fuel <;> simp [decodeCoordinates]
  | cons p rest ih =>
    intro prevLat prevLng a1 a2 b1 b2 hall
    obtain ⟨lat, lng⟩ := p
    obtain ⟨⟨c1, c2⟩, d1, d2⟩ := hall (lat, lng) (List.mem_cons_self _ _)
    simp only at c1 c2 d1 d2
    have hdlat : wrapInt64 (lat - prevLat) = lat - prevLat :=
      wrapInt64_of_range _ (by omega) (by omega)
    have hdlng : wrapInt64 (lng - prevLng) = lng - prevLng :=
      wrapInt64_of_range _ (by omega) (by omega)
    obtain ⟨w1, r1, n1, q1, enc1, dec1⟩ :=
      decodeGroups_encodeValue (lat - prevLat) (by omega) (by omega)
    obtain ⟨w2, r2, n2, q2, enc2, dec2⟩ :=
      decodeGroups_encodeValue (lng - prevLng) (by omega) (by omega)
    obtain ⟨tail, enct, dect⟩ := ih lat lng c1 c2 d1 d2
      (fun p hp => hall p (List.mem_cons_of_mem _ hp))
    refine ⟨w1 ++ (w2 ++ tail), ?_, ?_⟩
    · intro encoded
      simp only [encodeCoordinates, hdlat, hdlng, enc1, enc2, enct, Option.some_bind,
        List.append_assoc]
    · intro fuel index coordinates hfuel
      have hlen : 0 < w1.length := List.length_pos.2 n1
      simp only [List.length_append] at hfuel
      obtain ⟨k, rfl⟩ : ∃ k, fuel = k + 1 := ⟨fuel - 1, by omega⟩
      have hlat : wrapInt64 (prevLat + decodeDelta r1) = lat := by
        rw [q1]
        exact (wrapInt64_of_range _ (by omega) (by omega)).trans (by omega)
      have hlng : wrapInt64 (prevLng + decodeDelta r2) = lng := by
        rw [q2]
        exact (wrapInt64_of_range _ (by omega) (by omega)).trans (by omega)
      rw [decodeCoordinates_step k (w1 ++ (w2 ++ tail)) index prevLat prevLng coordinates
        r1 r2 (index + w1.length) (index + w1.length + w2.length) (w2 ++ tail) tail
        (by simp [n1]) (dec1 _ _) (dec2 _ _), hlat, hlng, dect k _ _ (by omega)]
      simp only [List.append_assoc, List.singleton_append, List.length_append]
      rw [show index + w1.length + w2.length + tail.length
        = index + (w1.length + (w2.length + tail.length)) by omega]

/-- The polyline of the documentation of the format: the three points
(38.5, -120.2), (40.7, -120.95) and (43.252, -126.453). -/
theorem polyline_reference :
    EncodePolyline [(3850000, -12020000), (4070000, -12095000), (4325200, -12645300)]
      = some (goStr "_p~iF~ps|U_ulLnnqC_mqNvxq`@") := by
  decide

/-- A latitude of 5e13 degrees, an int of `5 * 10^18`: the shift `value << 1` of
`encodeValue` wraps around to a negative value, the loop is skipped and the byte
`?` is written, which the decoder reads as 0. -/
theorem polyline_shift_wraps :
    EncodePolyline [(5000000000000000000, 0)] = some (goStr "??") ∧
    DecodePolyline (goStr "??") = .ok ([(0, 0)], 2) :=
  ⟨by decide, rfl⟩

/-- C30 (with a range): for every list of coordinates whose rounded values
`round(lat * 1e5)` and `round(lng * 1e5)` lie from `-2^61` to `2^61 - 1`,
`EncodePolyline` returns a string, and `DecodePolyline` on it ends without an
index out of range when `index` is the length of the string and returns the
rounded values of the coordinates, in their order and as many. -/
theorem polyline_round_trip (coordinates : List (Int × Int))
    (h : ∀ p ∈ coordinates, (-2305843009213693952 ≤ p.1 ∧ p.1 < 2305843009213693952) ∧
      (-2305843009213693952 ≤ p.2 ∧ p.2 < 2305843009213693952)) :
    ∃ encoded : GoString, EncodePolyline coordinates = some encoded ∧
      DecodePolyline encoded = .ok (coordinates, encoded.length) := by
  obtain ⟨written, henc, hdec⟩ := decodeCoordinates_encodeCoordinates coordinates 0 0
    (by decide) (by decide) (by decide) (by decide) h
  refine ⟨written, ?_, ?_⟩
  · have := henc []
    simpa [EncodePolyline] using this
  · have := hdec written.length 0 [] (Nat.le_refl _)
    simpa [DecodePolyline] using this

/-- Three points with negative longitudes: they are in the range, and the round
trip gives them back. -/
theorem polyline_round_trip_witness :
    (∀ p ∈ [((3850000 : Int), (-12020000 : Int)), (4070000, -12095000), (4325200, -12645300)],
      (-2305843009213693952 ≤ p.1 ∧ p.1 < 2305843009213693952) ∧
      (-2305843009213693952 ≤ p.2 ∧ p.2 < 2305843009213693952)) ∧
    ∃ encoded : GoString,
      EncodePolyline [(3850000, -12020000), (4070000, -12095000), (4325200, -12645300)]
        = some encoded ∧
      DecodePolyline encoded
        = .ok ([(3850000, -12020000), (4070000, -12095000), (4325200, -12645300)],
          encoded.length) :=
  ⟨by decide, polyline_round_trip _ (by decide)⟩

end Strava
